import Mathlib

/-!
# Amanzi: reactant resolution, the batch chemistry driver, tabular functions, boundary values,
the dam-break solution

A shallow embedding of `src/chemistry/reactions/KineticRate.cpp`, of the driver
`src/chemistry/tests_regression/batch_chem.cc`, of `src/structured_grid/utils/TabularFunction.cpp`,
of `Richards_PK::DeriveBoundaryFaceValue`, of `Chemistry_PK::Initialize` and of
`dam_break_1D_exact` (`src/pks/shallow_water/test/shallow_water_1D.cc`).  The conventions
below are those of `KineticRate.cpp`; each later part states its own.

* `std::vector<T>` is a `List T`, `std::string` is a `String`.
* `double` is an arbitrary carrier `D` with a zero: the code only stores, copies and prints
  coefficients, it never computes with them.  Equality of coefficients is equality of the
  stored values.
* A pointer argument that may be `NULL` is an `Option`.
* `std::cout` is the list of the lines written, one entry for each `std::endl`.
* The loop counters are `unsigned int`; vectors of `2^32` or more reactant names are outside
  the model.
-/

namespace Amanzi

/-- Modelled from the spec: the typedef of `SpeciesName` lives in `Species.hpp`, which is not
among the sources; names are compared with `==` and printed, so they are strings. -/
abbrev SpeciesName := String

/-- Modelled from the spec: class `Species` (`Species.hpp`) is not among the sources;
`SetSpeciesIds` reads only `name()` and `identifier()`.  The identifier type `SpeciesId` is a
signed machine integer, here `Int`: identifiers "double as indices into concentration/stoichiometry
arrays". -/
structure Species where
  identifier : Int
  name : SpeciesName
  deriving DecidableEq

/-- The species pool `SpeciesArray`, a `std::vector<Species>`. -/
abbrev SpeciesArray := List Species

/-- Modelled from the spec: the enumeration of `Verbosity.hpp`, which is not among the sources:
"silent/terse/verbose/debug and finer-grained debug categories for kinetics, database parsing,
the Newton solver", with the level names the sources use. -/
inductive Verbosity
  | kSilent
  | kTerse
  | kVerbose
  | kDebug
  | kDebugBeaker
  | kDebugInputFile
  | kDebugMineralKinetics
  | kDebugNewtonSolver
  | kDebugDriver
  deriving DecidableEq

/-- The ways in which the code can leave defined behaviour: the two ways in which an indexed
access can leave its vector, and an `int` result outside the range of `int`. -/
inductive Fault
  /-- `std::vector::at` throws `std::out_of_range`. -/
  | out_of_range
  /-- `std::vector::operator[]` is used outside the vector: undefined behaviour. -/
  | index_out_of_bounds
  /-- The sum or difference of two `int`s is outside the range of `int`: undefined behaviour. -/
  | signed_overflow
  deriving DecidableEq

/-- Modelled from the spec: the data members of class `KineticRate` (`KineticRate.hpp` is not
among the sources) that `KineticRate.cpp` uses: the verbosity, the name returned by `name()`, and
the three parallel reactant sequences. -/
structure KineticRate (D : Type) where
  verbosity_ : Verbosity
  name_ : String
  reactant_names : List SpeciesName
  reactant_stoichiometry : List D
  reactant_ids : List Int

/-- The accessor `verbosity()`. -/
def KineticRate.verbosity {D : Type} (self : KineticRate D) : Verbosity := self.verbosity_

/-- The accessor `name()`. -/
def KineticRate.name {D : Type} (self : KineticRate D) : String := self.name_

/-- The constructor `KineticRate::KineticRate(void)`: verbosity `kSilent`, the three reactant
vectors cleared; the name is a default-constructed (empty) string. -/
def KineticRate.construct {D : Type} : KineticRate D :=
  { verbosity_ := Verbosity.kSilent
    name_ := ""
    reactant_names := []
    reactant_stoichiometry := []
    reactant_ids := [] }

/-- The member `std::vector::clear`. -/
def vector_clear {α : Type} (_v : List α) : List α := []

/-- The member `std::vector::resize(n, val)`: keep the first `n` elements, pad with `val`. -/
def vector_resize {α : Type} (v : List α) (n : Nat) (val : α) : List α :=
  v.take n ++ List.replicate (n - v.length) val

/-- The state `SetSpeciesIds` writes: the two output vectors (`out_stoichiometry` is `none` when
the caller passed `NULL`) and the lines written to `std::cout`. -/
structure Outputs (D : Type) where
  out_ids : List Int
  out_stoichiometry : Option (List D)
  cout : List String

/-- The line written for a match (lines 57-58). -/
def foundLine (species_type : String) (s : Species) : String :=
  "    KineticRate::SetSpeciesIds: Found " ++ species_type ++ " species " ++ s.name

/-- The line written for a name without a match (lines 63-65). -/
def notFoundLine (species_type : String) (in_name : SpeciesName) : String :=
  "    KineticRate::SetSpeciesIds: Did not find species \'" ++ in_name ++ "\' in " ++ species_type
    ++ " species list! "

/-- Lines 56-59: the diagnostic after a match, written under `kDebugMineralKinetics` only. -/
def logFound {D : Type} (self : KineticRate D) (species_type : String) (s : Species)
    (out : Outputs D) : Outputs D :=
  if self.verbosity = Verbosity.kDebugMineralKinetics then
    { out with cout := out.cout ++ [foundLine species_type s] }
  else out

/-- The inner loop of `SetSpeciesIds` (lines 48-61) for the input name at position `current`,
over the species still to be visited.  It threads `species_found` and the outputs. -/
def speciesLoop {D : Type} (self : KineticRate D) (species_type : String)
    (in_name : SpeciesName) (in_stoichiometry : List D) (current : Nat) :
    List Species → Bool → Outputs D → Except Fault (Bool × Outputs D)
  | [], species_found, out => Except.ok (species_found, out)
  | s :: rest, species_found, out =>
    if in_name = s.name then
      let out1 : Outputs D := { out with out_ids := out.out_ids ++ [s.identifier] }
      match out1.out_stoichiometry with
      | none =>
        speciesLoop self species_type in_name in_stoichiometry current rest true
          (logFound self species_type s out1)
      | some v =>
        match in_stoichiometry[current]? with
        | none => Except.error Fault.out_of_range
        | some c =>
          if 0 ≤ s.identifier ∧ s.identifier < (v.length : Int) then
            speciesLoop self species_type in_name in_stoichiometry current rest true
              (logFound self species_type s
                { out1 with out_stoichiometry := some (v.set s.identifier.toNat c) })
          else Except.error Fault.index_out_of_bounds
    else speciesLoop self species_type in_name in_stoichiometry current rest species_found out

/-- The outer loop of `SetSpeciesIds` (lines 44-67) over the input names still to be visited,
`current` being the position of the first of them. -/
def namesLoop {D : Type} (self : KineticRate D) (species : SpeciesArray) (species_type : String)
    (in_stoichiometry : List D) :
    List SpeciesName → Nat → Outputs D → Except Fault (Outputs D)
  | [], _, out => Except.ok out
  | in_name :: rest, current, out =>
    match speciesLoop self species_type in_name in_stoichiometry current species false out with
    | Except.error f => Except.error f
    | Except.ok (species_found, out1) =>
      let out2 : Outputs D :=
        if species_found = false ∧ self.verbosity = Verbosity.kDebugMineralKinetics then
          { out1 with cout := out1.cout ++ [notFoundLine species_type in_name] }
        else out1
      namesLoop self species species_type in_stoichiometry rest (current + 1) out2

/-- The member `KineticRate::SetSpeciesIds` (lines 25-68).  `out_ids` and `out_stoichiometry` are
the contents of the caller's vectors on entry (`out_stoichiometry = none` for `NULL`); the result
holds their contents on return and the lines written, or the fault that stopped the call. -/
def KineticRate.SetSpeciesIds {D : Type} [Zero D] (self : KineticRate D) (species : SpeciesArray)
    (species_type : String) (in_names : List SpeciesName) (in_stoichiometry : List D)
    (out_ids : List Int) (out_stoichiometry : Option (List D)) :
    Except Fault (Outputs D) :=
  let ids := vector_clear out_ids
  let stoichiometry :=
    match out_stoichiometry with
    | none => none
    | some v => some (vector_resize (vector_clear v) species.length (0 : D))
  namesLoop self species species_type in_stoichiometry in_names 0
    { out_ids := ids, out_stoichiometry := stoichiometry, cout := [] }

/-- The loop of `DisplayReaction` (lines 77-84) over the reactant names still to be printed,
`species` being the position of the first of them and `line` the text written so far on the
current line.  `fmt` is the text `operator<<` writes for a `double` after `setprecision(2)`;
`size` is `reactant_names.size()` (at least 1 inside the loop, so that the unsigned `size - 1`
does not wrap). -/
def displayLoop {D : Type} (fmt : D → String) (reactant_stoichiometry : List D) (size : Nat) :
    List SpeciesName → Nat → String → Except Fault String
  | [], _, line => Except.ok line
  | reactant :: rest, species, line =>
    match reactant_stoichiometry[species]? with
    | none => Except.error Fault.out_of_range
    | some c =>
      let line1 := line ++ fmt c ++ " " ++ reactant
      let line2 := if species < size - 1 then line1 ++ " + " else line1
      displayLoop fmt reactant_stoichiometry size rest (species + 1) line2

/-- The member `KineticRate::DisplayReaction` (lines 70-86): the lines written to `std::cout`,
or the fault of `reactant_stoichiometry.at(species)`. -/
def KineticRate.DisplayReaction {D : Type} (self : KineticRate D) (fmt : D → String) :
    Except Fault (List String) :=
  match displayLoop fmt self.reactant_stoichiometry self.reactant_names.length
      self.reactant_names 0 ("      " ++ self.name ++ " = ") with
  | Except.error f => Except.error f
  | Except.ok line => Except.ok ["    Reaction: ", line]

/-- The term `c_i r_i` of the equation: the printed coefficient, one space, the name. -/
def reactionTerm {D : Type} (fmt : D → String) (c : D) (reactant : SpeciesName) : String :=
  fmt c ++ " " ++ reactant

/-- The pool species whose name equals `in_name`, in pool order: the species at which the inner
loop takes its `if` branch. -/
def matched (species : SpeciesArray) (in_name : SpeciesName) : List Species :=
  species.filter (fun s => decide (in_name = s.name))

/-- The fault, if any, of the assignment `(*out_stoichiometry)[id] = in_stoichiometry.at(current)`
into a vector of length `n`; a write is given as the identifier and the result of the lookup. -/
def writeFault {D : Type} (n : Nat) (w : Int × Option D) : Option Fault :=
  match w.2 with
  | none => some Fault.out_of_range
  | some _ => if 0 ≤ w.1 ∧ w.1 < (n : Int) then none else some Fault.index_out_of_bounds

/-- The effect of one assignment on the vector. -/
def applyWrite {D : Type} (v : List D) (w : Int × Option D) : List D :=
  match w.2 with
  | none => v
  | some c => v.set w.1.toNat c

/-- The assignments the two loops attempt, in order, for the names from position `current` on. -/
def writesFrom {D : Type} (species : SpeciesArray) (in_stoichiometry : List D) :
    List SpeciesName → Nat → List (Int × Option D)
  | [], _ => []
  | in_name :: rest, current =>
    (matched species in_name).map (fun s => (s.identifier, in_stoichiometry[current]?))
      ++ writesFrom species in_stoichiometry rest (current + 1)

/-- The identifiers the two loops push, in order. -/
def idsOf (species : SpeciesArray) : List SpeciesName → List Int
  | [] => []
  | in_name :: rest => (matched species in_name).map Species.identifier ++ idsOf species rest

/-- The lines the inner loop writes for the matches `l`. -/
def foundLines {D : Type} (self : KineticRate D) (species_type : String) (l : List Species) :
    List String :=
  if self.verbosity = Verbosity.kDebugMineralKinetics then l.map (foundLine species_type) else []

/-- The lines the two loops write, in order. -/
def linesOf {D : Type} (self : KineticRate D) (species : SpeciesArray) (species_type : String) :
    List SpeciesName → List String
  | [] => []
  | in_name :: rest =>
    foundLines self species_type (matched species in_name)
      ++ (if (matched species in_name).isEmpty = true
            ∧ self.verbosity = Verbosity.kDebugMineralKinetics
          then [notFoundLine species_type in_name] else [])
      ++ linesOf self species species_type rest

/-- The fixed text that opens every line written for a name without a match. -/
def notFoundOpening : String := "    KineticRate::SetSpeciesIds: Did not find species \'"

/-- Whether a line of `std::cout` is a 'Did not find species' line. -/
def isNotFoundLine (line : String) : Bool := notFoundOpening.data.isPrefixOf line.data

/-- Splitting a text once on a separator: the text before and the text after the first (leftmost)
occurrence of `sep`, or `none` when `sep` does not occur. -/
def splitOnceChars (sep : List Char) : List Char → Option (List Char × List Char)
  | [] => none
  | c :: cs =>
    if sep.isPrefixOf (c :: cs) then some ([], (c :: cs).drop sep.length)
    else (splitOnceChars sep cs).map (fun p => (c :: p.1, p.2))

/-- Splitting a text on every occurrence of a separator, found from the left and not
overlapping; `fuel` bounds the number of separators looked for. -/
def splitAllChars (sep : List Char) : Nat → List Char → List (List Char)
  | 0, s => [s]
  | fuel + 1, s =>
    match splitOnceChars sep s with
    | none => [s]
    | some (a, b) => a :: splitAllChars sep fuel b

/-- The function `splitOnceChars` on strings. -/
def splitOnce (sep s : String) : Option (String × String) :=
  (splitOnceChars sep.data s.data).map (fun p => (String.mk p.1, String.mk p.2))

/-- The function `splitAllChars` on strings; a text has fewer separators than characters. -/
def splitAll (sep s : String) : List String :=
  (splitAllChars sep.data s.data.length s.data).map String.mk

/-- Each term split at its first space into printed coefficient and name; `none` when some term
has no space. -/
def splitTerms : List String → Option (List (String × String))
  | [] => some []
  | t :: ts =>
    match splitOnce " " t, splitTerms ts with
    | some p, some ps => some (p :: ps)
    | _, _ => none

/-- The re-tokenisation of the spec's display invariant: the equation line is split once on
`" = "`, its right-hand side on `" + "`, and each term at its first space; the result is the list
of names and the list of printed coefficients. -/
def retokenize (line : String) : Option (List SpeciesName × List String) :=
  match splitOnce " = " line with
  | none => none
  | some (_, rhs) =>
    match splitTerms (splitAll " + " rhs) with
    | none => none
    | some terms => some (terms.map Prod.snd, terms.map Prod.fst)

/-- The text written for the coefficients 0, 1 and 2 of the examples (`operator<<` after
`setprecision(2)` writes a whole number of one digit as that digit). -/
def printSmall (c : Int) : String :=
  if c = 1 then "1" else if c = 2 then "2" else "0"

/-- A pool of three primary species, identifiers assigned densely from 0, on which the theorems
are instantiated. -/
def samplePool : SpeciesArray := [⟨0, "Ca++"⟩, ⟨1, "HCO3-"⟩, ⟨2, "H+"⟩]

/-- A rate whose second reactant is not in `samplePool`. -/
def sampleRate : KineticRate Int :=
  { verbosity_ := Verbosity.kSilent
    name_ := "Calcite"
    reactant_names := ["H+", "SiO2(aq)", "Ca++"]
    reactant_stoichiometry := [2, 1, 1]
    reactant_ids := [] }

/-- The rate `sampleRate` at the verbosity `kDebugMineralKinetics`. -/
def sampleRateDebug : KineticRate Int :=
  { sampleRate with verbosity_ := Verbosity.kDebugMineralKinetics }

/-- A rate whose first reactant is named `+`. -/
def samplePlusRate : KineticRate Int :=
  { verbosity_ := Verbosity.kSilent
    name_ := "N"
    reactant_names := ["+", "B"]
    reactant_stoichiometry := [1, 2]
    reactant_ids := [] }

/-- A rate named `=`. -/
def sampleEqRate : KineticRate Int :=
  { verbosity_ := Verbosity.kSilent
    name_ := "="
    reactant_names := ["A", "B"]
    reactant_stoichiometry := [1, 2]
    reactant_ids := [] }

/-! ## `TabularFunction` (`src/structured_grid/utils/TabularFunction.cpp`)

`Real` is a `double`, here a `Double`: a finite value, which is a rational number, or NaN.  A
comparison with NaN is false and arithmetic with NaN gives NaN; the order and the arithmetic of
finite values are exact, and infinities, signed zeros and rounding are not modelled.  `Array<T>`
is a `List T` indexed by an `int` of 32 bits: `int n = x_.size()` keeps the size modulo `2^32`,
and an `int` sum or difference outside the range of `int` is the fault `signed_overflow`. -/

/-- The element `a[i]` of an `Array` for an `int` index, `none` outside the array. -/
def elemAt {α : Type} (a : List α) (i : Int) : Option α :=
  if 0 ≤ i then a[i.toNat]? else none

/-- A `double`: a finite value or NaN. -/
inductive Double
  | finite (value : ℚ)
  | nan
  deriving DecidableEq

instance (n : Nat) [OfNat ℚ n] : OfNat Double n := ⟨Double.finite (OfNat.ofNat n)⟩

/-- The comparison `a <= b` of two `double`s: false when one of them is NaN. -/
def Double.le : Double → Double → Prop
  | Double.finite p, Double.finite q => p ≤ q
  | _, _ => False

/-- The comparison `a < b` of two `double`s: false when one of them is NaN. -/
def Double.lt : Double → Double → Prop
  | Double.finite p, Double.finite q => p < q
  | _, _ => False

instance : LE Double := ⟨Double.le⟩

instance : LT Double := ⟨Double.lt⟩

instance (a b : Double) : Decidable (a ≤ b) :=
  match a, b with
  | Double.finite p, Double.finite q => inferInstanceAs (Decidable (p ≤ q))
  | Double.finite _, Double.nan => isFalse (fun h => h)
  | Double.nan, _ => isFalse (fun h => h)

instance (a b : Double) : Decidable (a < b) :=
  match a, b with
  | Double.finite p, Double.finite q => inferInstanceAs (Decidable (p < q))
  | Double.finite _, Double.nan => isFalse (fun h => h)
  | Double.nan, _ => isFalse (fun h => h)

/-- An arithmetic operation on two `double`s: NaN when an operand is NaN. -/
def Double.lift (f : ℚ → ℚ → ℚ) : Double → Double → Double
  | Double.finite p, Double.finite q => Double.finite (f p q)
  | _, _ => Double.nan

instance : Add Double := ⟨Double.lift (· + ·)⟩

instance : Sub Double := ⟨Double.lift (· - ·)⟩

instance : Mul Double := ⟨Double.lift (· * ·)⟩

instance : Div Double := ⟨Double.lift (· / ·)⟩

/-- The negation of a `double`. -/
def Double.neg : Double → Double
  | Double.finite p => Double.finite (-p)
  | Double.nan => Double.nan

instance : Neg Double := ⟨Double.neg⟩

/-- The value of a finite `double`, and zero for NaN. -/
def Double.toRat : Double → ℚ
  | Double.finite p => p
  | Double.nan => 0

/-- The values of an `int` of 32 bits. -/
def inInt (i : Int) : Prop := -2147483648 ≤ i ∧ i ≤ 2147483647

instance (i : Int) : Decidable (inInt i) :=
  inferInstanceAs (Decidable (-2147483648 ≤ i ∧ i ≤ 2147483647))

/-- The conversion of a size to `int` in `int n = x_.size()`: the `int` equal to the size
modulo `2^32`. -/
def int_of_size (k : Nat) : Int := ((k : Int) + 2147483648) % 4294967296 - 2147483648

/-- Modelled from the spec: the enumeration of interval forms of `TabularFunction.H`, which is not
among the sources; `TabularFunction.cpp` uses the two values `LINEAR` and `CONSTANT`. -/
inductive Form
  | LINEAR
  | CONSTANT
  deriving DecidableEq

/-- Modelled from the spec: the data members of class `TabularFunction` (`TabularFunction.H` is
not among the sources) that `TabularFunction.cpp` uses. -/
structure TabularFunction where
  x_ : List Double
  y_ : List Double
  form_ : List Form
  deriving DecidableEq

/-- The ways in which the constructor does not return: `BoxLib::Abort` after the line written to
`std::cerr` or with the message passed to it, or an element access outside an array. -/
inductive CtorStop
  | Abort (cerr : Option String) (message : Option String)
  | index_out_of_bounds
  deriving DecidableEq

/-- The call `BoxLib::Abort()` after a line on `std::cerr`: it does not return. -/
def abortAfter (cerr : String) : Except CtorStop Unit :=
  Except.error (CtorStop.Abort (some cerr) none)

/-- The call `BoxLib::Abort(m.c_str())`: it does not return. -/
def abortWith (m : String) : Except CtorStop Unit :=
  Except.error (CtorStop.Abort none (some m))

/-- The loop of lines 12-17 over `j = 1 .. x.size()-1`, given as the list from `x[j-1]` on: it
aborts at the first `j` with `x[j] <= x[j-1]`; a NaN makes the test false. -/
def increasingLoop : List Double → Except CtorStop Unit
  | [] => Except.ok ()
  | [_] => Except.ok ()
  | a :: b :: rest =>
    if b ≤ a then abortAfter "x values are not strictly increasing"
    else increasingLoop (b :: rest)

/-- The loop of lines 21-33 over the entries of `form` from position `j` on: it stores the form
of each interval in `form_[j]` and aborts at an entry that is neither `LINEAR` nor `CONSTANT`. -/
def formLoop : List String → Nat → List Form → Except CtorStop (List Form)
  | [], _, form_ => Except.ok form_
  | f :: rest, j, form_ =>
    if f = "LINEAR" then
      if j < form_.length then formLoop rest (j + 1) (form_.set j Form.LINEAR)
      else Except.error CtorStop.index_out_of_bounds
    else if f = "CONSTANT" then
      if j < form_.length then formLoop rest (j + 1) (form_.set j Form.CONSTANT)
      else Except.error CtorStop.index_out_of_bounds
    else
      match abortWith ("Unsupported form type: " ++ f) with
      | Except.error e => Except.error e
      | Except.ok () => formLoop rest (j + 1) form_

/-- The constructor `TabularFunction::TabularFunction` (lines 3-35).  The members `x_` and `y_`
are copies of `x` and `y`, and `form_` is default-constructed (empty).  The loop over `form`
stands inside the block of the third check, after the call of `BoxLib::Abort`. -/
def TabularFunction.construct (x y : List Double) (form : List String) :
    Except CtorStop TabularFunction :=
  let self : TabularFunction := { x_ := x, y_ := y, form_ := [] }
  match (if x.length ≠ y.length then abortAfter "the number of x and y values differ"
         else Except.ok ()) with
  | Except.error e => Except.error e
  | Except.ok () =>
    match increasingLoop x with
    | Except.error e => Except.error e
    | Except.ok () =>
      if (form.length : Int) ≠ (x.length : Int) - 1 then
        match abortAfter "incorrect number of form values specified" with
        | Except.error e => Except.error e
        | Except.ok () =>
          match formLoop form 0 self.form_ with
          | Except.error e => Except.error e
          | Except.ok form_ => Except.ok { self with form_ := form_ }
      else Except.ok self

/-- The binary search of `operator()` (lines 48-56), from the state `j1`, `j2` of the loop: the
values of `j1` and `j2` when the loop is left, the fault of an `int` difference `j2 - j1` or sum
`j1 + j2` outside the range of `int`, or the fault of reading `x_[j]`.  The quotient
`(j1 + j2) / 2` of two `int`s truncates. -/
def searchLoop (x_ : List Double) (x : Double) (j1 j2 : Int) : Except Fault (Int × Int) :=
  if ¬ inInt (j2 - j1) then Except.error Fault.signed_overflow
  else if j2 - j1 > 1 then
    if ¬ inInt (j1 + j2) then Except.error Fault.signed_overflow
    else
      match elemAt x_ ((j1 + j2).tdiv 2) with
      | none => Except.error Fault.index_out_of_bounds
      | some xj =>
        if x ≥ xj then searchLoop x_ x ((j1 + j2).tdiv 2) j2
        else searchLoop x_ x j1 ((j1 + j2).tdiv 2)
  else Except.ok (j1, j2)
termination_by (j2 - j1).toNat
decreasing_by
  all_goals
    simp_wf
    rcases lt_or_ge (j1 + j2) 0 with hneg | hpos
    · have h2 : (-(j1 + j2)).tdiv 2 = (-(j1 + j2)) / 2 := Int.tdiv_eq_ediv (by omega) (by omega)
      have h3 : (-(j1 + j2)).tdiv 2 = -((j1 + j2).tdiv 2) := Int.neg_tdiv _ _
      omega
    · have h1 : (j1 + j2).tdiv 2 = (j1 + j2) / 2 := Int.tdiv_eq_ediv hpos (by omega)
      omega

/-- The value an element access delivers, or the fault of leaving the array. -/
def readAt {α : Type} (a : List α) (i : Int) : Except Fault α :=
  match elemAt a i with
  | none => Except.error Fault.index_out_of_bounds
  | some v => Except.ok v

/-- The interpolation of lines 58-66 in the interval found. -/
def interpolate (self : TabularFunction) (x : Double) (j1 j2 : Int) : Except Fault Double :=
  match readAt self.form_ j1 with
  | Except.error f => Except.error f
  | Except.ok Form.LINEAR =>
    match readAt self.y_ j1, readAt self.y_ j2, readAt self.x_ j1, readAt self.x_ j2 with
    | Except.ok y1, Except.ok y2, Except.ok x1, Except.ok x2 =>
      Except.ok (y1 + ((y2 - y1) / (x2 - x1)) * (x - x1))
    | _, _, _, _ => Except.error Fault.index_out_of_bounds
  | Except.ok Form.CONSTANT => readAt self.y_ j1

/-- The member `TabularFunction::operator()` (lines 37-69); `n - 1` is an `int` difference. -/
def TabularFunction.call (self : TabularFunction) (x : Double) : Except Fault Double :=
  let n : Int := int_of_size self.x_.length
  match readAt self.x_ 0 with
  | Except.error f => Except.error f
  | Except.ok x0 =>
    if x ≤ x0 then readAt self.y_ 0
    else if ¬ inInt (n - 1) then Except.error Fault.signed_overflow
    else
      match readAt self.x_ (n - 1) with
      | Except.error f => Except.error f
      | Except.ok xn =>
        if x ≥ xn then readAt self.y_ (n - 1)
        else
          match searchLoop self.x_ x 0 (n - 1) with
          | Except.error f => Except.error f
          | Except.ok (j1, j2) => interpolate self x j1 j2

/-! ## `Richards_PK::DeriveBoundaryFaceValue` (`src/pks/flow/Richards_PK.hh`) -/

/-- The ways in which `DeriveBoundaryFaceValue` can fail: a component that the vector does not
have is viewed, or an element access leaves its array. -/
inductive ViewFault
  | missing_component (name : String)
  | index_out_of_bounds
  deriving DecidableEq

/-- An `Epetra_MultiVector`: the list of its vectors, each the list of its entries, so that
`v[i][j]` is the entry `j` of the vector `i` (as in `vol[0][c]`, `diag[k][i]` of
`Accumulation.cc`). -/
abbrev Epetra_MultiVector := List (List ℚ)

/-- The double indexing `v[i][j]` of an `Epetra_MultiVector`. -/
def Epetra_MultiVector.entry (v : Epetra_MultiVector) (i j : Int) : Except ViewFault ℚ :=
  match elemAt v i with
  | none => Except.error ViewFault.index_out_of_bounds
  | some vec =>
    match elemAt vec j with
    | none => Except.error ViewFault.index_out_of_bounds
    | some a => Except.ok a

/-- Modelled from the spec: class `CompositeVector` is not among the sources; the function uses
its named components only. -/
structure CompositeVector where
  components : List (String × Epetra_MultiVector)

/-- The member `CompositeVector::HasComponent`. -/
def CompositeVector.HasComponent (u : CompositeVector) (name : String) : Bool :=
  (u.components.lookup name).isSome

/-- The member `CompositeVector::ViewComponent`. -/
def CompositeVector.ViewComponent (u : CompositeVector) (name : String) :
    Except ViewFault Epetra_MultiVector :=
  match u.components.lookup name with
  | none => Except.error (ViewFault.missing_component name)
  | some v => Except.ok v

/-- Modelled from the spec: the members of `Richards_PK` that `DeriveBoundaryFaceValue` reads:
the boundary data `op_bc_->bc_model()`, `op_bc_->bc_value()` and the cells of a face given by
`mesh_->face_get_cells`. -/
structure Richards_PK where
  bc_model : List Int
  bc_value : List ℚ
  face_get_cells : Int → List Int

/-- The member `Richards_PK::DeriveBoundaryFaceValue` (lines 159-180).  The constant
`Operators::OPERATOR_BC_DIRICHLET`, declared outside the sources, is a parameter; the argument
`model` is not used by the code. -/
def Richards_PK.DeriveBoundaryFaceValue (self : Richards_PK) (OPERATOR_BC_DIRICHLET : Int)
    (f : Int) (u : CompositeVector) : Except ViewFault ℚ :=
  if u.HasComponent "face" then
    match u.ViewComponent "face" with
    | Except.error e => Except.error e
    | Except.ok u_face => u_face.entry f 0
  else
    match elemAt self.bc_model f with
    | none => Except.error ViewFault.index_out_of_bounds
    | some m =>
      if m = OPERATOR_BC_DIRICHLET then
        match elemAt self.bc_value f with
        | none => Except.error ViewFault.index_out_of_bounds
        | some v => Except.ok v
      else
        match u.ViewComponent "cell" with
        | Except.error e => Except.error e
        | Except.ok u_cell =>
          match elemAt (self.face_get_cells f) 0 with
          | none => Except.error ViewFault.index_out_of_bounds
          | some c => u_cell.entry 0 c

/-- A boundary description of three faces, the face 0 carrying a Dirichlet condition (model 1)
with value 5; each face `f` has the single cell `f`. -/
def sampleRichards : Richards_PK :=
  { bc_model := [1, 0, 0]
    bc_value := [5, 0, 0]
    face_get_cells := fun f => [f] }

/-- A solution with one unknown on each of three faces and of three cells. -/
def sampleFaceSolution : CompositeVector :=
  { components := [("cell", [[1, 2, 3]]), ("face", [[10, 20, 30]])] }

/-- A solution with one unknown on each of three cells and no face component. -/
def sampleCellSolution : CompositeVector :=
  { components := [("cell", [[1, 2, 3]])] }

/-! ## `Chemistry_PK::Initialize` (`src/pks/chemistry/Chemistry_PK.cc`) -/

/-- Modelled from the spec: a field of `State` (class `State` is not among the sources): the
data of its component `cell`, one list of values for each cell, and the flag `initialized()`. -/
structure Field where
  data : List (List ℚ)
  initialized : Bool
  deriving DecidableEq

/-- The member `PutScalar` of the field data: every entry becomes `value`. -/
def Field.PutScalar (fld : Field) (value : ℚ) : Field :=
  { fld with data := fld.data.map (fun cell => cell.map (fun _ => value)) }

/-- The member `set_initialized` of a field. -/
def Field.set_initialized (fld : Field) : Field :=
  { fld with initialized := true }

/-- Modelled from the spec: the field registry `State`, the fields by name; `HasField` is
`isSome`. -/
abbrev State := String → Option Field

/-- Modelled from the spec: the members of `Chemistry_PK` that `Initialize` uses
(`Chemistry_PK.hh` is not among the sources).  `verbose_medium` stands for
`vo_->getVerbLevel() >= Teuchos::VERB_MEDIUM`, and `os` holds the pairs (field name, value) of
the lines `initilized <fieldname> to value <default_val>` written to `*vo_->os()`. -/
structure Chemistry_PK where
  number_aqueous_components_ : Int
  number_minerals_ : Int
  number_ion_exchange_sites_ : Int
  number_sorption_sites_ : Int
  using_sorption_ : Bool
  using_sorption_isotherms_ : Bool
  S_ : State
  verbose_medium : Bool
  os : List (String × ℚ)

/-- The failure of `S_->GetField(name, passwd_)` for a field that `State` does not have. -/
inductive StateFault
  | no_field (name : String)
  deriving DecidableEq

/-- The member `Chemistry_PK::InitializeField_` (lines 201-213). -/
def Chemistry_PK.InitializeField_ (self : Chemistry_PK) (fieldname : String) (default_val : ℚ) :
    Chemistry_PK :=
  match self.S_ fieldname with
  | none => self
  | some fld =>
    if fld.initialized = false then
      { self with
        S_ := Function.update self.S_ fieldname (some (fld.PutScalar default_val).set_initialized)
        os := if self.verbose_medium then self.os ++ [(fieldname, default_val)] else self.os }
    else self

/-- Lines 159-177 of `Initialize`: the aqueous species. -/
def Chemistry_PK.aqueousSpecies (self : Chemistry_PK) : Except StateFault Chemistry_PK :=
  if self.number_aqueous_components_ > 0 then
    match self.S_ "total_component_concentration" with
    | none => Except.error (StateFault.no_field "total_component_concentration")
    | some fld =>
      let s1 := if fld.initialized = false
        then self.InitializeField_ "total_component_concentration" 0 else self
      let s2 := s1.InitializeField_ "free_ion_species" 0
      let s3 := s2.InitializeField_ "primary_activity_coeff" 1
      let s4 := if s3.using_sorption_ then s3.InitializeField_ "total_sorbed" 0 else s3
      let s5 := if s4.using_sorption_isotherms_ then
          ((s4.InitializeField_ "isotherm_kd" (-1)).InitializeField_ "isotherm_freundlich_n" 1
            ).InitializeField_ "isotherm_langmuir_b" 1
        else s4
      Except.ok s5
  else Except.ok self

/-- The member `Chemistry_PK::Initialize` (lines 156-195). -/
def Chemistry_PK.Initialize (self : Chemistry_PK) : Except StateFault Chemistry_PK :=
  match self.aqueousSpecies with
  | Except.error e => Except.error e
  | Except.ok s1 =>
    let s2 := if s1.number_minerals_ > 0 then
        (s1.InitializeField_ "mineral_volume_fractions" 0).InitializeField_
          "mineral_specific_surface_area" 1
      else s1
    let s3 := if s2.number_ion_exchange_sites_ > 0 then
        (s2.InitializeField_ "ion_exchange_sites" 1).InitializeField_
          "ion_exchange_ref_cation_conc" 1
      else s2
    let s4 := if s3.number_sorption_sites_ > 0 then
        (s3.InitializeField_ "sorption_sites" 1).InitializeField_
          "surface_complex_free_site_conc" 1
      else s3
    Except.ok s4

/-- A state of two cells and two aqueous components in which the total concentrations are
initialized and the free-ion concentrations and activity coefficients are not. -/
def sampleState : State := fun name =>
  if name = "total_component_concentration" then some ⟨[[1, 2], [3, 4]], true⟩
  else if name = "free_ion_species" then some ⟨[[7, 7], [7, 7]], false⟩
  else if name = "primary_activity_coeff" then some ⟨[[7, 7], [7, 7]], false⟩
  else none

/-- A chemistry process kernel with two aqueous components on `sampleState`. -/
def sampleChemistry : Chemistry_PK :=
  { number_aqueous_components_ := 2
    number_minerals_ := 0
    number_ion_exchange_sites_ := 0
    number_sorption_sites_ := 0
    using_sorption_ := false
    using_sorption_isotherms_ := false
    S_ := sampleState
    verbose_medium := false
    os := [] }

/-! ## The batch driver (`src/chemistry/tests_regression/batch_chem.cc`)

The run of `main` is the list of the events it causes, in order, and the way it ends.  The
members of `Beaker` (`beaker.hh` is not among the sources) are an environment; the text of the
input file and its parsing by `ReadInputFile` are not modelled, only what has been read.  The
`BeakerParameters` are built once, before `Setup`, from the simulation parameters and are the
same in every call, so the calls are recorded with their components only. -/

/-- The macro `EXIT_SUCCESS` of `<cstdlib>`. -/
def EXIT_SUCCESS : Int := 0

/-- The macro `EXIT_FAILURE` of `<cstdlib>`. -/
def EXIT_FAILURE : Int := 1

/-- Modelled from the spec: the per-cell chemical state `Beaker::BeakerComponents`, "dense
arrays, one entry per species/mineral/site". -/
structure BeakerComponents where
  free_ion : List ℚ
  minerals : List ℚ
  ion_exchange_sites : List ℚ
  total : List ℚ
  total_sorbed : List ℚ
  deriving DecidableEq

/-- Modelled from the spec: the members of `SimulationParameters` (`batch_chem.hh` is not among
the sources) on which the control flow of `main` depends; `verbosity` is the value of the
verbosity enumeration. -/
structure SimulationParameters where
  verbosity_names : List String
  verbosity : Int
  text_output : String
  database_file : String
  num_time_steps : Int
  output_interval : Int
  delta_time : ℚ

/-- Modelled from the spec: the values of the levels of `chemistry_verbosity.hh`, which is not
among the sources, that the driver names. -/
structure VerbosityLevels where
  kError : Int
  kTerse : Int
  kVerbose : Int
  kDebugBeaker : Int
  kDebugDriver : Int

/-- One result of `getopt(argc, argv, "di:ht:v:?")`, with `optarg` where the option takes an
argument; `unrecognised` is the result `'?'`. -/
inductive CommandLineOption
  | d
  | i (optarg : String)
  | t (optarg : String)
  | v (optarg : String)
  | h
  | unrecognised
  deriving DecidableEq

/-- The exceptions a member of `Beaker` can raise: the three kinds `main` catches, with the text
of `what()`, and any other. -/
inductive Raised
  | ChemistryException (what : String)
  | runtime_error (what : String)
  | logic_error (what : String)
  | other
  deriving DecidableEq

/-- What `main` does that can be observed. -/
inductive Event
  | cout (line : String)
  | Write (level : Int) (message : String)
  | WriteTemplateFile (file_name : String)
  | AddLevel (name : String)
  | PrintInput
  | SetupTextOutput
  | NewBeaker
  | Setup (components : BeakerComponents)
  | Display
  | DisplayComponents
  | Speciate (components : BeakerComponents)
  | CopyBeakerToComponents
  | DisplayResults
  | DisplayTotalColumnHeaders
  | DisplayTotalColumns
  | GetPrimaryNames
  | WriteTextOutputHeader
  | WriteTextOutput
  | ReactionStep (components : BeakerComponents)
  | WriteStatus (time_step : Int)
  | raised (r : Raised)
  deriving DecidableEq

/-- The calls of the solver: `Setup`, `Speciate`, `CopyBeakerToComponents`, `ReactionStep`. -/
def Event.isSolverCall : Event → Bool
  | Event.Setup _ => true
  | Event.Speciate _ => true
  | Event.CopyBeakerToComponents => true
  | Event.ReactionStep _ => true
  | _ => false

/-- The events that involve a `Beaker`: its construction and the calls of its members. -/
def Event.isBeakerEvent : Event → Bool
  | Event.NewBeaker => true
  | Event.Setup _ => true
  | Event.Display => true
  | Event.DisplayComponents => true
  | Event.Speciate _ => true
  | Event.CopyBeakerToComponents => true
  | Event.DisplayResults => true
  | Event.DisplayTotalColumnHeaders => true
  | Event.DisplayTotalColumns => true
  | Event.GetPrimaryNames => true
  | Event.ReactionStep _ => true
  | Event.WriteStatus _ => true
  | _ => false

/-- The events that mark an exception leaving a member of `Beaker`. -/
def Event.isRaised : Event → Bool
  | Event.raised _ => true
  | _ => false

/-- How `main` ends: by `return error`, by `exit(status)`, by `abort()`, by an exception that no
handler catches, or in the undefined behaviour of the remainder by zero. -/
inductive Ending
  | returned (error : Int)
  | exited (status : Int)
  | aborted
  | terminated
  | remainder_by_zero
  deriving DecidableEq

/-- A run of `main`. -/
structure Run where
  events : List Event
  ending : Ending

/-- The environment of `main`: the constructor defaults of `SimulationParameters`, whether the
template file can be opened, what `ReadInputFile` leaves in its two output arguments (`none` when
the input file cannot be opened), `RemoveLeadingAndTrailingWhitespace`, the values of the
verbosity levels, and the members of the `Beaker` on a beaker state `B`. -/
structure Environment (B : Type) where
  default_params : SimulationParameters
  template_opens : String → Bool
  ReadInputFile : String → SimulationParameters → BeakerComponents →
    Option (SimulationParameters × BeakerComponents)
  RemoveLeadingAndTrailingWhitespace : String → String
  levels : VerbosityLevels
  SimpleThermoDatabase : B
  Setup : B → BeakerComponents → Except Raised B
  Speciate : B → BeakerComponents → Except Raised B
  CopyBeakerToComponents : B → BeakerComponents → Except Raised BeakerComponents
  ReactionStep : B → BeakerComponents → ℚ → Except Raised (B × BeakerComponents)

/-- The variables `CommandLineOptions` writes through its pointer arguments, its return value
`error`, and the lines it writes to `std::cout`. -/
structure CommandLine where
  error : Int
  verbosity_name : String
  input_file_name : String
  template_file_name : String
  debug_batch_driver : Bool
  cout : List String

/-- The lines of the help text (lines 293-312). -/
def helpLines (argv0 : String) : List String :=
  [argv0 ++ " command line options:",
   "    -d",
   "         debugging flag for batch driver",
   "    -i string ",
   "         input file name",
   "",
   "    -t string",
   "         write a template input file",
   "",
   "    -v string",
   "         additional verbosity level:",
   "            silent",
   "            terse",
   "            verbose",
   "            debug",
   "            debug_beaker",
   "            debug_database",
   "            debug_mineral_kinetics",
   "            debug_ion_exchange",
   "            debug_newton_solver"]

/-- One turn of the `switch` of `CommandLineOptions` (lines 269-320). -/
def optionStep (argv0 : String) (cl : CommandLine) : CommandLineOption → CommandLine
  | CommandLineOption.d => { cl with debug_batch_driver := true }
  | CommandLineOption.i optarg => { cl with input_file_name := optarg, error := EXIT_SUCCESS }
  | CommandLineOption.t optarg => { cl with template_file_name := optarg, error := EXIT_SUCCESS }
  | CommandLineOption.v optarg => { cl with verbosity_name := optarg }
  | CommandLineOption.h => { cl with cout := cl.cout ++ helpLines argv0, error := -1 }
  | CommandLineOption.unrecognised =>
    { cl with cout := cl.cout ++ helpLines argv0, error := -1 }

/-- The test `!s.c_str()` of line 323: the pointer `c_str()` of a `std::string` is never null. -/
def c_str_is_null (_s : String) : Bool := false

/-- The text of the message of lines 330-336. -/
def commandLineMessage (cl : CommandLine) : String :=
  "- Command Line Options -----------------------------------------------\n"
    ++ "\tdebug batch driver: " ++ (if cl.debug_batch_driver then "1" else "0") ++ "\n"
    ++ "\tinput file name: " ++ cl.input_file_name ++ "\n"
    ++ "\ttemplate file name: " ++ cl.template_file_name ++ "\n"
    ++ "\tverbosity name: " ++ cl.verbosity_name ++ "\n"
    ++ "----------------------------------------------- Command Line Options -\n"
    ++ "\n\n"

/-- The function `CommandLineOptions` (lines 258-340) on the results of `getopt` in order, the
variables behind the four pointers holding the empty strings and `false` of `main`; the second
component is the message written to `chem_out` at `kDebugDriver`, if any. -/
def CommandLineOptions (argv0 : String) (options : List CommandLineOption) :
    CommandLine × Option String :=
  let start : CommandLine :=
    { error := -2, verbosity_name := "", input_file_name := "", template_file_name := "",
      debug_batch_driver := false, cout := [] }
  let cl := options.foldl (optionStep argv0) start
  let cl1 : CommandLine :=
    if c_str_is_null cl.input_file_name = true ∧ c_str_is_null cl.template_file_name = true then
      { cl with cout := cl.cout ++ ["An input or template file name must be specified.",
          "Run \"" ++ argv0 ++ " -h \" for help."] }
    else cl
  (cl1, if cl1.debug_batch_driver then some (commandLineMessage cl1) else none)

/-- How the `try` block of `main` is left. -/
inductive TryOutcome
  | completed
  | raised (r : Raised)
  | remainder_by_zero
  deriving DecidableEq

/-- An exception, if one is raised, is the last event: the outcome `raised r` goes with events
that end in `raised r` and hold no other exception, and any other outcome with events that hold
none. -/
def RaiseLast (events : List Event) : TryOutcome → Prop
  | TryOutcome.raised r =>
    ∃ before, events = before ++ [Event.raised r] ∧ ∀ e ∈ before, e.isRaised = false
  | _ => ∀ e ∈ events, e.isRaised = false

/-- The loop of lines 166-184 over the remaining time steps, from the step `time_step`. -/
def timeStepLoop {B : Type} (env : Environment B) (p : SimulationParameters) :
    Nat → Int → B → BeakerComponents → List Event × TryOutcome × B × BeakerComponents
  | 0, _, chem, components => ([], TryOutcome.completed, chem, components)
  | remaining + 1, time_step, chem, components =>
    match env.ReactionStep chem components p.delta_time with
    | Except.error r =>
      ([Event.ReactionStep components, Event.raised r], TryOutcome.raised r, chem, components)
    | Except.ok (chem1, components1) =>
      if p.output_interval = 0 then
        ([Event.ReactionStep components], TryOutcome.remainder_by_zero, chem1, components1)
      else
        let shown := if (time_step + 1) % p.output_interval = 0
          then [Event.DisplayTotalColumns, Event.WriteTextOutput] else []
        let status := if p.verbosity ≥ env.levels.kDebugBeaker
          then [Event.WriteStatus time_step] else []
        let rest := timeStepLoop env p remaining (time_step + 1) chem1 components1
        (Event.ReactionStep components :: (shown ++ status ++ rest.1), rest.2)

/-- Lines 152-190: the reaction stepping and the final speciation. -/
def reactionStepping {B : Type} (env : Environment B) (p : SimulationParameters) (chem : B)
    (components : BeakerComponents) : List Event × TryOutcome :=
  if p.num_time_steps ≠ 0 then
    let head := [Event.Write env.levels.kVerbose
        "-- Test Beaker Reaction Stepping -------------------------------------\n",
      Event.DisplayTotalColumnHeaders, Event.DisplayTotalColumns, Event.GetPrimaryNames,
      Event.WriteTextOutputHeader, Event.WriteTextOutput]
    match timeStepLoop env p p.num_time_steps.toNat 0 chem components with
    | (steps, TryOutcome.completed, chem1, components1) =>
      let final := [Event.Write env.levels.kVerbose "---- Final Speciation\n",
        Event.Speciate components1]
      match env.Speciate chem1 components1 with
      | Except.error r => (head ++ steps ++ final ++ [Event.raised r], TryOutcome.raised r)
      | Except.ok _ =>
        (head ++ steps ++ final ++
          (if p.verbosity ≥ env.levels.kTerse then [Event.DisplayResults] else []),
          TryOutcome.completed)
    | (steps, outcome, _, _) => (head ++ steps, outcome)
  else ([], TryOutcome.completed)

/-- Lines 131-136: the free-ion concentrations passed to `Setup`. -/
def initialFreeIon (components : BeakerComponents) : BeakerComponents :=
  if components.free_ion.length = 0 then
    { components with
      free_ion := vector_resize components.free_ion components.total.length (1 / 1000000000) }
  else components

/-- The `try` block of `main` (lines 117-193). -/
def tryBlock {B : Type} (env : Environment B) (p : SimulationParameters)
    (components : BeakerComponents) : List Event × TryOutcome :=
  if p.database_file.length ≠ 0 then
    let components1 := initialFreeIon components
    match env.Setup env.SimpleThermoDatabase components1 with
    | Except.error r =>
      ([Event.NewBeaker, Event.Setup components1, Event.raised r], TryOutcome.raised r)
    | Except.ok chem1 =>
      let shown := if p.verbosity ≥ env.levels.kVerbose
        then [Event.Display, Event.DisplayComponents] else []
      let upToSpeciate := [Event.NewBeaker, Event.Setup components1] ++ shown
        ++ [Event.Speciate components1]
      match env.Speciate chem1 components1 with
      | Except.error r => (upToSpeciate ++ [Event.raised r], TryOutcome.raised r)
      | Except.ok chem2 =>
        match env.CopyBeakerToComponents chem2 components1 with
        | Except.error r =>
          (upToSpeciate ++ [Event.CopyBeakerToComponents, Event.raised r], TryOutcome.raised r)
        | Except.ok components2 =>
          let results := if p.verbosity ≥ env.levels.kTerse then [Event.DisplayResults] else []
          let stepping := reactionStepping env p chem2 components2
          (upToSpeciate ++ [Event.CopyBeakerToComponents] ++ results ++ stepping.1, stepping.2)
  else ([Event.Write env.levels.kVerbose "No database file specified in input file.\n"],
    TryOutcome.completed)

/-- Lines 194-217: the handlers of the `try` block, the closing message and `return error`. -/
def finish (levels : VerbosityLevels) (error : Int) : TryOutcome → Run
  | TryOutcome.completed =>
    { events := [Event.Write levels.kVerbose (if error = 0 then "Success!\n" else "Failed!\n")]
      ending := Ending.returned error }
  | TryOutcome.raised (Raised.ChemistryException what) =>
    { events := [Event.Write levels.kError what, Event.Write levels.kVerbose
        (if EXIT_FAILURE = 0 then "Success!\n" else "Failed!\n")]
      ending := Ending.returned EXIT_FAILURE }
  | TryOutcome.raised (Raised.runtime_error what) =>
    { events := [Event.Write levels.kError what, Event.Write levels.kVerbose
        (if EXIT_FAILURE = 0 then "Success!\n" else "Failed!\n")]
      ending := Ending.returned EXIT_FAILURE }
  | TryOutcome.raised (Raised.logic_error what) =>
    { events := [Event.Write levels.kError what, Event.Write levels.kVerbose
        (if EXIT_FAILURE = 0 then "Success!\n" else "Failed!\n")]
      ending := Ending.returned EXIT_FAILURE }
  | TryOutcome.raised Raised.other => { events := [], ending := Ending.terminated }
  | TryOutcome.remainder_by_zero => { events := [], ending := Ending.remainder_by_zero }

/-- Lines 88-217 of `main`: from the verbosity levels to the end, for the components that
passed the check of `total`. -/
def runSimulation {B : Type} (env : Environment B) (cl : CommandLine)
    (p : SimulationParameters) (components : BeakerComponents) : Run :=
  let levels := (if cl.verbosity_name.length ≠ 0 then [Event.AddLevel cl.verbosity_name] else [])
    ++ p.verbosity_names.map (fun name =>
        Event.AddLevel (env.RemoveLeadingAndTrailingWhitespace name))
  let printed := if cl.debug_batch_driver then [Event.PrintInput] else []
  let text := if p.text_output.length > 0 then [Event.SetupTextOutput] else []
  let block := tryBlock env p components
  let last := finish env.levels cl.error block.2
  { events := levels ++ printed ++ text ++ block.1 ++ last.events
    ending := last.ending }

/-- Lines 69-79 of `main`: the components cleared, the parameters default-constructed, and the
input file read when a name was given; `none` when `ReadInputFile` aborts. -/
def readInput {B : Type} (env : Environment B) (cl : CommandLine) :
    Option (SimulationParameters × BeakerComponents) :=
  let components : BeakerComponents :=
    { free_ion := [], minerals := [], ion_exchange_sites := [], total := [], total_sorbed := [] }
  if cl.input_file_name.length ≠ 0 then
    env.ReadInputFile cl.input_file_name env.default_params components
  else some (env.default_params, components)

/-- The error message of line 83. -/
def emptyTotalMessage : String := "Must have a non-zero number of total component values.\n"

/-- The events of the call of `CommandLineOptions`: its lines on `std::cout` and its message to
`chem_out`. -/
def commandLineEvents (levels : VerbosityLevels) (parsed : CommandLine × Option String) :
    List Event :=
  parsed.1.cout.map Event.cout ++
    (match parsed.2 with
     | some message => [Event.Write levels.kDebugDriver message]
     | none => [])

/-- The function `main` (lines 48-217) for the program name `argv0` and the results of `getopt`
in order. -/
def main {B : Type} (env : Environment B) (argv0 : String) (options : List CommandLineOption) :
    Run :=
  let parsed := CommandLineOptions argv0 options
  let cl := parsed.1
  let start := commandLineEvents env.levels parsed
  if cl.template_file_name.length ≠ 0 then
    if env.template_opens cl.template_file_name then
      { events := start ++ [Event.WriteTemplateFile cl.template_file_name]
        ending := Ending.exited EXIT_SUCCESS }
    else
      { events := start ++ [Event.Write env.levels.kError
          ("batch_chem: \ntemplate file \'" ++ cl.template_file_name
            ++ "\' could not be opened.\n")]
        ending := Ending.aborted }
  else
    match readInput env cl with
    | none =>
      { events := start ++ [Event.Write env.levels.kError
          ("batch_chem: \ninput file \'" ++ cl.input_file_name ++ "\' could not be opened.\n")]
        ending := Ending.aborted }
    | some (p, components) =>
      if components.total.length = 0 then
        { events := start ++ [Event.Write env.levels.kError emptyTotalMessage]
          ending := Ending.aborted }
      else
        let run := runSimulation env cl p components
        { events := start ++ run.events, ending := run.ending }

/-- The levels of the examples: error 0, terse 2, verbose 3, the debug levels above. -/
def sampleLevels : VerbosityLevels :=
  { kError := 0, kTerse := 2, kVerbose := 3, kDebugBeaker := 5, kDebugDriver := 9 }

/-- Simulation parameters without a database file. -/
def sampleParametersNoDatabase : SimulationParameters :=
  { verbosity_names := [], verbosity := 0, text_output := "", database_file := ""
    num_time_steps := 0, output_interval := 1, delta_time := 1 }

/-- Simulation parameters with a database file and two time steps. -/
def sampleParameters : SimulationParameters :=
  { verbosity_names := [], verbosity := 0, text_output := "", database_file := "calcite.bgd"
    num_time_steps := 2, output_interval := 1, delta_time := 1 }

/-- An environment whose input file holds two total concentrations and no database file, and
whose beaker never raises. -/
def sampleEnvironment : Environment Unit :=
  { default_params := sampleParametersNoDatabase
    template_opens := fun _ => true
    ReadInputFile := fun _ p c => some (p, { c with total := [1, 2] })
    RemoveLeadingAndTrailingWhitespace := fun s => s
    levels := sampleLevels
    SimpleThermoDatabase := ()
    Setup := fun _ _ => Except.ok ()
    Speciate := fun _ _ => Except.ok ()
    CopyBeakerToComponents := fun _ c => Except.ok c
    ReactionStep := fun _ c _ => Except.ok ((), c) }

/-- An environment whose input file holds two total concentrations, a database file and two
time steps, and whose beaker never raises. -/
def sampleEnvironmentDatabase : Environment Unit :=
  { sampleEnvironment with default_params := sampleParameters }

/-- An environment whose input file holds two total concentrations and a database file, and
whose beaker counts its reaction steps and raises a `ChemistryException` in the second. -/
def sampleEnvironmentRaising : Environment Nat :=
  { default_params := sampleParameters
    template_opens := fun _ => true
    ReadInputFile := fun _ p c => some (p, { c with total := [1, 2] })
    RemoveLeadingAndTrailingWhitespace := fun s => s
    levels := sampleLevels
    SimpleThermoDatabase := 0
    Setup := fun n _ => Except.ok n
    Speciate := fun n _ => Except.ok n
    CopyBeakerToComponents := fun _ c => Except.ok c
    ReactionStep := fun n c _ =>
      if n = 0 then Except.ok (n + 1, c)
      else Except.error (Raised.ChemistryException "maximum iterations") }

/-! ## `dam_break_1D_exact` (`src/pks/shallow_water/test/shallow_water_1D.cc`)

A `double` is a rational number here: the order and the arithmetic are exact and there is no
NaN; `std::sqrt` is a function `sqrt` the
definitions take as an argument, and a division by zero is a fault.  The first coordinates of
the cell centroids of the mesh are a list. -/

/-- The fault of a floating-point division whose divisor is zero. -/
inductive ArithmeticFault
  | division_by_zero
  deriving DecidableEq

/-- The quotient `a / b` of two `double`s, or the fault of a zero divisor. -/
def divide (a b : ℚ) : Except ArithmeticFault ℚ :=
  if b = 0 then Except.error ArithmeticFault.division_by_zero else Except.ok (a / b)

/-- The three branches of `dam_break_1D_exact`: the undisturbed reservoir (lines 103-106), the
rarefaction wave (lines 108-111) and the dry bed (lines 112-115). -/
inductive DamBreakBranch
  | reservoir
  | rarefaction
  | dry
  deriving DecidableEq

/-- The constant `g` of line 97. -/
def dam_break_g : ℚ := 981 / 100

/-- The branch the two tests of lines 103 and 108 select; `sqrt` is `std::sqrt`. -/
def dam_break_1D_branch (sqrt : ℚ → ℚ) (hL x0 t x : ℚ) : DamBreakBranch :=
  let g := dam_break_g
  let xA := x0 - t * sqrt (g * hL)
  let xB := x0 + 2 * t * sqrt (g * hL)
  if 0 ≤ x ∧ x < xA then DamBreakBranch.reservoir
  else if xA ≤ x ∧ x < xB then DamBreakBranch.rarefaction
  else DamBreakBranch.dry

/-- The function `dam_break_1D_exact` (lines 95-118): the values left in `h` and `u`, or the
fault of a division by zero. -/
def dam_break_1D_exact (sqrt : ℚ → ℚ) (hL x0 t x : ℚ) : Except ArithmeticFault (ℚ × ℚ) :=
  let g := dam_break_g
  match dam_break_1D_branch sqrt hL x0 t x with
  | DamBreakBranch.reservoir => Except.ok (hL, 0)
  | DamBreakBranch.rarefaction =>
    match divide 4 (9 * g), divide (x - x0) (2 * t), divide 2 3, divide (x - x0) t with
    | Except.ok a, Except.ok b, Except.ok c, Except.ok d =>
      Except.ok (a * (sqrt (g * hL) - b) * (sqrt (g * hL) - b), c * (d + sqrt (g * hL)))
    | _, _, _, _ => Except.error ArithmeticFault.division_by_zero
  | DamBreakBranch.dry => Except.ok (0, 0)

/-- The loop of `dam_break_1D_exact_field` (lines 124-139) over the first coordinates of the
cell centroids: the pairs stored in `hh_ex[0][c]` and `vx_ex[0][c]`. -/
def dam_break_1D_exact_field (sqrt : ℚ → ℚ) (t : ℚ) :
    List ℚ → Except ArithmeticFault (List (ℚ × ℚ))
  | [] => Except.ok []
  | x :: rest =>
    match dam_break_1D_exact sqrt 10 1000 t x with
    | Except.error e => Except.error e
    | Except.ok hu =>
      match dam_break_1D_exact_field sqrt t rest with
      | Except.error e => Except.error e
      | Except.ok l => Except.ok (hu :: l)

/-- A square root on which the theorems are instantiated: for `a = p/q ≥ 0` the rational
`⌊√(p q)⌋ / q`, which is the square root of `a` rounded down to a multiple of `1/q`. -/
def sampleSqrt (a : ℚ) : ℚ := (Nat.sqrt (a.num.toNat * a.den) : ℚ) / (a.den : ℚ)

/-! ## Closed forms and sample inputs for the later theorems -/

/-- The options at which `CommandLineOptions` prints the help text: `-h` and an option `getopt`
does not recognise. -/
def CommandLineOption.isHelp : CommandLineOption → Bool
  | CommandLineOption.h => true
  | CommandLineOption.unrecognised => true
  | _ => false

/-- The calls `InitializeField_(fieldname, default_val)` that `Initialize` makes, in order, for
the counts and flags of the process kernel (lines 159-194). -/
def Chemistry_PK.handledFields (self : Chemistry_PK) : List (String × ℚ) :=
  (if self.number_aqueous_components_ > 0 then
      [("total_component_concentration", (0 : ℚ)), ("free_ion_species", 0),
        ("primary_activity_coeff", 1)]
      ++ (if self.using_sorption_ then [("total_sorbed", (0 : ℚ))] else [])
      ++ (if self.using_sorption_isotherms_ then
            [("isotherm_kd", (-1 : ℚ)), ("isotherm_freundlich_n", 1), ("isotherm_langmuir_b", 1)]
          else [])
    else [])
  ++ (if self.number_minerals_ > 0 then
        [("mineral_volume_fractions", (0 : ℚ)), ("mineral_specific_surface_area", 1)]
      else [])
  ++ (if self.number_ion_exchange_sites_ > 0 then
        [("ion_exchange_sites", (1 : ℚ)), ("ion_exchange_ref_cation_conc", 1)]
      else [])
  ++ (if self.number_sorption_sites_ > 0 then
        [("sorption_sites", (1 : ℚ)), ("surface_complex_free_site_conc", 1)]
      else [])

/-- A rate in which the reactant `H+` is declared twice, with the coefficients 2 and 5. -/
def sampleRepeatedRate : KineticRate Int :=
  { verbosity_ := Verbosity.kSilent
    name_ := "Calcite"
    reactant_names := ["H+", "Ca++", "H+"]
    reactant_stoichiometry := [2, 1, 5]
    reactant_ids := [] }

/-- A table of three points with the forms of its two intervals. -/
def sampleTable : TabularFunction :=
  { x_ := [0, 1, 3], y_ := [0, 1, 5], form_ := [Form.LINEAR, Form.CONSTANT] }

/-- The table of the `n` abscissae `0, 1, ..., n - 1`. -/
def rampTable (n : Nat) : List Double := (List.range n).map (fun (k : Nat) => Double.finite (k : ℚ))

/-! ## The two loops of `SetSpeciesIds` in closed form -/

theorem matched_cons_pos {species : SpeciesArray} {s : Species} {in_name : SpeciesName}
    (h : in_name = s.name) : matched (s :: species) in_name = s :: matched species in_name := by
  simp [matched, h]

theorem matched_cons_neg {species : SpeciesArray} {s : Species} {in_name : SpeciesName}
    (h : ¬ in_name = s.name) : matched (s :: species) in_name = matched species in_name := by
  simp [matched, h]

theorem foundLines_nil {D : Type} (self : KineticRate D) (ty : String) :
    foundLines self ty [] = [] := by
  unfold foundLines; split <;> rfl

theorem foundLines_cons {D : Type} (self : KineticRate D) (ty : String) (s : Species)
    (l : List Species) :
    foundLines self ty (s :: l) = (logFound self ty s ⟨[], (none : Option (List D)), []⟩).cout
      ++ foundLines self ty l := by
  unfold foundLines logFound; split <;> simp

theorem logFound_eq {D : Type} (self : KineticRate D) (ty : String) (s : Species)
    (ids : List Int) (st : Option (List D)) (co : List String) :
    logFound self ty s ⟨ids, st, co⟩
      = ⟨ids, st, co ++ (logFound self ty s ⟨[], (none : Option (List D)), []⟩).cout⟩ := by
  unfold logFound; split <;> simp

/-- The inner loop without a stoichiometry output: it cannot fault. -/
theorem speciesLoop_none {D : Type} (self : KineticRate D) (ty : String) (nm : SpeciesName)
    (st : List D) (cur : Nat) (sp : List Species) :
    ∀ (found : Bool) (ids : List Int) (co : List String),
      speciesLoop self ty nm st cur sp found ⟨ids, none, co⟩
        = Except.ok (found || !(matched sp nm).isEmpty,
            ⟨ids ++ (matched sp nm).map Species.identifier, none,
              co ++ foundLines self ty (matched sp nm)⟩) := by
  induction sp with
  | nil => intro found ids co; simp [speciesLoop, matched, foundLines_nil]
  | cons s rest ih =>
    intro found ids co
    by_cases h : nm = s.name
    · rw [matched_cons_pos h]
      simp only [speciesLoop, if_pos h]
      rw [logFound_eq, ih, foundLines_cons]
      simp
    · rw [matched_cons_neg h]
      simp only [speciesLoop, if_neg h]
      exact ih found ids co

/-- The inner loop with a stoichiometry output: the first faulty assignment stops it, and without
one it performs the assignments in order. -/
theorem speciesLoop_some {D : Type} (self : KineticRate D) (ty : String) (nm : SpeciesName)
    (st : List D) (cur : Nat) (sp : List Species) :
    ∀ (found : Bool) (ids : List Int) (v : List D) (co : List String),
      speciesLoop self ty nm st cur sp found ⟨ids, some v, co⟩
        = match ((matched sp nm).map (fun s => (s.identifier, st[cur]?))).findSome?
              (writeFault v.length) with
          | some f => Except.error f
          | none => Except.ok (found || !(matched sp nm).isEmpty,
              ⟨ids ++ (matched sp nm).map Species.identifier,
                some (((matched sp nm).map (fun s => (s.identifier, st[cur]?))).foldl applyWrite v),
                co ++ foundLines self ty (matched sp nm)⟩) := by
  induction sp with
  | nil => intro found ids v co; simp [speciesLoop, matched, foundLines_nil]
  | cons s rest ih =>
    intro found ids v co
    by_cases h : nm = s.name
    · rw [matched_cons_pos h]
      simp only [speciesLoop, if_pos h]
      cases hc : st[cur]? with
      | none => simp [writeFault]
      | some c =>
        by_cases hr : 0 ≤ s.identifier ∧ s.identifier < (v.length : Int)
        · simp only [if_pos hr]
          rw [logFound_eq, ih, foundLines_cons]
          simp [writeFault, hr, applyWrite, hc]
        · simp only [if_neg hr]
          simp [writeFault, hr]
    · rw [matched_cons_neg h]
      simp only [speciesLoop, if_neg h]
      exact ih found ids v co

theorem applyWrite_length {D : Type} (v : List D) (w : Int × Option D) :
    (applyWrite v w).length = v.length := by
  unfold applyWrite; split <;> simp

theorem foldl_applyWrite_length {D : Type} (W : List (Int × Option D)) :
    ∀ v : List D, (W.foldl applyWrite v).length = v.length := by
  induction W with
  | nil => intro v; rfl
  | cons w W ih => intro v; rw [List.foldl_cons, ih, applyWrite_length]

/-- The outer loop without a stoichiometry output: it cannot fault. -/
theorem namesLoop_none {D : Type} (self : KineticRate D) (species : SpeciesArray) (ty : String)
    (st : List D) (names : List SpeciesName) :
    ∀ (cur : Nat) (ids : List Int) (co : List String),
      namesLoop self species ty st names cur ⟨ids, none, co⟩
        = Except.ok ⟨ids ++ idsOf species names, none, co ++ linesOf self species ty names⟩ := by
  induction names with
  | nil => intro cur ids co; simp [namesLoop, idsOf, linesOf]
  | cons nm rest ih =>
    intro cur ids co
    simp only [namesLoop, speciesLoop_none]
    by_cases hv : self.verbosity = Verbosity.kDebugMineralKinetics
    · by_cases hm : (matched species nm).isEmpty = true
      · simp [hv, hm, ih, idsOf, linesOf]
      · simp [hv, hm, ih, idsOf, linesOf]
    · simp [hv, ih, idsOf, linesOf]

/-- The outer loop with a stoichiometry output: the first faulty assignment stops it, and without
one the assignments are performed in order. -/
theorem namesLoop_some {D : Type} (self : KineticRate D) (species : SpeciesArray) (ty : String)
    (st : List D) (names : List SpeciesName) :
    ∀ (cur : Nat) (ids : List Int) (v : List D) (co : List String),
      namesLoop self species ty st names cur ⟨ids, some v, co⟩
        = match (writesFrom species st names cur).findSome? (writeFault v.length) with
          | some f => Except.error f
          | none => Except.ok ⟨ids ++ idsOf species names,
              some ((writesFrom species st names cur).foldl applyWrite v),
              co ++ linesOf self species ty names⟩ := by
  induction names with
  | nil => intro cur ids v co; simp [namesLoop, idsOf, linesOf, writesFrom]
  | cons nm rest ih =>
    intro cur ids v co
    simp only [namesLoop, speciesLoop_some, writesFrom, List.findSome?_append]
    cases hf : ((matched species nm).map (fun s => (s.identifier, st[cur]?))).findSome?
        (writeFault v.length) with
    | some f => simp
    | none =>
      simp only [Option.none_or]
      by_cases hc : (false || !(matched species nm).isEmpty) = false
          ∧ self.verbosity = Verbosity.kDebugMineralKinetics
      · have hc2 : (matched species nm).isEmpty = true
            ∧ self.verbosity = Verbosity.kDebugMineralKinetics := by
          refine ⟨?_, hc.2⟩
          have := hc.1
          simpa using this
        simp only [if_pos hc, if_pos hc2, ih, foldl_applyWrite_length, List.foldl_append, idsOf,
          linesOf, List.append_assoc]
      · have hc2 : ¬ ((matched species nm).isEmpty = true
            ∧ self.verbosity = Verbosity.kDebugMineralKinetics) := by
          intro h
          exact hc ⟨by simp [h.1], h.2⟩
        simp only [if_neg hc, if_neg hc2, ih, foldl_applyWrite_length, List.foldl_append, idsOf,
          linesOf, List.append_assoc, List.append_nil]

theorem vector_resize_nil {α : Type} (n : Nat) (val : α) :
    vector_resize ([] : List α) n val = List.replicate n val := by
  simp [vector_resize]

/-- The call without a stoichiometry output returns, with the identifiers and lines of the two
loops. -/
theorem SetSpeciesIds_none {D : Type} [Zero D] (self : KineticRate D) (species : SpeciesArray)
    (ty : String) (names : List SpeciesName) (st : List D) (ids0 : List Int) :
    self.SetSpeciesIds species ty names st ids0 none
      = Except.ok ⟨idsOf species names, none, linesOf self species ty names⟩ := by
  simp [KineticRate.SetSpeciesIds, vector_clear, namesLoop_none]

/-- The call with a stoichiometry output: the first faulty assignment stops it; without one the
assignments are performed in order on the zero vector of the pool size. -/
theorem SetSpeciesIds_some {D : Type} [Zero D] (self : KineticRate D) (species : SpeciesArray)
    (ty : String) (names : List SpeciesName) (st : List D) (ids0 : List Int)
    (v0 : List D) :
    self.SetSpeciesIds species ty names st ids0 (some v0)
      = match (writesFrom species st names 0).findSome? (writeFault species.length) with
        | some f => Except.error f
        | none => Except.ok ⟨idsOf species names,
            some ((writesFrom species st names 0).foldl applyWrite
              (List.replicate species.length (0 : D))),
            linesOf self species ty names⟩ := by
  simp [KineticRate.SetSpeciesIds, vector_clear, vector_resize_nil, namesLoop_some]

theorem mem_matched {species : SpeciesArray} {nm : SpeciesName} {s : Species} :
    s ∈ matched species nm ↔ s ∈ species ∧ nm = s.name := by
  simp [matched]

/-- The assignments attempted are those of the pairs (position, pool species) with equal names. -/
theorem mem_writesFrom {D : Type} (species : SpeciesArray) (st : List D)
    (names : List SpeciesName) :
    ∀ (cur : Nat) (w : Int × Option D),
      w ∈ writesFrom species st names cur ↔
        ∃ j s, names[j]? = some s.name ∧ s ∈ species ∧ w = (s.identifier, st[cur + j]?) := by
  induction names with
  | nil => intro cur w; simp [writesFrom]
  | cons nm rest ih =>
    intro cur w
    simp only [writesFrom, List.mem_append, List.mem_map, mem_matched, ih]
    constructor
    · rintro (⟨s, ⟨hs, hn⟩, rfl⟩ | ⟨j, s, hj, hs, rfl⟩)
      · exact ⟨0, s, by simp [hn], hs, by simp⟩
      · exact ⟨j + 1, s, by simpa using hj, hs, by rw [Nat.add_assoc, Nat.add_comm 1 j]⟩
    · rintro ⟨j, s, hj, hs, rfl⟩
      cases j with
      | zero =>
        left
        exact ⟨s, ⟨hs, by simpa using hj⟩, by simp⟩
      | succ j =>
        right
        exact ⟨j, s, by simpa using hj, hs, by rw [Nat.add_assoc, Nat.add_comm 1 j]⟩

theorem mem_idsOf (species : SpeciesArray) (names : List SpeciesName) (id : Int) :
    id ∈ idsOf species names ↔ ∃ s ∈ species, s.identifier = id ∧ s.name ∈ names := by
  induction names with
  | nil => simp [idsOf]
  | cons nm rest ih =>
    simp only [idsOf, List.mem_append, List.mem_map, mem_matched, ih, List.mem_cons]
    constructor
    · rintro (⟨s, ⟨hs, hn⟩, rfl⟩ | ⟨s, hs, rfl, hn⟩)
      · exact ⟨s, hs, rfl, Or.inl hn.symm⟩
      · exact ⟨s, hs, rfl, Or.inr hn⟩
    · rintro ⟨s, hs, rfl, hn | hn⟩
      · exact Or.inl ⟨s, ⟨hs, hn.symm⟩, rfl⟩
      · exact Or.inr ⟨s, hs, rfl, hn⟩

theorem writeFault_eq_none {D : Type} {n : Nat} {w : Int × Option D} :
    writeFault n w = none ↔ (∃ c, w.2 = some c) ∧ 0 ≤ w.1 ∧ w.1 < (n : Int) := by
  obtain ⟨i, o⟩ := w
  cases o with
  | none => simp [writeFault]
  | some c =>
    by_cases h : 0 ≤ i ∧ i < (n : Int)
    · simp [writeFault, h]
    · simp only [writeFault, if_neg h]
      simp
      intro h0
      exact not_lt.mp (fun h1 => h ⟨h0, h1⟩)

/-- One admissible assignment read back at index `i`. -/
theorem applyWrite_getElem? {D : Type} (v : List D) (w : Int × Option D) (i : Nat) (c : D)
    (hw : writeFault v.length w = none) (hc : w.2 = some c) :
    (applyWrite v w)[i]? = if w.1 = (i : Int) then some c else v[i]? := by
  obtain ⟨⟨c', hc'⟩, h0, h1⟩ := writeFault_eq_none.mp hw
  have hlt : w.1.toNat < v.length := by omega
  unfold applyWrite
  rw [hc]
  simp only [List.getElem?_set]
  by_cases hi : w.1 = (i : Int)
  · have hti : w.1.toNat = i := by omega
    rw [if_pos hti, if_pos hlt, if_pos hi]
  · have hti : ¬ w.1.toNat = i := by omega
    rw [if_neg hti, if_neg hi]

/-- An index no assignment addresses keeps its value. -/
theorem foldl_applyWrite_untouched {D : Type} (W : List (Int × Option D)) (i : Nat) :
    ∀ v : List D, (∀ w ∈ W, writeFault v.length w = none) → (∀ w ∈ W, w.1 ≠ (i : Int)) →
      (W.foldl applyWrite v)[i]? = v[i]? := by
  induction W with
  | nil => intro v _ _; rfl
  | cons w W ih =>
    intro v hf hn
    rw [List.foldl_cons, ih]
    · obtain ⟨⟨c, hc⟩, _⟩ := writeFault_eq_none.mp (hf w (List.mem_cons_self _ _))
      rw [applyWrite_getElem? v w i c (hf w (List.mem_cons_self _ _)) hc,
        if_neg (hn w (List.mem_cons_self _ _))]
    · intro w' hw'
      rw [applyWrite_length]
      exact hf w' (List.mem_cons_of_mem _ hw')
    · intro w' hw'
      exact hn w' (List.mem_cons_of_mem _ hw')

/-- An index that is addressed, and only with the value `c`, holds `c` in the end. -/
theorem foldl_applyWrite_written {D : Type} (W : List (Int × Option D)) (i : Nat) (c : D) :
    ∀ v : List D, (∀ w ∈ W, writeFault v.length w = none) → (∃ w ∈ W, w.1 = (i : Int)) →
      (∀ w ∈ W, w.1 = (i : Int) → w.2 = some c) →
      (W.foldl applyWrite v)[i]? = some c := by
  induction W with
  | nil => intro v _ h; simp at h
  | cons w W ih =>
    intro v hf hex hall
    rw [List.foldl_cons]
    have hf' : ∀ w' ∈ W, writeFault (applyWrite v w).length w' = none := by
      intro w' hw'
      rw [applyWrite_length]
      exact hf w' (List.mem_cons_of_mem _ hw')
    by_cases hW : ∃ w' ∈ W, w'.1 = (i : Int)
    · exact ih _ hf' hW (fun w' hw' => hall w' (List.mem_cons_of_mem _ hw'))
    · have hn : ∀ w' ∈ W, w'.1 ≠ (i : Int) := fun w' hw' h => hW ⟨w', hw', h⟩
      rw [foldl_applyWrite_untouched W i _ hf' hn]
      obtain ⟨w0, hw0, hi0⟩ := hex
      have hwi : w.1 = (i : Int) := by
        rcases List.mem_cons.mp hw0 with h | h
        · rw [← h]; exact hi0
        · exact absurd hi0 (hn w0 h)
      rw [applyWrite_getElem? v w i c (hf w (List.mem_cons_self _ _))
        (hall w (List.mem_cons_self _ _) hwi), if_pos hwi]

/-- The call with a stoichiometry output returns exactly when no attempted assignment faults. -/
theorem SetSpeciesIds_some_ok {D : Type} [Zero D] (self : KineticRate D) (species : SpeciesArray)
    (ty : String) (names : List SpeciesName) (st : List D) (ids0 : List Int) (v0 : List D)
    (r : Outputs D) :
    self.SetSpeciesIds species ty names st ids0 (some v0) = Except.ok r ↔
      (∀ w ∈ writesFrom species st names 0, writeFault species.length w = none) ∧
        r = ⟨idsOf species names,
              some ((writesFrom species st names 0).foldl applyWrite
                (List.replicate species.length (0 : D))),
              linesOf self species ty names⟩ := by
  rw [SetSpeciesIds_some]
  cases h : (writesFrom species st names 0).findSome? (writeFault species.length) with
  | some f =>
    constructor
    · intro hr; cases hr
    · intro hall
      rw [List.findSome?_eq_none_iff.mpr hall.1] at h
      cases h
  | none =>
    have hall := List.findSome?_eq_none_iff.mp h
    simp only [Except.ok.injEq]
    constructor
    · intro hr; exact ⟨hall, hr.symm⟩
    · intro hr; exact hr.2.symm

/-- The call returns when every pair (position, pool species) with equal names has a coefficient
at that position and an identifier inside the pool-sized vector. -/
theorem SetSpeciesIds_returns {D : Type} [Zero D] (self : KineticRate D) (species : SpeciesArray)
    (ty : String) (names : List SpeciesName) (st : List D) (ids0 : List Int)
    (st0 : Option (List D))
    (hsafe : st0 = none ∨ ∀ (k : Nat) (s : Species), s ∈ species → names[k]? = some s.name →
      k < st.length ∧ 0 ≤ s.identifier ∧ s.identifier < (species.length : Int)) :
    ∃ r, self.SetSpeciesIds species ty names st ids0 st0 = Except.ok r := by
  cases st0 with
  | none => exact ⟨_, SetSpeciesIds_none self species ty names st ids0⟩
  | some v0 =>
    rcases hsafe with h | h
    · cases h
    · refine ⟨_, (SetSpeciesIds_some_ok self species ty names st ids0 v0 _).mpr ⟨?_, rfl⟩⟩
      intro w hw
      obtain ⟨j, s, hj, hs, rfl⟩ := (mem_writesFrom species st names 0 w).mp hw
      obtain ⟨hk, h0, h1⟩ := h j s hs hj
      rw [writeFault_eq_none]
      refine ⟨⟨st[j], ?_⟩, h0, h1⟩
      simp [hk]

theorem matched_length_of_nodup (species : SpeciesArray) (nm : SpeciesName)
    (hd : (species.map Species.name).Nodup) :
    (matched species nm).length = if nm ∈ species.map Species.name then 1 else 0 := by
  induction species with
  | nil => simp [matched]
  | cons s rest ih =>
    rw [List.map_cons, List.nodup_cons] at hd
    by_cases h : nm = s.name
    · rw [matched_cons_pos h, List.length_cons, ih hd.2]
      have hnot : nm ∉ rest.map Species.name := h ▸ hd.1
      rw [if_neg hnot, if_pos (by simp [h])]
    · rw [matched_cons_neg h, ih hd.2]
      simp [h]

theorem idsOf_length_of_nodup (species : SpeciesArray) (names : List SpeciesName)
    (hd : (species.map Species.name).Nodup) :
    (idsOf species names).length
      = names.countP (fun nm => decide (nm ∈ species.map Species.name)) := by
  induction names with
  | nil => simp [idsOf]
  | cons nm rest ih =>
    rw [idsOf, List.length_append, List.length_map, matched_length_of_nodup species nm hd, ih,
      List.countP_cons]
    simp only [decide_eq_true_eq]
    omega

/-- The identifiers pushed do not depend on the stoichiometry output being requested. -/
theorem SetSpeciesIds_out_ids {D : Type} [Zero D] (self : KineticRate D) (species : SpeciesArray)
    (ty : String) (names : List SpeciesName) (st : List D) (ids0 : List Int)
    (st0 : Option (List D)) (r : Outputs D)
    (hr : self.SetSpeciesIds species ty names st ids0 st0 = Except.ok r) :
    r.out_ids = idsOf species names := by
  cases st0 with
  | none =>
    rw [SetSpeciesIds_none] at hr
    cases hr; rfl
  | some v0 =>
    rw [((SetSpeciesIds_some_ok self species ty names st ids0 v0 r).mp hr).2]

/-- Claim C1. For a pool with pairwise distinct species names and `in_stoichiometry` at least as
long as `in_names`: whenever `SetSpeciesIds` returns, the length of `out_ids` is the number of
positions of `in_names` whose name is the name of some pool species; and the call does return when
no stoichiometry output is requested or every pool identifier lies inside the pool-sized vector. -/
theorem SetSpeciesIds_out_ids_length {D : Type} [Zero D] (self : KineticRate D)
    (species : SpeciesArray) (species_type : String) (in_names : List SpeciesName)
    (in_stoichiometry : List D) (out_ids : List Int) (out_stoichiometry : Option (List D))
    (hdistinct : (species.map Species.name).Nodup)
    (hlen : in_names.length ≤ in_stoichiometry.length) :
    (∀ r, self.SetSpeciesIds species species_type in_names in_stoichiometry out_ids
          out_stoichiometry = Except.ok r →
        r.out_ids.length
          = in_names.countP (fun nm => decide (nm ∈ species.map Species.name))) ∧
    ((out_stoichiometry = none ∨
        ∀ s ∈ species, 0 ≤ s.identifier ∧ s.identifier < (species.length : Int)) →
      ∃ r, self.SetSpeciesIds species species_type in_names in_stoichiometry out_ids
          out_stoichiometry = Except.ok r) := by
  constructor
  · intro r hr
    rw [SetSpeciesIds_out_ids self species species_type in_names in_stoichiometry out_ids
      out_stoichiometry r hr]
    exact idsOf_length_of_nodup species in_names hdistinct
  · intro hsafe
    apply SetSpeciesIds_returns
    rcases hsafe with h | h
    · exact Or.inl h
    · right
      intro k s hs hk
      have hk' : k < in_names.length := by
        rcases Nat.lt_or_ge k in_names.length with h' | h'
        · exact h'
        · rw [List.getElem?_eq_none h'] at hk; cases hk
      exact ⟨by omega, h s hs⟩

/-- The stoichiometry vector of a returned call. -/
theorem SetSpeciesIds_out_stoichiometry {D : Type} [Zero D] (self : KineticRate D)
    (species : SpeciesArray) (ty : String) (names : List SpeciesName) (st : List D)
    (ids0 : List Int) (v0 : List D) (r : Outputs D)
    (hr : self.SetSpeciesIds species ty names st ids0 (some v0) = Except.ok r) :
    (∀ w ∈ writesFrom species st names 0,
        writeFault (List.replicate species.length (0 : D)).length w = none) ∧
      r.out_stoichiometry = some ((writesFrom species st names 0).foldl applyWrite
        (List.replicate species.length (0 : D))) := by
  obtain ⟨hall, hr'⟩ := (SetSpeciesIds_some_ok self species ty names st ids0 v0 r).mp hr
  rw [hr']
  exact ⟨by simpa using hall, rfl⟩

/-- Claim C2. For a pool with pairwise distinct names and pairwise distinct identifiers below the
pool size, and pairwise distinct reactant names with as many coefficients: whenever
`SetSpeciesIds` with a stoichiometry output returns, the slot of `out_stoichiometry` indexed by the
identifier of pool species `s` holds `in_stoichiometry[k]` for every position `k` whose name is
the name of `s`; and the call does return when no identifier is negative.  (The distinctness of
the pool names is part of the claim; the proof does not need it.) -/
theorem SetSpeciesIds_stoichiometry_at_identifier {D : Type} [Zero D] (self : KineticRate D)
    (species : SpeciesArray) (species_type : String) (in_names : List SpeciesName)
    (in_stoichiometry : List D) (out_ids : List Int) (out_stoichiometry : List D)
    (_hnames : (species.map Species.name).Nodup)
    (hids : (species.map Species.identifier).Nodup)
    (hbelow : ∀ s ∈ species, s.identifier < (species.length : Int))
    (hin : in_names.Nodup)
    (hlen : in_stoichiometry.length = in_names.length) :
    (∀ r, self.SetSpeciesIds species species_type in_names in_stoichiometry out_ids
          (some out_stoichiometry) = Except.ok r →
        ∃ v, r.out_stoichiometry = some v ∧
          ∀ (k : Nat) (s : Species), s ∈ species → in_names[k]? = some s.name →
            0 ≤ s.identifier ∧ ∃ c, in_stoichiometry[k]? = some c ∧
              v[s.identifier.toNat]? = some c) ∧
    ((∀ s ∈ species, 0 ≤ s.identifier) →
      ∃ r, self.SetSpeciesIds species species_type in_names in_stoichiometry out_ids
          (some out_stoichiometry) = Except.ok r) := by
  constructor
  · intro r hr
    obtain ⟨hall, hst⟩ := SetSpeciesIds_out_stoichiometry self species species_type in_names
      in_stoichiometry out_ids out_stoichiometry r hr
    refine ⟨_, hst, ?_⟩
    intro k s hs hk
    have hkl : k < in_names.length := by
      rcases Nat.lt_or_ge k in_names.length with h' | h'
      · exact h'
      · rw [List.getElem?_eq_none h'] at hk; cases hk
    have hmem : (s.identifier, in_stoichiometry[0 + k]?)
        ∈ writesFrom species in_stoichiometry in_names 0 :=
      (mem_writesFrom species in_stoichiometry in_names 0 _).mpr ⟨k, s, hk, hs, rfl⟩
    obtain ⟨⟨c, hc⟩, h0, _⟩ := writeFault_eq_none.mp (hall _ hmem)
    simp only [Nat.zero_add] at hc
    refine ⟨h0, c, hc, ?_⟩
    have hcast : ((s.identifier.toNat : Nat) : Int) = s.identifier := Int.toNat_of_nonneg h0
    apply foldl_applyWrite_written _ _ _ _ hall
    · exact ⟨_, hmem, hcast.symm⟩
    · intro w hw hwi
      obtain ⟨j, s', hj, hs', rfl⟩ :=
        (mem_writesFrom species in_stoichiometry in_names 0 w).mp hw
      have hss : s' = s := List.inj_on_of_nodup_map hids hs' hs (by
        show s'.identifier = s.identifier
        rw [← hcast]; exact hwi)
      subst hss
      have hjk : k = j := List.getElem?_inj hkl hin (hk.trans hj.symm)
      subst hjk
      simpa using hc
  · intro hnonneg
    apply SetSpeciesIds_returns
    right
    intro k s hs hk
    have hkl : k < in_names.length := by
      rcases Nat.lt_or_ge k in_names.length with h' | h'
      · exact h'
      · rw [List.getElem?_eq_none h'] at hk; cases hk
    exact ⟨by omega, hnonneg s hs, hbelow s hs⟩

theorem matched_eq_nil {species : SpeciesArray} {nm : SpeciesName}
    (h : nm ∉ species.map Species.name) : matched species nm = [] := by
  rw [List.eq_nil_iff_forall_not_mem]
  intro s hs
  rw [mem_matched] at hs
  exact h (List.mem_map.mpr ⟨s, hs.1, hs.2.symm⟩)

theorem idsOf_append (species : SpeciesArray) (a b : List SpeciesName) :
    idsOf species (a ++ b) = idsOf species a ++ idsOf species b := by
  induction a with
  | nil => rfl
  | cons nm rest ih => simp [idsOf, ih]

theorem writesFrom_append {D : Type} (species : SpeciesArray) (st : List D)
    (a b : List SpeciesName) :
    ∀ cur, writesFrom species st (a ++ b) cur
      = writesFrom species st a cur ++ writesFrom species st b (cur + a.length) := by
  induction a with
  | nil => intro cur; simp [writesFrom]
  | cons nm rest ih =>
    intro cur
    rw [List.cons_append]
    simp only [writesFrom, List.append_assoc, List.length_cons]
    rw [ih (cur + 1), Nat.add_assoc, Nat.add_comm 1]

/-- The assignments depend on the coefficients only through the positions of the names. -/
theorem writesFrom_congr {D : Type} (species : SpeciesArray) (st1 st2 : List D)
    (names : List SpeciesName) :
    ∀ c1 c2, (∀ j, j < names.length → st1[c1 + j]? = st2[c2 + j]?) →
      writesFrom species st1 names c1 = writesFrom species st2 names c2 := by
  induction names with
  | nil => intro c1 c2 _; rfl
  | cons nm rest ih =>
    intro c1 c2 h
    have h0 := h 0 (by simp)
    simp only [Nat.add_zero] at h0
    simp only [writesFrom, h0]
    rw [ih (c1 + 1) (c2 + 1)]
    intro j hj
    have := h (j + 1) (by simpa using hj)
    rw [Nat.add_assoc, Nat.add_comm 1, this, Nat.add_assoc, Nat.add_comm 1]

/-- Removing a name that matches no pool species, together with its coefficient, leaves the
identifiers and the assignments as they were. -/
theorem writesFrom_remove_unmatched {D : Type} (species : SpeciesArray)
    (pre post : List SpeciesName) (cpre cpost : List D) (nm : SpeciesName) (c : D)
    (hnm : nm ∉ species.map Species.name) (hpre : cpre.length = pre.length) :
    writesFrom species (cpre ++ c :: cpost) (pre ++ nm :: post) 0
      = writesFrom species (cpre ++ cpost) (pre ++ post) 0 := by
  rw [writesFrom_append, writesFrom_append]
  simp only [writesFrom, matched_eq_nil hnm, List.map_nil, List.nil_append, Nat.zero_add]
  congr 1
  · apply writesFrom_congr
    intro j hj
    simp only [Nat.zero_add]
    rw [List.getElem?_append_left (by omega), List.getElem?_append_left (by omega)]
  · apply writesFrom_congr
    intro j _
    rw [List.getElem?_append_right (by omega), List.getElem?_append_right (by omega)]
    have h1 : pre.length + 1 + j - cpre.length = j + 1 := by omega
    have h2 : pre.length + j - cpre.length = j := by omega
    rw [h1, h2]
    simp

theorem getElem?_some_lt {α : Type} {l : List α} {k : Nat} {a : α} (h : l[k]? = some a) :
    k < l.length := by
  rcases Nat.lt_or_ge k l.length with h' | h'
  · exact h'
  · rw [List.getElem?_eq_none h'] at h; cases h

/-- Claim C3. Whenever `SetSpeciesIds` with a stoichiometry output returns, every index of
`out_stoichiometry` that is not the identifier of a pool species whose name occurs in `in_names`
holds zero.  In particular a name that matches no pool species contributes nothing: removing it
and its coefficient from the input, whatever the coefficient, gives the same `out_ids` and the
same `out_stoichiometry` (and the same fault, if the call faults). -/
theorem SetSpeciesIds_unmatched_contribute_nothing {D : Type} [Zero D] (self : KineticRate D)
    (species : SpeciesArray) (species_type : String) (in_names : List SpeciesName)
    (in_stoichiometry : List D) (out_ids : List Int) (out_stoichiometry : List D) :
    (∀ r, self.SetSpeciesIds species species_type in_names in_stoichiometry out_ids
          (some out_stoichiometry) = Except.ok r →
        ∃ v, r.out_stoichiometry = some v ∧ v.length = species.length ∧
          ∀ i : Nat, i < v.length →
            (¬ ∃ s ∈ species, s.identifier = (i : Int) ∧ s.name ∈ in_names) →
            v[i]? = some (0 : D)) ∧
    (∀ (pre post : List SpeciesName) (cpre cpost : List D) (nm : SpeciesName) (c : D)
        (st0 : Option (List D)),
        nm ∉ species.map Species.name → cpre.length = pre.length →
        (self.SetSpeciesIds species species_type (pre ++ nm :: post) (cpre ++ c :: cpost)
            out_ids st0).map (fun r => (r.out_ids, r.out_stoichiometry))
          = (self.SetSpeciesIds species species_type (pre ++ post) (cpre ++ cpost)
            out_ids st0).map (fun r => (r.out_ids, r.out_stoichiometry))) := by
  constructor
  · intro r hr
    obtain ⟨hall, hst⟩ := SetSpeciesIds_out_stoichiometry self species species_type in_names
      in_stoichiometry out_ids out_stoichiometry r hr
    refine ⟨_, hst, by rw [foldl_applyWrite_length, List.length_replicate], ?_⟩
    intro i hi hno
    rw [foldl_applyWrite_length, List.length_replicate] at hi
    rw [foldl_applyWrite_untouched _ i _ hall]
    · rw [List.getElem?_replicate, if_pos hi]
    · intro w hw hwi
      obtain ⟨j, s, hj, hs, rfl⟩ :=
        (mem_writesFrom species in_stoichiometry in_names 0 w).mp hw
      exact hno ⟨s, hs, hwi, List.getElem?_mem hj⟩
  · intro pre post cpre cpost nm c st0 hnm hpre
    have hids : idsOf species (pre ++ nm :: post) = idsOf species (pre ++ post) := by
      rw [idsOf_append, idsOf_append, idsOf, matched_eq_nil hnm, List.map_nil, List.nil_append]
    cases st0 with
    | none => simp only [SetSpeciesIds_none, Except.map, hids]
    | some v0 =>
      simp only [SetSpeciesIds_some,
        writesFrom_remove_unmatched species pre post cpre cpost nm c hnm hpre, hids]
      cases (writesFrom species (cpre ++ cpost) (pre ++ post) 0).findSome?
        (writeFault species.length) <;> rfl

/-- Claim C4. The result of `SetSpeciesIds` does not depend on what the two output vectors held on
entry; calling it again on its own outputs returns the same outputs; and the stoichiometry vector
of a returned call has length `species.size()`, such a call returning whenever the pool
identifiers lie inside the pool-sized vector and every name has a coefficient. -/
theorem SetSpeciesIds_discards_prior_contents {D : Type} [Zero D] (self : KineticRate D)
    (species : SpeciesArray) (species_type : String) (in_names : List SpeciesName)
    (in_stoichiometry : List D) :
    (∀ (ids1 ids2 : List Int) (st1 st2 : Option (List D)), st1.isSome = st2.isSome →
        self.SetSpeciesIds species species_type in_names in_stoichiometry ids1 st1
          = self.SetSpeciesIds species species_type in_names in_stoichiometry ids2 st2) ∧
    (∀ (ids0 : List Int) (st0 : Option (List D)) (r : Outputs D),
        self.SetSpeciesIds species species_type in_names in_stoichiometry ids0 st0
          = Except.ok r →
        self.SetSpeciesIds species species_type in_names in_stoichiometry r.out_ids
          r.out_stoichiometry = Except.ok r) ∧
    (∀ (ids0 : List Int) (v0 : List D) (r : Outputs D),
        self.SetSpeciesIds species species_type in_names in_stoichiometry ids0 (some v0)
          = Except.ok r →
        ∃ v, r.out_stoichiometry = some v ∧ v.length = species.length) ∧
    ((∀ s ∈ species, 0 ≤ s.identifier ∧ s.identifier < (species.length : Int)) →
      in_names.length ≤ in_stoichiometry.length →
      ∀ (ids0 : List Int) (v0 : List D), ∃ r v,
        self.SetSpeciesIds species species_type in_names in_stoichiometry ids0 (some v0)
          = Except.ok r ∧ r.out_stoichiometry = some v ∧ v.length = species.length) := by
  have hindep : ∀ (ids1 ids2 : List Int) (st1 st2 : Option (List D)),
      st1.isSome = st2.isSome →
      self.SetSpeciesIds species species_type in_names in_stoichiometry ids1 st1
        = self.SetSpeciesIds species species_type in_names in_stoichiometry ids2 st2 := by
    intro ids1 ids2 st1 st2 h
    cases st1 <;> cases st2
    · rw [SetSpeciesIds_none, SetSpeciesIds_none]
    · cases h
    · cases h
    · rw [SetSpeciesIds_some, SetSpeciesIds_some]
  have hlength : ∀ (ids0 : List Int) (v0 : List D) (r : Outputs D),
      self.SetSpeciesIds species species_type in_names in_stoichiometry ids0 (some v0)
        = Except.ok r →
      ∃ v, r.out_stoichiometry = some v ∧ v.length = species.length := by
    intro ids0 v0 r hr
    obtain ⟨_, hst⟩ := SetSpeciesIds_out_stoichiometry self species species_type in_names
      in_stoichiometry ids0 v0 r hr
    exact ⟨_, hst, by rw [foldl_applyWrite_length, List.length_replicate]⟩
  refine ⟨hindep, ?_, hlength, ?_⟩
  · intro ids0 st0 r hr
    rw [← hr]
    apply hindep
    cases st0 with
    | none =>
      rw [SetSpeciesIds_none] at hr
      cases hr; rfl
    | some v0 =>
      obtain ⟨v, hv, _⟩ := hlength ids0 v0 r hr
      rw [hv]; rfl
  · intro hids hlen ids0 v0
    obtain ⟨r, hr⟩ := SetSpeciesIds_returns self species species_type in_names in_stoichiometry
      ids0 (some v0) (Or.inr (fun k s hs hk =>
        ⟨Nat.lt_of_lt_of_le (getElem?_some_lt hk) hlen, hids s hs⟩))
    obtain ⟨v, hv, hl⟩ := hlength ids0 v0 r hr
    exact ⟨r, v, hr, hv, hl⟩

/-- Claim C5 (as amended). For a pool with pairwise distinct names, a returned call with a
stoichiometry output has `len(out_stoichiometry) = species.size()` and `len(out_ids)` equal to
the number of reactant names that are names of pool species, hence at most `len(names)`; the
three lengths coincide exactly when every reactant name resolves and the pool has as many species
as there are reactant names. -/
theorem SetSpeciesIds_output_lengths {D : Type} [Zero D] (self : KineticRate D)
    (species : SpeciesArray) (species_type : String) (in_names : List SpeciesName)
    (in_stoichiometry : List D) (out_ids : List Int) (out_stoichiometry : List D)
    (r : Outputs D)
    (hdistinct : (species.map Species.name).Nodup)
    (hr : self.SetSpeciesIds species species_type in_names in_stoichiometry out_ids
      (some out_stoichiometry) = Except.ok r) :
    ∃ v, r.out_stoichiometry = some v ∧ v.length = species.length ∧
      r.out_ids.length = in_names.countP (fun nm => decide (nm ∈ species.map Species.name)) ∧
      r.out_ids.length ≤ in_names.length ∧
      ((in_names.length = v.length ∧ v.length = r.out_ids.length) ↔
        (species.length = in_names.length ∧ ∀ nm ∈ in_names, nm ∈ species.map Species.name)) := by
  obtain ⟨_, hst⟩ := SetSpeciesIds_out_stoichiometry self species species_type in_names
    in_stoichiometry out_ids out_stoichiometry r hr
  have hv : ((writesFrom species in_stoichiometry in_names 0).foldl applyWrite
      (List.replicate species.length (0 : D))).length = species.length := by
    rw [foldl_applyWrite_length, List.length_replicate]
  have hcount : r.out_ids.length
      = in_names.countP (fun nm => decide (nm ∈ species.map Species.name)) := by
    rw [SetSpeciesIds_out_ids self species species_type in_names in_stoichiometry out_ids _ r hr]
    exact idsOf_length_of_nodup species in_names hdistinct
  have hle : r.out_ids.length ≤ in_names.length := hcount ▸ List.countP_le_length _
  have hall : r.out_ids.length = in_names.length ↔
      ∀ nm ∈ in_names, nm ∈ species.map Species.name := by
    rw [hcount, List.countP_eq_length]
    simp only [decide_eq_true_eq]
  refine ⟨_, hst, hv, hcount, hle, ?_⟩
  rw [hv]
  constructor
  · rintro ⟨h1, h2⟩
    exact ⟨h1.symm, hall.mp (h2.symm.trans h1.symm)⟩
  · rintro ⟨h1, h2⟩
    exact ⟨h1.symm, h1.trans (hall.mpr h2).symm⟩

/-- Claim C6. When every reactant name that does match a pool species has a coefficient and that
species an identifier inside the pool-sized vector (or no stoichiometry output is requested), the
call returns normally, however many other names are unresolved, and every element of `out_ids`
is the identifier of a pool species whose name occurs in `in_names`. -/
theorem SetSpeciesIds_out_ids_resolved {D : Type} [Zero D] (self : KineticRate D)
    (species : SpeciesArray) (species_type : String) (in_names : List SpeciesName)
    (in_stoichiometry : List D) (out_ids : List Int) (out_stoichiometry : Option (List D))
    (hmatched : out_stoichiometry = none ∨
      ∀ (k : Nat) (s : Species), s ∈ species → in_names[k]? = some s.name →
        k < in_stoichiometry.length ∧ 0 ≤ s.identifier ∧ s.identifier < (species.length : Int)) :
    ∃ r, self.SetSpeciesIds species species_type in_names in_stoichiometry out_ids
        out_stoichiometry = Except.ok r ∧
      ∀ id ∈ r.out_ids, ∃ s ∈ species, s.identifier = id ∧ s.name ∈ in_names := by
  obtain ⟨r, hr⟩ := SetSpeciesIds_returns self species species_type in_names in_stoichiometry
    out_ids out_stoichiometry hmatched
  refine ⟨r, hr, ?_⟩
  intro id hid
  rw [SetSpeciesIds_out_ids self species species_type in_names in_stoichiometry out_ids _ r hr]
    at hid
  exact (mem_idsOf species in_names id).mp hid

/-- Claim C7. When every pool species has an identifier `i` with `0 <= i < species.size()` and
`in_stoichiometry` is at least as long as `in_names`, no indexed access of `SetSpeciesIds` leaves
its vector: the call returns, and it does not end in a fault. -/
theorem SetSpeciesIds_accesses_in_bounds {D : Type} [Zero D] (self : KineticRate D)
    (species : SpeciesArray) (species_type : String) (in_names : List SpeciesName)
    (in_stoichiometry : List D) (out_ids : List Int) (out_stoichiometry : Option (List D))
    (hids : ∀ s ∈ species, 0 ≤ s.identifier ∧ s.identifier < (species.length : Int))
    (hlen : in_names.length ≤ in_stoichiometry.length) :
    (∃ r, self.SetSpeciesIds species species_type in_names in_stoichiometry out_ids
        out_stoichiometry = Except.ok r) ∧
    ∀ f, self.SetSpeciesIds species species_type in_names in_stoichiometry out_ids
        out_stoichiometry ≠ Except.error f := by
  obtain ⟨r, hr⟩ := SetSpeciesIds_returns self species species_type in_names in_stoichiometry
    out_ids out_stoichiometry (Or.inr (fun k s hs hk =>
      ⟨Nat.lt_of_lt_of_le (getElem?_some_lt hk) hlen, hids s hs⟩))
  refine ⟨⟨r, hr⟩, ?_⟩
  intro f hf
  rw [hr] at hf
  cases hf

theorem isNotFoundLine_notFoundLine (ty : String) (nm : SpeciesName) :
    isNotFoundLine (notFoundLine ty nm) = true := by
  unfold isNotFoundLine notFoundLine notFoundOpening
  rw [ List.isPrefixOf_iff_prefix]
  simp only [String.data_append, List.append_assoc]
  exact List.prefix_append _ _

theorem isNotFoundLine_foundLine (ty : String) (s : Species) :
    isNotFoundLine (foundLine ty s) = false := by
  unfold isNotFoundLine foundLine notFoundOpening
  simp only [String.data_append, List.append_assoc]
  rfl

theorem isEmpty_matched_iff (species : SpeciesArray) (nm : SpeciesName) :
    (matched species nm).isEmpty = true ↔ nm ∉ species.map Species.name := by
  rw [List.isEmpty_iff]
  constructor
  · intro h hmem
    obtain ⟨s, hs, hn⟩ := List.mem_map.mp hmem
    have : s ∈ matched species nm := mem_matched.mpr ⟨hs, hn.symm⟩
    rw [h] at this
    cases this
  · exact matched_eq_nil

theorem linesOf_silent {D : Type} (self : KineticRate D) (species : SpeciesArray) (ty : String)
    (names : List SpeciesName) (hv : self.verbosity ≠ Verbosity.kDebugMineralKinetics) :
    linesOf self species ty names = [] := by
  induction names with
  | nil => rfl
  | cons nm rest ih => simp [linesOf, foundLines, hv, ih]

theorem filter_foundLines {D : Type} (self : KineticRate D) (ty : String) (l : List Species) :
    (foundLines self ty l).filter isNotFoundLine = [] := by
  unfold foundLines
  split
  · rw [List.filter_eq_nil_iff]
    intro x hx
    obtain ⟨s, _, rfl⟩ := List.mem_map.mp hx
    simp [isNotFoundLine_foundLine]
  · rfl

theorem linesOf_debug {D : Type} (self : KineticRate D) (species : SpeciesArray) (ty : String)
    (names : List SpeciesName) (hv : self.verbosity = Verbosity.kDebugMineralKinetics) :
    (linesOf self species ty names).filter isNotFoundLine
      = (names.filter (fun nm => decide (nm ∉ species.map Species.name))).map
          (notFoundLine ty) := by
  induction names with
  | nil => rfl
  | cons nm rest ih =>
    simp only [linesOf, List.filter_append, filter_foundLines, List.nil_append, ih]
    by_cases hm : nm ∈ species.map Species.name
    · have he : ¬ ((matched species nm).isEmpty = true) := by
        rw [isEmpty_matched_iff]; exact fun h => h hm
      have h2 : (nm :: rest).filter (fun nm => decide (nm ∉ species.map Species.name))
          = rest.filter (fun nm => decide (nm ∉ species.map Species.name)) :=
        List.filter_cons_of_neg (by simpa using hm)
      rw [if_neg (fun h => he h.1), h2]
      rfl
    · have he : (matched species nm).isEmpty = true := (isEmpty_matched_iff species nm).mpr hm
      have h1 : List.filter isNotFoundLine [notFoundLine ty nm] = [notFoundLine ty nm] := by
        simp [List.filter, isNotFoundLine_notFoundLine]
      have h2 : (nm :: rest).filter (fun nm => decide (nm ∉ species.map Species.name))
          = nm :: rest.filter (fun nm => decide (nm ∉ species.map Species.name)) :=
        List.filter_cons_of_pos (by simpa using hm)
      rw [if_pos ⟨he, hv⟩, h1, h2]
      rfl

theorem SetSpeciesIds_cout {D : Type} [Zero D] (self : KineticRate D) (species : SpeciesArray)
    (ty : String) (names : List SpeciesName) (st : List D) (ids0 : List Int)
    (st0 : Option (List D)) (r : Outputs D)
    (hr : self.SetSpeciesIds species ty names st ids0 st0 = Except.ok r) :
    r.cout = linesOf self species ty names := by
  cases st0 with
  | none =>
    rw [SetSpeciesIds_none] at hr
    cases hr; rfl
  | some v0 =>
    rw [((SetSpeciesIds_some_ok self species ty names st ids0 v0 r).mp hr).2]

/-- Claim C8. The constructor sets the verbosity `kSilent`.  At every verbosity other than
`kDebugMineralKinetics` a returned call of `SetSpeciesIds` has written no line, whatever names
matched; at `kDebugMineralKinetics` the 'Did not find species' lines it has written are, in
order, one line for each position of `in_names` whose name matches no pool species.  The call
returns when no stoichiometry output is requested or every matching name has a coefficient and
an identifier inside the pool-sized vector. -/
theorem SetSpeciesIds_diagnostics {D : Type} [Zero D] (self : KineticRate D)
    (species : SpeciesArray) (species_type : String) (in_names : List SpeciesName)
    (in_stoichiometry : List D) (out_ids : List Int) (out_stoichiometry : Option (List D)) :
    (KineticRate.construct : KineticRate D).verbosity = Verbosity.kSilent ∧
    (self.verbosity ≠ Verbosity.kDebugMineralKinetics →
      ∀ r, self.SetSpeciesIds species species_type in_names in_stoichiometry out_ids
          out_stoichiometry = Except.ok r → r.cout = []) ∧
    (self.verbosity = Verbosity.kDebugMineralKinetics →
      ∀ r, self.SetSpeciesIds species species_type in_names in_stoichiometry out_ids
          out_stoichiometry = Except.ok r →
        r.cout.filter isNotFoundLine
          = (in_names.filter (fun nm => decide (nm ∉ species.map Species.name))).map
              (notFoundLine species_type)) ∧
    ((out_stoichiometry = none ∨
        ∀ (k : Nat) (s : Species), s ∈ species → in_names[k]? = some s.name →
          k < in_stoichiometry.length ∧ 0 ≤ s.identifier ∧
            s.identifier < (species.length : Int)) →
      ∃ r, self.SetSpeciesIds species species_type in_names in_stoichiometry out_ids
          out_stoichiometry = Except.ok r) := by
  refine ⟨rfl, ?_, ?_, ?_⟩
  · intro hv r hr
    rw [SetSpeciesIds_cout self species species_type in_names in_stoichiometry out_ids _ r hr]
    exact linesOf_silent self species species_type in_names hv
  · intro hv r hr
    rw [SetSpeciesIds_cout self species species_type in_names in_stoichiometry out_ids _ r hr]
    exact linesOf_debug self species species_type in_names hv
  · exact SetSpeciesIds_returns self species species_type in_names in_stoichiometry out_ids
      out_stoichiometry

/-! ## `DisplayReaction` and its re-tokenisation -/

theorem intercalate_go_append (sep : String) (l : List String) :
    ∀ x acc : String, String.intercalate.go (x ++ acc) sep l
      = x ++ String.intercalate.go acc sep l := by
  induction l with
  | nil => intro x acc; rfl
  | cons a l ih =>
    intro x acc
    simp only [String.intercalate.go]
    rw [String.append_assoc, String.append_assoc, ih, String.append_assoc]

theorem intercalate_cons_cons (sep a b : String) (l : List String) :
    sep.intercalate (a :: b :: l) = a ++ sep ++ sep.intercalate (b :: l) := by
  simp only [String.intercalate, String.intercalate.go]
  rw [String.append_assoc, intercalate_go_append, intercalate_go_append]
  rw [String.append_assoc]

theorem intercalate_singleton (sep a : String) : sep.intercalate [a] = a := rfl

/-- The loop of `DisplayReaction` appends the terms of the remaining reactants, separated by
`" + "`. -/
theorem displayLoop_eq {D : Type} (fmt : D → String) (size : Nat) (rest : List SpeciesName) :
    ∀ (done cs : List D) (species : Nat) (line : String),
      done.length = species → cs.length = rest.length → species + rest.length = size →
      displayLoop fmt (done ++ cs) size rest species line
        = Except.ok (line ++ " + ".intercalate (List.zipWith (reactionTerm fmt) cs rest)) := by
  induction rest with
  | nil =>
    intro done cs species line _ hcs _
    have : cs = [] := List.length_eq_zero.mp hcs
    subst this
    simp [displayLoop, String.intercalate]
  | cons r rest ih =>
    intro done cs species line hdone hcs hsize
    cases cs with
    | nil => simp at hcs
    | cons c cs =>
      have hget : (done ++ c :: cs)[species]? = some c := by
        rw [List.getElem?_append_right (by omega)]
        simp [hdone]
      simp only [displayLoop, hget]
      have hstep := ih (done ++ [c]) cs (species + 1)
      simp only [List.append_assoc, List.singleton_append] at hstep
      rw [hstep _ (by simp [hdone]) (by simpa using hcs) (by simp at hsize; omega)]
      cases rest with
      | nil =>
        have hcs' : cs = [] := List.length_eq_zero.mp (by simpa using hcs)
        subst hcs'
        have hlast : ¬ species < size - 1 := by simp at hsize; omega
        simp [hlast, String.intercalate, String.intercalate.go, reactionTerm,
          String.append_assoc]
      | cons r' rest' =>
        cases cs with
        | nil => simp at hcs
        | cons c' cs' =>
          have hmid : species < size - 1 := by simp at hsize; omega
          simp only [if_pos hmid, List.zipWith_cons_cons]
          rw [intercalate_cons_cons]
          simp only [reactionTerm, String.append_assoc]

/-- The output of `DisplayReaction` for as many coefficients as names. -/
theorem DisplayReaction_eq {D : Type} (self : KineticRate D) (fmt : D → String)
    (hlen : self.reactant_stoichiometry.length = self.reactant_names.length) :
    self.DisplayReaction fmt
      = Except.ok ["    Reaction: ",
          "      " ++ self.name ++ " = " ++ " + ".intercalate
            (List.zipWith (reactionTerm fmt) self.reactant_stoichiometry
              self.reactant_names)] := by
  unfold KineticRate.DisplayReaction
  have h := displayLoop_eq fmt self.reactant_names.length self.reactant_names []
    self.reactant_stoichiometry 0 ("      " ++ self.name ++ " = ") rfl hlen (by simp)
  rw [List.nil_append] at h
  rw [h]

/-- A separator that starts with a space is not found inside a text without spaces. -/
theorem splitOnceChars_skip (sep : List Char) (x : List Char) (hx : ' ' ∉ x) (y : List Char) :
    splitOnceChars (' ' :: sep) (x ++ y)
      = (splitOnceChars (' ' :: sep) y).map (fun p => (x ++ p.1, p.2)) := by
  induction x with
  | nil => simp
  | cons c x ih =>
    have hc : ¬ ' ' = c := fun h => hx (h ▸ List.mem_cons_self _ _)
    have hx' : ' ' ∉ x := fun h => hx (List.mem_cons_of_mem _ h)
    have hpre : (' ' :: sep).isPrefixOf (c :: (x ++ y)) = false := by
      simp [List.isPrefixOf, hc]
    rw [List.cons_append, splitOnceChars, hpre, ih hx']
    cases splitOnceChars (' ' :: sep) y <;> simp

/-- A text that begins with the separator is split there. -/
theorem splitOnceChars_hit (c : Char) (sep y : List Char) :
    splitOnceChars (c :: sep) (c :: sep ++ y) = some ([], y) := by
  have hpre : (c :: sep).isPrefixOf (c :: (sep ++ y)) = true := by
    rw [ List.isPrefixOf_iff_prefix]
    exact List.prefix_append (c :: sep) y
  rw [List.cons_append, splitOnceChars, hpre]
  simp

/-- No separator `" + "` in a single term. -/
theorem splitOnceChars_plus_term (c r : List Char) (hc : ' ' ∉ c) (hr : ' ' ∉ r) :
    splitOnceChars [' ', '+', ' '] (c ++ ' ' :: r) = none := by
  rw [splitOnceChars_skip _ c hc]
  have hpre : [' ', '+', ' '].isPrefixOf (' ' :: r) = false := by
    cases r with
    | nil => rfl
    | cons a r =>
      cases r with
      | nil => simp [List.isPrefixOf]
      | cons b r =>
        have hb : ¬ ' ' = b := fun h => hr (by simp [← h])
        simp [List.isPrefixOf, hb]
  rw [splitOnceChars, hpre]
  have hrest : splitOnceChars [' ', '+', ' '] r = none := by
    have := splitOnceChars_skip ['+', ' '] r hr []
    rw [List.append_nil] at this
    rw [this]; rfl
  rw [hrest]; rfl

/-- The first separator `" + "` after a term whose name is not `+` is the one that follows it. -/
theorem splitOnceChars_plus_term_sep (c r rest : List Char) (hc : ' ' ∉ c) (hr : ' ' ∉ r)
    (hplus : r ≠ ['+']) :
    splitOnceChars [' ', '+', ' '] (c ++ ' ' :: r ++ ' ' :: '+' :: ' ' :: rest)
      = some (c ++ ' ' :: r, rest) := by
  rw [List.append_assoc, splitOnceChars_skip _ c hc]
  have hpre : [' ', '+', ' '].isPrefixOf (' ' :: (r ++ ' ' :: '+' :: ' ' :: rest)) = false := by
    cases r with
    | nil => simp [List.isPrefixOf]
    | cons a r =>
      cases r with
      | nil =>
        have ha : ¬ '+' = a := fun h => hplus (by rw [h])
        simp [List.isPrefixOf, ha]
      | cons b r =>
        have hb : ¬ ' ' = b := fun h => hr (by simp [← h])
        simp [List.isPrefixOf, hb]
  rw [List.cons_append, splitOnceChars, hpre, splitOnceChars_skip _ r hr]
  have hhit := splitOnceChars_hit ' ' ['+', ' '] rest
  simp only [List.cons_append, List.nil_append] at hhit
  rw [hhit]
  simp

/-- A term is split at the space between coefficient and name. -/
theorem splitOnceChars_space_term (c r : List Char) (hc : ' ' ∉ c) :
    splitOnceChars [' '] (c ++ ' ' :: r) = some (c, r) := by
  rw [splitOnceChars_skip _ c hc]
  have hhit := splitOnceChars_hit ' ' [] r
  simp only [List.cons_append, List.nil_append] at hhit
  rw [hhit]
  simp

/-- The first `" = "` of the equation line is the one after the name, unless the name is `=`. -/
theorem splitOnceChars_eq_line (n body : List Char) (hn : ' ' ∉ n) (hne : n ≠ ['=']) :
    splitOnceChars [' ', '=', ' ']
        ([' ', ' ', ' ', ' ', ' ', ' '] ++ n ++ [' ', '=', ' '] ++ body)
      = some ([' ', ' ', ' ', ' ', ' ', ' '] ++ n, body) := by
  have hpre : [' ', '=', ' '].isPrefixOf (' ' :: (n ++ ' ' :: '=' :: ' ' :: body)) = false := by
    cases n with
    | nil => simp [List.isPrefixOf]
    | cons a n =>
      cases n with
      | nil =>
        have ha : ¬ '=' = a := fun h => hne (by rw [h])
        simp [List.isPrefixOf, ha]
      | cons b n =>
        have hb : ¬ ' ' = b := fun h => hn (by simp [← h])
        simp [List.isPrefixOf, hb]
  have hhit := splitOnceChars_hit ' ' ['=', ' '] body
  simp only [List.cons_append, List.nil_append] at hhit
  have hrest : splitOnceChars [' ', '=', ' '] (' ' :: (n ++ ' ' :: '=' :: ' ' :: body))
      = some (' ' :: n, body) := by
    rw [splitOnceChars, hpre, splitOnceChars_skip _ n hn, hhit]
    simp
  have hstep : ∀ t : List Char, splitOnceChars [' ', '=', ' '] (' ' :: ' ' :: t)
      = (splitOnceChars [' ', '=', ' '] (' ' :: t)).map (fun p => (' ' :: p.1, p.2)) := by
    intro t
    have hno : [' ', '=', ' '].isPrefixOf (' ' :: ' ' :: t) = false := by
      simp [List.isPrefixOf]
    rw [splitOnceChars, hno]
    rfl
  simp only [List.cons_append, List.nil_append, List.append_assoc]
  rw [hstep, hstep, hstep, hstep, hstep, hrest]
  rfl

theorem data_ne_of_ne {s t : String} (h : s ≠ t) : s.data ≠ t.data := by
  intro hd
  apply h
  cases s; cases t
  simp only at hd
  rw [hd]

theorem data_term (c r : String) : (c ++ " " ++ r).data = c.data ++ ' ' :: r.data := by
  simp only [String.data_append, List.append_assoc]
  rfl

theorem data_term_sep (c r rest : String) :
    (c ++ " " ++ r ++ " + " ++ rest).data
      = c.data ++ ' ' :: r.data ++ ' ' :: '+' :: ' ' :: rest.data := by
  simp only [String.data_append, List.append_assoc]
  rfl

/-- Splitting the joined terms on `" + "` gives back the terms. -/
theorem splitAllChars_terms (rs : List String) :
    ∀ (cs : List String), cs.length = rs.length → rs ≠ [] →
      (∀ c ∈ cs, ' ' ∉ c.data) → (∀ r ∈ rs, ' ' ∉ r.data) → (∀ r ∈ rs.dropLast, r ≠ "+") →
      ∀ fuel, rs.length ≤ fuel + 1 →
      splitAllChars [' ', '+', ' '] fuel
          (" + ".intercalate (List.zipWith (fun c r => c ++ " " ++ r) cs rs)).data
        = (List.zipWith (fun c r => c ++ " " ++ r) cs rs).map String.data := by
  induction rs with
  | nil => intro cs _ h; exact absurd rfl h
  | cons r rs ih =>
    intro cs hlen _ hcs hrs hplus fuel hfuel
    cases cs with
    | nil => simp at hlen
    | cons c cs =>
      have hc : ' ' ∉ c.data := hcs c (List.mem_cons_self _ _)
      have hr : ' ' ∉ r.data := hrs r (List.mem_cons_self _ _)
      cases rs with
      | nil =>
        have hcs' : cs = [] := List.length_eq_zero.mp (by simpa using hlen)
        subst hcs'
        simp only [List.zipWith_cons_cons, List.zipWith_nil_right, intercalate_singleton,
          List.map_cons, List.map_nil]
        rw [data_term]
        cases fuel with
        | zero => rfl
        | succ f => rw [splitAllChars, splitOnceChars_plus_term _ _ hc hr]
      | cons r' rs' =>
        cases cs with
        | nil => simp at hlen
        | cons c' cs' =>
          cases fuel with
          | zero => simp at hfuel
          | succ f =>
            have hne : r.data ≠ ['+'] :=
              data_ne_of_ne (t := "+") (hplus r (by simp [List.dropLast]))
            have htail := ih (c' :: cs') (by simpa using hlen) (by simp)
              (fun x hx => hcs x (List.mem_cons_of_mem _ hx))
              (fun x hx => hrs x (List.mem_cons_of_mem _ hx))
              (fun x hx => hplus x (by
                rw [List.dropLast_cons₂]; exact List.mem_cons_of_mem _ hx))
              f (by simp at hfuel ⊢; omega)
            simp only [List.zipWith_cons_cons, List.map_cons] at htail ⊢
            rw [intercalate_cons_cons, data_term_sep, splitAllChars,
              splitOnceChars_plus_term_sep _ _ _ hc hr hne]
            simp only
            rw [htail, data_term, data_term]

/-- The joined terms have at least one character for each term. -/
theorem length_le_data_terms (rs : List String) :
    ∀ (cs : List String), cs.length = rs.length →
      rs.length ≤ (" + ".intercalate
        (List.zipWith (fun c r => c ++ " " ++ r) cs rs)).data.length := by
  induction rs with
  | nil => intro cs _; simp
  | cons r rs ih =>
    intro cs hlen
    cases cs with
    | nil => simp at hlen
    | cons c cs =>
      cases rs with
      | nil =>
        have hcs' : cs = [] := List.length_eq_zero.mp (by simpa using hlen)
        subst hcs'
        simp only [List.zipWith_cons_cons, List.zipWith_nil_right, intercalate_singleton]
        rw [data_term]
        simp only [List.length_append, List.length_cons, List.length_nil]
        omega
      | cons r' rs' =>
        cases cs with
        | nil => simp at hlen
        | cons c' cs' =>
          have htail := ih (c' :: cs') (by simpa using hlen)
          simp only [List.zipWith_cons_cons] at htail ⊢
          rw [intercalate_cons_cons, data_term_sep]
          simp only [List.length_append, List.length_cons] at htail ⊢
          omega

/-- Each term splits at its first space into printed coefficient and name. -/
theorem splitTerms_terms (rs : List String) :
    ∀ (cs : List String), cs.length = rs.length → (∀ c ∈ cs, ' ' ∉ c.data) →
      splitTerms (List.zipWith (fun c r => c ++ " " ++ r) cs rs) = some (List.zip cs rs) := by
  induction rs with
  | nil => intro cs _ _; simp [splitTerms]
  | cons r rs ih =>
    intro cs hlen hcs
    cases cs with
    | nil => simp at hlen
    | cons c cs =>
      have hc : ' ' ∉ c.data := hcs c (List.mem_cons_self _ _)
      have hsplit : splitOnce " " (c ++ " " ++ r) = some (c, r) := by
        unfold splitOnce
        rw [data_term]
        have h := splitOnceChars_space_term c.data r.data hc
        have hsp : (" " : String).data = [' '] := rfl
        rw [hsp, h]
        rfl
      simp only [List.zipWith_cons_cons, List.zip_cons_cons, splitTerms, hsplit,
        ih cs (by simpa using hlen) (fun x hx => hcs x (List.mem_cons_of_mem _ hx))]

/-- Claim C9 (as amended).  For as many coefficients as reactant names, `DisplayReaction` writes
the line `    Reaction: ` and then the equation line: six spaces of indentation, the name, `" = "`,
and the terms (printed coefficient, one space, reactant name) in declaration order with `" + "`
between consecutive terms; without reactants the equation line ends after `" = "`. -/
theorem DisplayReaction_equation_line {D : Type} (self : KineticRate D) (fmt : D → String)
    (hlen : self.reactant_stoichiometry.length = self.reactant_names.length) :
    self.DisplayReaction fmt
        = Except.ok ["    Reaction: ",
            "      " ++ self.name ++ " = " ++ " + ".intercalate
              (List.zipWith (fun c r => fmt c ++ " " ++ r) self.reactant_stoichiometry
                self.reactant_names)] ∧
      (self.reactant_names = [] →
        self.DisplayReaction fmt
          = Except.ok ["    Reaction: ", "      " ++ self.name ++ " = "]) := by
  have h := DisplayReaction_eq self fmt hlen
  refine ⟨h, ?_⟩
  intro hnil
  rw [h, hnil]
  simp [String.intercalate]

/-- Claim C9, witness of the amended statement on `sampleRate`. -/
theorem DisplayReaction_equation_line_witness :
    sampleRate.reactant_stoichiometry.length = sampleRate.reactant_names.length ∧
      sampleRate.DisplayReaction printSmall
        = Except.ok ["    Reaction: ", "      Calcite = 2 H+ + 1 SiO2(aq) + 1 Ca++"] :=
  ⟨by decide, (DisplayReaction_equation_line sampleRate printSmall (by decide)).1.trans rfl⟩

/-- Claim C9, counterexample to the statement as written: the equation line of `sampleRate` starts
with the six spaces of indentation, not with the name. -/
theorem equation_line_indent_counterexample :
    sampleRate.DisplayReaction printSmall
        = Except.ok ["    Reaction: ", "      Calcite = 2 H+ + 1 SiO2(aq) + 1 Ca++"] ∧
      "      Calcite = 2 H+ + 1 SiO2(aq) + 1 Ca++"
        ≠ sampleRate.name ++ " = " ++ " + ".intercalate ["2 H+", "1 SiO2(aq)", "1 Ca++"] :=
  ⟨rfl, by decide⟩

/-- Claim C10 (as amended).  For a rate whose name has no space and is not `=`, whose reactant
names have no space and, the last one apart, are not `+`, whose printed coefficients have no
space, with as many coefficients as names and at least one: splitting the equation line of
`DisplayReaction` once on `" = "`, the right-hand side on `" + "` and each term at its first space
recovers the reactant names and the printed coefficients, in declaration order. -/
theorem DisplayReaction_round_trip {D : Type} (self : KineticRate D) (fmt : D → String)
    (hname : ' ' ∉ self.name.data) (hnameEq : self.name ≠ "=")
    (hreact : ∀ r ∈ self.reactant_names, ' ' ∉ r.data)
    (hplus : ∀ r ∈ self.reactant_names.dropLast, r ≠ "+")
    (hfmt : ∀ c ∈ self.reactant_stoichiometry, ' ' ∉ (fmt c).data)
    (hlen : self.reactant_stoichiometry.length = self.reactant_names.length)
    (hpos : 1 ≤ self.reactant_names.length) :
    ∃ line, self.DisplayReaction fmt = Except.ok ["    Reaction: ", line] ∧
      retokenize line = some (self.reactant_names, self.reactant_stoichiometry.map fmt) := by
  refine ⟨_, DisplayReaction_eq self fmt hlen, ?_⟩
  have hzip : List.zipWith (reactionTerm fmt) self.reactant_stoichiometry self.reactant_names
      = List.zipWith (fun c r => c ++ " " ++ r) (self.reactant_stoichiometry.map fmt)
          self.reactant_names := by
    rw [List.zipWith_map_left]
    rfl
  have hlen' : (self.reactant_stoichiometry.map fmt).length = self.reactant_names.length := by
    rw [List.length_map, hlen]
  have hcs : ∀ c ∈ self.reactant_stoichiometry.map fmt, ' ' ∉ c.data := by
    intro c hc
    obtain ⟨d, hd, rfl⟩ := List.mem_map.mp hc
    exact hfmt d hd
  have hne : self.reactant_names ≠ [] := by
    intro h
    rw [h] at hpos
    simp at hpos
  rw [hzip]
  have hline : splitOnce " = " ("      " ++ self.name ++ " = " ++ " + ".intercalate
      (List.zipWith (fun c r => c ++ " " ++ r) (self.reactant_stoichiometry.map fmt)
        self.reactant_names))
      = some ("      " ++ self.name, " + ".intercalate
          (List.zipWith (fun c r => c ++ " " ++ r) (self.reactant_stoichiometry.map fmt)
            self.reactant_names)) := by
    unfold splitOnce
    simp only [String.data_append]
    have h := splitOnceChars_eq_line self.name.data (" + ".intercalate
      (List.zipWith (fun c r => c ++ " " ++ r) (self.reactant_stoichiometry.map fmt)
        self.reactant_names)).data hname (data_ne_of_ne (t := "=") hnameEq)
    rw [h]
    rfl
  have hsplit : splitAll " + " (" + ".intercalate
      (List.zipWith (fun c r => c ++ " " ++ r) (self.reactant_stoichiometry.map fmt)
        self.reactant_names))
      = List.zipWith (fun c r => c ++ " " ++ r) (self.reactant_stoichiometry.map fmt)
          self.reactant_names := by
    unfold splitAll
    have h3 : (" + " : String).data = [' ', '+', ' '] := rfl
    rw [h3, splitAllChars_terms self.reactant_names _ hlen' hne hcs hreact hplus _
      (Nat.le_succ_of_le (length_le_data_terms self.reactant_names _ hlen'))]
    rw [List.map_map]
    exact List.map_id _
  unfold retokenize
  rw [hline]
  simp only
  rw [hsplit, splitTerms_terms self.reactant_names _ hlen' hcs]
  simp only
  rw [List.map_snd_zip _ _ (Nat.le_of_eq hlen'.symm), List.map_fst_zip _ _ (Nat.le_of_eq hlen')]

/-- Claim C10, witness of the amended statement on `sampleRate`. -/
theorem DisplayReaction_round_trip_witness :
    (' ' ∉ sampleRate.name.data ∧ sampleRate.name ≠ "=" ∧
      (∀ r ∈ sampleRate.reactant_names, ' ' ∉ r.data) ∧
      (∀ r ∈ sampleRate.reactant_names.dropLast, r ≠ "+") ∧
      (∀ c ∈ sampleRate.reactant_stoichiometry, ' ' ∉ (printSmall c).data) ∧
      sampleRate.reactant_stoichiometry.length = sampleRate.reactant_names.length ∧
      1 ≤ sampleRate.reactant_names.length) ∧
    ∃ line, sampleRate.DisplayReaction printSmall = Except.ok ["    Reaction: ", line] ∧
      retokenize line = some (["H+", "SiO2(aq)", "Ca++"], ["2", "1", "1"]) :=
  ⟨by decide,
    DisplayReaction_round_trip sampleRate printSmall (by decide) (by decide) (by decide)
      (by decide) (by decide) (by decide) (by decide)⟩

/-- Claim C10, counterexamples to the statement as written.  A reactant named `+` before the last
one: the line is `      N = 1 + + 2 B`, and its right-hand side splits on `" + "` into `1` and
`+ 2 B`.  A rate named `=`: the first `" = "` of the line `      = = 1 A + 2 B` starts at the last
space of the indentation. -/
theorem round_trip_plus_name_counterexample :
    (' ' ∉ samplePlusRate.name.data ∧ (∀ r ∈ samplePlusRate.reactant_names, ' ' ∉ r.data) ∧
      samplePlusRate.reactant_stoichiometry.length = samplePlusRate.reactant_names.length ∧
      1 ≤ samplePlusRate.reactant_names.length ∧
      samplePlusRate.DisplayReaction printSmall
        = Except.ok ["    Reaction: ", "      N = 1 + + 2 B"] ∧
      splitOnce " = " "      N = 1 + + 2 B" = some ("      N", "1 + + 2 B") ∧
      splitAll " + " "1 + + 2 B" = ["1", "+ 2 B"] ∧
      retokenize "      N = 1 + + 2 B" ≠ some (["+", "B"], ["1", "2"])) ∧
    (' ' ∉ sampleEqRate.name.data ∧ (∀ r ∈ sampleEqRate.reactant_names, ' ' ∉ r.data) ∧
      sampleEqRate.reactant_stoichiometry.length = sampleEqRate.reactant_names.length ∧
      1 ≤ sampleEqRate.reactant_names.length ∧
      sampleEqRate.DisplayReaction printSmall
        = Except.ok ["    Reaction: ", "      = = 1 A + 2 B"] ∧
      retokenize "      = = 1 A + 2 B" = some (["1 A", "B"], ["=", "2"]) ∧
      retokenize "      = = 1 A + 2 B" ≠ some (["A", "B"], ["1", "2"])) :=
  ⟨⟨by decide, by decide, by decide, by decide, rfl, by decide, by decide, by decide⟩,
    ⟨by decide, by decide, by decide, by decide, rfl, by decide, by decide⟩⟩

/-- Claim C1, witness on `samplePool` and the reactants of `sampleRate`: two of the three names
resolve. -/
theorem SetSpeciesIds_out_ids_length_witness :
    (samplePool.map Species.name).Nodup ∧
    sampleRate.reactant_names.length ≤ sampleRate.reactant_stoichiometry.length ∧
    ∃ r, sampleRate.SetSpeciesIds samplePool "primary" sampleRate.reactant_names
        sampleRate.reactant_stoichiometry [7, 7] (some [3]) = Except.ok r ∧
      r.out_ids.length = 2 :=
  ⟨by decide, by decide, _, rfl,
    ((SetSpeciesIds_out_ids_length sampleRate samplePool "primary" sampleRate.reactant_names
      sampleRate.reactant_stoichiometry [7, 7] (some [3]) (by decide) (by decide)).1 _ rfl).trans
      (by decide)⟩

/-- Claim C2, witness on `samplePool` and the reactants of `sampleRate`: the coefficient 2 of
`H+`, declared at position 0, is stored at the identifier 2 of `H+`. -/
theorem SetSpeciesIds_stoichiometry_at_identifier_witness :
    ((samplePool.map Species.name).Nodup ∧ (samplePool.map Species.identifier).Nodup ∧
      (∀ s ∈ samplePool, s.identifier < (samplePool.length : Int)) ∧
      sampleRate.reactant_names.Nodup ∧
      sampleRate.reactant_stoichiometry.length = sampleRate.reactant_names.length) ∧
    ∃ r v, sampleRate.SetSpeciesIds samplePool "primary" sampleRate.reactant_names
        sampleRate.reactant_stoichiometry [7, 7] (some [3]) = Except.ok r ∧
      r.out_stoichiometry = some v ∧ v = [1, 0, 2] ∧
      ∃ c, sampleRate.reactant_stoichiometry[0]? = some c ∧ v[2]? = some c := by
  have hthm := SetSpeciesIds_stoichiometry_at_identifier sampleRate samplePool "primary"
    sampleRate.reactant_names sampleRate.reactant_stoichiometry [7, 7] [3]
    (by decide) (by decide) (by decide) (by decide) (by decide)
  refine ⟨by decide, ?_⟩
  obtain ⟨v, hv, hat⟩ := hthm.1 _ rfl
  have hv' : v = [1, 0, 2] := Option.some.inj (hv.symm.trans rfl)
  exact ⟨_, v, rfl, hv, hv', (hat 0 ⟨2, "H+"⟩ (by decide) rfl).2⟩

/-- Claim C3, witness on `samplePool` and the reactants of `sampleRate`: the slot 1 of `HCO3-`,
which is not a reactant, holds zero, and dropping the unresolved `SiO2(aq)` changes nothing. -/
theorem SetSpeciesIds_unmatched_contribute_nothing_witness :
    (∃ r v, sampleRate.SetSpeciesIds samplePool "primary" sampleRate.reactant_names
        sampleRate.reactant_stoichiometry [7, 7] (some [3]) = Except.ok r ∧
      r.out_stoichiometry = some v ∧ v[1]? = some 0) ∧
    (sampleRate.SetSpeciesIds samplePool "primary" (["H+"] ++ "SiO2(aq)" :: ["Ca++"])
        ([2] ++ 1 :: [1]) [7, 7] (some [3])).map (fun r => (r.out_ids, r.out_stoichiometry))
      = Except.ok ([2, 0], some [1, 0, 2]) := by
  have hthm := SetSpeciesIds_unmatched_contribute_nothing sampleRate samplePool "primary"
    sampleRate.reactant_names sampleRate.reactant_stoichiometry [7, 7] [3]
  constructor
  · obtain ⟨v, hv, hl, hz⟩ := hthm.1 _ rfl
    refine ⟨_, v, rfl, hv, hz 1 (by rw [hl]; decide) (by decide)⟩
  · exact (hthm.2 ["H+"] ["Ca++"] [2] [1] "SiO2(aq)" 1 (some [3]) (by decide) rfl).trans rfl

/-- Claim C4, witness on `samplePool` and the reactants of `sampleRate`: two calls with different
prior contents agree, and the stoichiometry vector has the three slots of the pool. -/
theorem SetSpeciesIds_discards_prior_contents_witness :
    sampleRate.SetSpeciesIds samplePool "primary" sampleRate.reactant_names
        sampleRate.reactant_stoichiometry [7, 7] (some [3])
      = sampleRate.SetSpeciesIds samplePool "primary" sampleRate.reactant_names
        sampleRate.reactant_stoichiometry [] (some [4, 4, 4, 4, 4]) ∧
    ∃ r v, sampleRate.SetSpeciesIds samplePool "primary" sampleRate.reactant_names
        sampleRate.reactant_stoichiometry [7, 7] (some [3]) = Except.ok r ∧
      r.out_stoichiometry = some v ∧ v.length = 3 :=
  ⟨(SetSpeciesIds_discards_prior_contents sampleRate samplePool "primary"
      sampleRate.reactant_names sampleRate.reactant_stoichiometry).1 [7, 7] []
      (some [3]) (some [4, 4, 4, 4, 4]) rfl,
    (SetSpeciesIds_discards_prior_contents sampleRate samplePool "primary"
      sampleRate.reactant_names sampleRate.reactant_stoichiometry).2.2.2
      (by decide) (by decide) [7, 7] [3]⟩

/-- Claim C5, counterexample to the statement as written: for the three reactants of
`sampleRate`, one of them unresolved, the call returns two identifiers and three coefficients. -/
theorem parallel_lengths_counterexample :
    sampleRate.SetSpeciesIds samplePool "primary" sampleRate.reactant_names
        sampleRate.reactant_stoichiometry [] (some [])
      = Except.ok ⟨[2, 0], some [1, 0, 2], []⟩ ∧
    ¬ (sampleRate.reactant_names.length = ([1, 0, 2] : List Int).length ∧
        ([1, 0, 2] : List Int).length = ([2, 0] : List Int).length) :=
  ⟨rfl, by decide⟩

/-- Claim C5, witness of the amended statement on `samplePool` and the reactants of
`sampleRate`. -/
theorem SetSpeciesIds_output_lengths_witness :
    (samplePool.map Species.name).Nodup ∧
    ∃ r v, sampleRate.SetSpeciesIds samplePool "primary" sampleRate.reactant_names
        sampleRate.reactant_stoichiometry [] (some []) = Except.ok r ∧
      r.out_stoichiometry = some v ∧ v.length = 3 ∧ r.out_ids.length = 2 := by
  obtain ⟨v, hv, hl, hc, _⟩ := SetSpeciesIds_output_lengths sampleRate samplePool "primary"
    sampleRate.reactant_names sampleRate.reactant_stoichiometry [] [] _ (by decide) rfl
  exact ⟨by decide, _, v, rfl, hv, hl, hc.trans (by decide)⟩

/-- Claim C6, witness on `samplePool` and the reactants of `sampleRate`, one of them
unresolved. -/
theorem SetSpeciesIds_out_ids_resolved_witness :
    (∀ (k : Nat) (s : Species), s ∈ samplePool → sampleRate.reactant_names[k]? = some s.name →
        k < sampleRate.reactant_stoichiometry.length ∧ 0 ≤ s.identifier ∧
          s.identifier < (samplePool.length : Int)) ∧
    ∃ r, sampleRate.SetSpeciesIds samplePool "primary" sampleRate.reactant_names
        sampleRate.reactant_stoichiometry [] (some []) = Except.ok r ∧
      ∀ id ∈ r.out_ids, ∃ s ∈ samplePool, s.identifier = id ∧
        s.name ∈ sampleRate.reactant_names := by
  have hsafe : ∀ (k : Nat) (s : Species), s ∈ samplePool →
      sampleRate.reactant_names[k]? = some s.name →
      k < sampleRate.reactant_stoichiometry.length ∧ 0 ≤ s.identifier ∧
        s.identifier < (samplePool.length : Int) := by
    intro k s hs hk
    have hids : ∀ s ∈ samplePool, 0 ≤ s.identifier ∧ s.identifier < (samplePool.length : Int) := by
      decide
    exact ⟨(show k < sampleRate.reactant_names.length from getElem?_some_lt hk), hids s hs⟩
  exact ⟨hsafe, SetSpeciesIds_out_ids_resolved sampleRate samplePool "primary"
    sampleRate.reactant_names sampleRate.reactant_stoichiometry [] (some []) (Or.inr hsafe)⟩

/-- Claim C7, witness on `samplePool` and the reactants of `sampleRate`. -/
theorem SetSpeciesIds_accesses_in_bounds_witness :
    (∀ s ∈ samplePool, 0 ≤ s.identifier ∧ s.identifier < (samplePool.length : Int)) ∧
    sampleRate.reactant_names.length ≤ sampleRate.reactant_stoichiometry.length ∧
    ∃ r, sampleRate.SetSpeciesIds samplePool "primary" sampleRate.reactant_names
        sampleRate.reactant_stoichiometry [] (some []) = Except.ok r :=
  ⟨by decide, by decide,
    (SetSpeciesIds_accesses_in_bounds sampleRate samplePool "primary" sampleRate.reactant_names
      sampleRate.reactant_stoichiometry [] (some []) (by decide) (by decide)).1⟩

/-- Claim C8, witness on `samplePool` and the reactants of `sampleRate`: silent by default, and
at `kDebugMineralKinetics` one 'Did not find species' line, for `SiO2(aq)`, between two lines of
matches. -/
theorem SetSpeciesIds_diagnostics_witness :
    (∃ r, sampleRate.SetSpeciesIds samplePool "primary" sampleRate.reactant_names
        sampleRate.reactant_stoichiometry [] (some []) = Except.ok r ∧ r.cout = []) ∧
    (∃ r, sampleRateDebug.SetSpeciesIds samplePool "primary" sampleRateDebug.reactant_names
        sampleRateDebug.reactant_stoichiometry [] (some []) = Except.ok r ∧
      r.cout.length = 3 ∧
      r.cout.filter isNotFoundLine
        = ["    KineticRate::SetSpeciesIds: Did not find species \'SiO2(aq)\' in primary species list! "]) :=
  ⟨⟨_, rfl, (SetSpeciesIds_diagnostics sampleRate samplePool "primary" sampleRate.reactant_names
      sampleRate.reactant_stoichiometry [] (some [])).2.1 (by decide) _ rfl⟩,
    ⟨_, rfl, by decide,
      ((SetSpeciesIds_diagnostics sampleRateDebug samplePool "primary"
        sampleRateDebug.reactant_names sampleRateDebug.reactant_stoichiometry []
        (some [])).2.2.1 rfl _ rfl).trans (by decide)⟩⟩

/-! ## `TabularFunction` -/

@[simp] theorem Double.ofNat_eq (n : Nat) [OfNat ℚ n] :
    (OfNat.ofNat n : Double) = Double.finite (OfNat.ofNat n) := rfl

@[simp] theorem Double.finite_le_finite (p q : ℚ) :
    Double.finite p ≤ Double.finite q ↔ p ≤ q := Iff.rfl

@[simp] theorem Double.finite_lt_finite (p q : ℚ) :
    Double.finite p < Double.finite q ↔ p < q := Iff.rfl

@[simp] theorem Double.not_nan_le (a : Double) : ¬ Double.nan ≤ a := fun h => h

@[simp] theorem Double.not_le_nan (a : Double) : ¬ a ≤ Double.nan := by
  cases a <;> exact fun h => h

@[simp] theorem Double.not_nan_lt (a : Double) : ¬ Double.nan < a := fun h => h

@[simp] theorem Double.not_lt_nan (a : Double) : ¬ a < Double.nan := by
  cases a <;> exact fun h => h

@[simp] theorem Double.finite_add_finite (p q : ℚ) :
    Double.finite p + Double.finite q = Double.finite (p + q) := rfl

@[simp] theorem Double.finite_sub_finite (p q : ℚ) :
    Double.finite p - Double.finite q = Double.finite (p - q) := rfl

@[simp] theorem Double.finite_mul_finite (p q : ℚ) :
    Double.finite p * Double.finite q = Double.finite (p * q) := rfl

@[simp] theorem Double.finite_div_finite (p q : ℚ) :
    Double.finite p / Double.finite q = Double.finite (p / q) := rfl

@[simp] theorem Double.neg_finite (p : ℚ) : -Double.finite p = Double.finite (-p) := rfl

/-- Both sides of a true comparison `a < b` are finite. -/
theorem Double.finite_of_lt {a b : Double} (h : a < b) :
    ∃ p q, a = Double.finite p ∧ b = Double.finite q ∧ p < q := by
  cases a with
  | nan => exact absurd h (Double.not_nan_lt _)
  | finite p =>
    cases b with
    | nan => exact absurd h (Double.not_lt_nan _)
    | finite q => exact ⟨p, q, rfl, rfl, h⟩

/-- Both sides of a true comparison `a <= b` are finite. -/
theorem Double.finite_of_le {a b : Double} (h : a ≤ b) :
    ∃ p q, a = Double.finite p ∧ b = Double.finite q ∧ p ≤ q := by
  cases a with
  | nan => exact absurd h (Double.not_nan_le _)
  | finite p =>
    cases b with
    | nan => exact absurd h (Double.not_le_nan _)
    | finite q => exact ⟨p, q, rfl, rfl, h⟩

/-- A list of `double`s without NaN is a list of finite values. -/
theorem Double.map_finite_toRat (x : List Double) (h : ∀ d ∈ x, d ≠ Double.nan) :
    x = (x.map Double.toRat).map Double.finite := by
  induction x with
  | nil => rfl
  | cons d rest ih =>
    have hd := h d (List.mem_cons_self _ _)
    cases d with
    | nan => exact absurd rfl hd
    | finite p =>
      rw [List.map_cons, List.map_cons, ← ih (fun e he => h e (List.mem_cons_of_mem _ he))]
      rfl

theorem int_of_size_eq (k : Nat) (h : k < 2147483648) : int_of_size k = (k : Int) := by
  unfold int_of_size
  omega

/-- The truncated midpoint of two `int`s more than one apart lies strictly between them. -/
theorem tdiv_two_between (j1 j2 : Int) (h : j2 - j1 > 1) :
    j1 < (j1 + j2).tdiv 2 ∧ (j1 + j2).tdiv 2 < j2 := by
  rcases lt_or_ge (j1 + j2) 0 with hneg | hpos
  · have h2 : (-(j1 + j2)).tdiv 2 = (-(j1 + j2)) / 2 := Int.tdiv_eq_ediv (by omega) (by omega)
    have h3 : (-(j1 + j2)).tdiv 2 = -((j1 + j2).tdiv 2) := Int.neg_tdiv _ _
    constructor <;> omega
  · have h1 : (j1 + j2).tdiv 2 = (j1 + j2) / 2 := Int.tdiv_eq_ediv hpos (by omega)
    constructor <;> omega

/-- A relation holds between consecutive elements exactly when it holds between every element
and its successor. -/
theorem chain'_iff_getElem? {α : Type} (R : α → α → Prop) (x : List α) :
    x.Chain' R ↔ ∀ (j : Nat) (a b : α), x[j]? = some a → x[j + 1]? = some b → R a b := by
  induction x with
  | nil => simp
  | cons a rest ih =>
    cases rest with
    | nil => simp
    | cons b rest =>
      rw [List.chain'_cons, ih]
      constructor
      · rintro ⟨hab, h⟩ j a' b' ha' hb'
        cases j with
        | zero =>
          simp only [List.getElem?_cons_zero, Option.some.injEq, zero_add,
            List.getElem?_cons_succ] at ha' hb'
          rw [← ha', ← hb']
          exact hab
        | succ j => exact h j a' b' (by simpa using ha') (by simpa using hb')
      · intro h
        refine ⟨h 0 a b (by simp) (by simp), ?_⟩
        intro j a' b' ha' hb'
        exact h (j + 1) a' b' (by simpa using ha') (by simpa using hb')

/-- The loop over consecutive abscissae passes exactly the arrays in which no test
`x[j] <= x[j-1]` is true, and otherwise aborts after its line on `std::cerr`. -/
theorem increasingLoop_eq (x : List Double) :
    increasingLoop x
      = if x.Chain' (fun a b => ¬ b ≤ a) then Except.ok ()
        else abortAfter "x values are not strictly increasing" := by
  induction x with
  | nil => simp [increasingLoop]
  | cons a rest ih =>
    cases rest with
    | nil => simp [increasingLoop]
    | cons b rest =>
      have hcons : (a :: b :: rest).Chain' (fun a b => ¬ b ≤ a)
          ↔ ¬ b ≤ a ∧ (b :: rest).Chain' (fun a b => ¬ b ≤ a) := List.chain'_cons
      rw [increasingLoop, ih]
      by_cases hba : b ≤ a
      · rw [if_pos hba, if_neg (fun h => absurd hba (hcons.mp h).1)]
      · rw [if_neg hba]
        by_cases hc : (b :: rest).Chain' (fun a b => ¬ b ≤ a)
        · rw [if_pos hc, if_pos (hcons.mpr ⟨hba, hc⟩)]
        · rw [if_neg hc, if_neg (fun h => hc (hcons.mp h).2)]

/-- The constructor in closed form: the three checks in order, and `form_` left empty. -/
theorem construct_eq (x y : List Double) (form : List String) :
    TabularFunction.construct x y form
      = if x.length ≠ y.length then
          Except.error (CtorStop.Abort (some "the number of x and y values differ") none)
        else if ¬ x.Chain' (fun a b => ¬ b ≤ a) then
          Except.error (CtorStop.Abort (some "x values are not strictly increasing") none)
        else if (form.length : Int) ≠ (x.length : Int) - 1 then
          Except.error (CtorStop.Abort (some "incorrect number of form values specified") none)
        else Except.ok { x_ := x, y_ := y, form_ := [] } := by
  unfold TabularFunction.construct
  rw [increasingLoop_eq]
  by_cases h1 : x.length = y.length <;> by_cases h2 : x.Chain' (fun a b => ¬ b ≤ a) <;>
    by_cases h3 : (form.length : Int) = (x.length : Int) - 1 <;>
    simp [h1, h2, h3, abortAfter]

/-- Claim C16.  The constructor of `TabularFunction` aborts if and only if `len(x) != len(y)`, or
some `x[j+1] <= x[j]`, or `len(form) != len(x) - 1`; and for an input that passes the three checks
it returns with `x_ = x` and `y_ = y`. -/
theorem TabularFunction_construct_aborts_iff (x y : List Double) (form : List String) :
    ((∃ cerr message, TabularFunction.construct x y form
          = Except.error (CtorStop.Abort cerr message)) ↔
      (x.length ≠ y.length ∨
        (∃ (j : Nat) (a b : Double), x[j]? = some a ∧ x[j + 1]? = some b ∧ b ≤ a) ∨
        (form.length : Int) ≠ (x.length : Int) - 1)) ∧
    (¬ (x.length ≠ y.length ∨
        (∃ (j : Nat) (a b : Double), x[j]? = some a ∧ x[j + 1]? = some b ∧ b ≤ a) ∨
        (form.length : Int) ≠ (x.length : Int) - 1) →
      ∃ self, TabularFunction.construct x y form = Except.ok self ∧
        self.x_ = x ∧ self.y_ = y) := by
  have hchain : ¬ x.Chain' (fun a b => ¬ b ≤ a) ↔
      ∃ (j : Nat) (a b : Double), x[j]? = some a ∧ x[j + 1]? = some b ∧ b ≤ a := by
    rw [chain'_iff_getElem?]
    constructor
    · intro h
      by_contra hno
      apply h
      intro j a b ha hb hle
      exact hno ⟨j, a, b, ha, hb, hle⟩
    · rintro ⟨j, a, b, ha, hb, hle⟩ h
      exact h j a b ha hb hle
  rw [construct_eq, ← hchain]
  by_cases h1 : x.length ≠ y.length
  · simp [h1]
  · by_cases h2 : ¬ x.Chain' (fun a b => ¬ b ≤ a)
    · simp [h1, h2]
    · by_cases h3 : (form.length : Int) ≠ (x.length : Int) - 1
      · simp [h1, h2, h3]
      · simp only [if_neg h1, if_neg h2, if_neg h3]
        simp [h1, h2, h3]

/-- Claim C16, witness: a table of three points with two interval forms passes the three checks,
and one with a repeated abscissa aborts. -/
theorem TabularFunction_construct_aborts_iff_witness :
    (∃ self, TabularFunction.construct [0, 1, 3] [0, 1, 5] ["LINEAR", "CONSTANT"]
        = Except.ok self ∧ self.x_ = [0, 1, 3] ∧ self.y_ = [0, 1, 5]) ∧
    (∃ cerr message, TabularFunction.construct [0, 1, 1] [0, 1, 5] ["LINEAR", "CONSTANT"]
        = Except.error (CtorStop.Abort cerr message)) :=
  ⟨(TabularFunction_construct_aborts_iff [0, 1, 3] [0, 1, 5] ["LINEAR", "CONSTANT"]).2 (by
      rintro (h | ⟨j, a, b, ha, hb, hle⟩ | h)
      · exact h rfl
      · match j, ha, hb with
        | 0, ha, hb =>
          simp at ha hb
          rw [← ha, ← hb] at hle
          norm_num at hle
        | 1, ha, hb =>
          simp at ha hb
          rw [← ha, ← hb] at hle
          norm_num at hle
        | (j + 2), ha, hb => simp at hb
      · exact h rfl),
    (TabularFunction_construct_aborts_iff [0, 1, 1] [0, 1, 5] ["LINEAR", "CONSTANT"]).1.mpr
      (Or.inr (Or.inl ⟨1, 1, 1, rfl, rfl, by simp⟩))⟩

/-- The constructor either returns the table with an empty `form_`, or aborts after a line on
`std::cerr`. -/
theorem construct_cases (x y : List Double) (form : List String) :
    TabularFunction.construct x y form = Except.ok { x_ := x, y_ := y, form_ := [] } ∨
    ∃ cerr, TabularFunction.construct x y form
      = Except.error (CtorStop.Abort (some cerr) none) := by
  rw [construct_eq]
  split_ifs <;> simp

/-- Claim C17, the code at the failing input: with consistent sizes and the form `CUBIC`, which is
neither `LINEAR` nor `CONSTANT`, the constructor returns normally; and for no input at all does it
abort with the message `Unsupported form type: ...`, the loop that would do so standing after
`BoxLib::Abort()` inside the block of the size check. -/
theorem construct_accepts_unsupported_form :
    TabularFunction.construct [0, 1] [0, 1] ["CUBIC"]
        = Except.ok { x_ := [0, 1], y_ := [0, 1], form_ := [] } ∧
    (["CUBIC"].length : Int) = (([0, 1] : List Double).length : Int) - 1 ∧
    "CUBIC" ≠ "LINEAR" ∧ "CUBIC" ≠ "CONSTANT" ∧
    ∀ (x y : List Double) (form : List String) (name : String),
      TabularFunction.construct x y form
        ≠ Except.error (CtorStop.Abort none (some ("Unsupported form type: " ++ name))) := by
  refine ⟨rfl, by decide, by decide, by decide, ?_⟩
  intro x y form name h
  rcases construct_cases x y form with h' | ⟨cerr, h'⟩
  · rw [h'] at h; cases h
  · rw [h'] at h; cases h

/-- Claim C18, the code at the failing input: the table `x = [0, 1, 3]`, `y = [0, 1, 5]` with the
forms `LINEAR`, `CONSTANT` is constructed with an empty `form_`, so that `operator()(2)`, which
should return `y[1] = 1` for the `CONSTANT` interval from 1 to 3, reads `form_[1]` outside the
array; every constructed table has an empty `form_`. -/
theorem call_reads_form_outside_array :
    TabularFunction.construct [0, 1, 3] [0, 1, 5] ["LINEAR", "CONSTANT"]
        = Except.ok { x_ := [0, 1, 3], y_ := [0, 1, 5], form_ := [] } ∧
    ({ x_ := [0, 1, 3], y_ := [0, 1, 5], form_ := [] } : TabularFunction).call 2
        = Except.error Fault.index_out_of_bounds ∧
    ({ x_ := [0, 1, 3], y_ := [0, 1, 5], form_ := [Form.LINEAR, Form.CONSTANT] }
        : TabularFunction).call 2 = Except.ok 1 ∧
    ∀ (x y : List Double) (form : List String) (self : TabularFunction),
      TabularFunction.construct x y form = Except.ok self → self.form_ = [] := by
  refine ⟨rfl, ?_, ?_, ?_⟩
  · simp [TabularFunction.call, readAt, elemAt, searchLoop, interpolate, inInt, int_of_size]
    norm_num
  · simp [TabularFunction.call, readAt, elemAt, searchLoop, interpolate, inInt, int_of_size]
    norm_num
  · intro x y form self h
    rcases construct_cases x y form with h' | ⟨cerr, h'⟩
    · rw [h'] at h
      cases h
      rfl
    · rw [h'] at h; cases h

theorem elemAt_of_lt {α : Type} (a : List α) (i : Int) (h0 : 0 ≤ i) (h1 : i < (a.length : Int)) :
    ∃ v, elemAt a i = some v ∧ a[i.toNat]? = some v := by
  have hlt : i.toNat < a.length := by omega
  exact ⟨a[i.toNat], by rw [elemAt, if_pos h0, List.getElem?_eq_getElem hlt],
    List.getElem?_eq_getElem hlt⟩

theorem elemAt_natCast {α : Type} (a : List α) (k : Nat) : elemAt a (k : Int) = a[k]? := by
  rw [elemAt, if_pos (Int.natCast_nonneg k), Int.toNat_natCast]

theorem elemAt_map {α β : Type} (f : α → β) (a : List α) (i : Int) :
    elemAt (a.map f) i = (elemAt a i).map f := by
  unfold elemAt
  split_ifs <;> simp

/-- The binary search on finite abscissae, for indices whose sum stays in the range of `int`:
it keeps `x_[j1] <= x < x_[j2]` and ends on two neighbours. -/
theorem searchLoop_spec (qs : List ℚ) (t : ℚ) :
    ∀ (m : Nat) (j1 j2 : Int), (j2 - j1).toNat ≤ m → 0 ≤ j1 → j1 < j2 →
      j2 < (qs.length : Int) → j2 ≤ 1073741824 →
      (∃ a, elemAt qs j1 = some a ∧ a ≤ t) → (∃ b, elemAt qs j2 = some b ∧ t < b) →
      ∃ k : Int, searchLoop (qs.map Double.finite) (Double.finite t) j1 j2
          = Except.ok (k, k + 1) ∧ j1 ≤ k ∧ k + 1 ≤ j2 ∧
        ∃ a b, elemAt qs k = some a ∧ elemAt qs (k + 1) = some b ∧ a ≤ t ∧ t < b := by
  intro m
  induction m with
  | zero =>
    intro j1 j2 hm _ hlt
    omega
  | succ m ih =>
    intro j1 j2 hm h0 hlt hlen hmax hlo hhi
    rw [searchLoop]
    have hdiff : inInt (j2 - j1) := by unfold inInt; omega
    rw [if_neg (not_not.mpr hdiff)]
    by_cases hgap : j2 - j1 > 1
    · rw [if_pos hgap]
      have hsum : inInt (j1 + j2) := by unfold inInt; omega
      rw [if_neg (not_not.mpr hsum)]
      have hmid : (j1 + j2).tdiv 2 = (j1 + j2) / 2 := Int.tdiv_eq_ediv (by omega) (by omega)
      rw [hmid]
      have hj0 : 0 ≤ (j1 + j2) / 2 := by omega
      have hj1 : j1 < (j1 + j2) / 2 := by omega
      have hj2 : (j1 + j2) / 2 < j2 := by omega
      obtain ⟨xj, hxj, _⟩ := elemAt_of_lt qs ((j1 + j2) / 2) hj0 (by omega)
      rw [elemAt_map, hxj]
      simp only [Option.map_some']
      by_cases hge : t ≥ xj
      · rw [if_pos ((Double.finite_le_finite xj t).mpr hge)]
        obtain ⟨k, hk, hk1, hk2, hab⟩ := ih ((j1 + j2) / 2) j2 (by omega) hj0 hj2 hlen hmax
          ⟨xj, hxj, hge⟩ hhi
        exact ⟨k, hk, by omega, hk2, hab⟩
      · rw [if_neg (fun h => hge ((Double.finite_le_finite xj t).mp h))]
        obtain ⟨k, hk, hk1, hk2, hab⟩ := ih j1 ((j1 + j2) / 2) (by omega) h0 hj1 (by omega)
          (by omega) hlo ⟨xj, hxj, not_le.mp hge⟩
        exact ⟨k, hk, hk1, by omega, hab⟩
    · rw [if_neg hgap]
      have hj : j2 = j1 + 1 := by omega
      obtain ⟨a, ha, hat⟩ := hlo
      obtain ⟨b, hb, hbt⟩ := hhi
      subst hj
      exact ⟨j1, rfl, le_refl _, le_refl _, a, b, ha, hb, hat, hbt⟩

theorem pairwise_lt_getElem? (x : List ℚ) (h : x.Pairwise (· < ·)) (i j : Nat) (a b : ℚ)
    (ha : x[i]? = some a) (hb : x[j]? = some b) (hij : i < j) : a < b := by
  obtain ⟨hi, rfl⟩ := List.getElem?_eq_some.mp ha
  obtain ⟨hj, rfl⟩ := List.getElem?_eq_some.mp hb
  exact List.pairwise_iff_getElem.mp h i j hi hj hij

/-- A strictly increasing array of at least two `double`s holds no NaN. -/
theorem no_nan_of_pairwise_lt (x : List Double) (h : x.Pairwise (· < ·)) (hn : 2 ≤ x.length) :
    ∀ d ∈ x, d ≠ Double.nan := by
  intro d hd hnan
  subst hnan
  obtain ⟨i, hi, hxi⟩ := List.getElem_of_mem hd
  rcases Nat.eq_zero_or_pos i with h0 | h0
  · subst h0
    have := List.pairwise_iff_getElem.mp h 0 1 hi (by omega) (by omega)
    rw [hxi] at this
    exact Double.not_nan_lt _ this
  · have := List.pairwise_iff_getElem.mp h 0 i (by omega) hi h0
    rw [hxi] at this
    exact Double.not_lt_nan _ this

/-- The search on a strictly increasing array of finite abscissae of at most `2^30 + 1`
points. -/
theorem searchLoop_finds_interval_finite (qs : List ℚ) (t x0 xn : ℚ)
    (hinc : qs.Pairwise (· < ·)) (hn : 2 ≤ qs.length) (hmax : qs.length ≤ 1073741825)
    (h0 : qs[0]? = some x0) (hlast : qs[qs.length - 1]? = some xn)
    (hlo : x0 < t) (hhi : t < xn) :
    ∃ (j1 : Nat) (a b : ℚ),
      searchLoop (qs.map Double.finite) (Double.finite t) 0 ((qs.length : Int) - 1)
        = Except.ok ((j1 : Int), (j1 : Int) + 1) ∧
      j1 + 1 ≤ qs.length - 1 ∧
      qs[j1]? = some a ∧ qs[j1 + 1]? = some b ∧ a ≤ t ∧ t < b ∧ b - a ≠ 0 ∧
      ∀ (k : Nat) (a' b' : ℚ), qs[k]? = some a' → qs[k + 1]? = some b' → a' ≤ t → t < b' →
        k = j1 := by
  have hlastI : elemAt qs ((qs.length : Int) - 1) = some xn := by
    have hcast : ((qs.length : Int) - 1) = ((qs.length - 1 : Nat) : Int) := by omega
    rw [hcast, elemAt_natCast, hlast]
  have h0I : elemAt qs 0 = some x0 := by
    have := elemAt_natCast qs 0
    simpa [h0] using this
  obtain ⟨k, hk, hk0, hk1, a, b, ha, hb, hat, htb⟩ := searchLoop_spec qs t qs.length 0
    ((qs.length : Int) - 1) (by omega) (le_refl _) (by omega) (by omega) (by omega)
    ⟨x0, h0I, le_of_lt hlo⟩ ⟨xn, hlastI, hhi⟩
  have hkcast : k = ((k.toNat : Nat) : Int) := (Int.toNat_of_nonneg hk0).symm
  have hk1cast : k + 1 = ((k.toNat + 1 : Nat) : Int) := by omega
  rw [hkcast, elemAt_natCast] at ha
  rw [hk1cast, elemAt_natCast] at hb
  refine ⟨k.toNat, a, b, ?_, by omega, ha, hb, hat, htb, ?_, ?_⟩
  · rw [← hkcast]; exact hk
  · have : a < b := lt_of_le_of_lt hat htb
    exact sub_ne_zero.mpr (ne_of_gt this)
  · intro k' a' b' ha' hb' hat' htb'
    rcases Nat.lt_trichotomy k' k.toNat with hlt | heq | hgt
    · exfalso
      have hle : b' ≤ a := by
        rcases Nat.lt_or_ge (k' + 1) k.toNat with h | h
        · exact le_of_lt (pairwise_lt_getElem? qs hinc _ _ b' a hb' ha h)
        · have : k' + 1 = k.toNat := by omega
          rw [this, ha] at hb'
          cases hb'
          exact le_refl _
      exact absurd (lt_of_lt_of_le htb' (le_trans hle hat)) (lt_irrefl _)
    · exact heq
    · exfalso
      have hle : b ≤ a' := by
        rcases Nat.lt_or_ge (k.toNat + 1) k' with h | h
        · exact le_of_lt (pairwise_lt_getElem? qs hinc _ _ b a' hb ha' h)
        · have : k.toNat + 1 = k' := by omega
          rw [this, ha'] at hb
          cases hb
          exact le_refl _
      exact absurd (lt_of_lt_of_le htb (le_trans hle hat')) (lt_irrefl _)

/-- Claim C19 (as amended).  For a strictly increasing `x_` of length `2 <= n <= 2^30 + 1` and
`x_[0] < t < x_[n-1]`, the binary search of `operator()` ends with `j2 = j1 + 1 <= n-1` and
`x_[j1] <= t < x_[j2]`; this interval is the only one that contains `t`, and `x_[j2] - x_[j1]`
is not zero.  The loop ends because `j2 - j1` decreases in both branches while it exceeds 1. -/
theorem searchLoop_finds_interval (x_ : List Double) (t x0 xn : Double)
    (hinc : x_.Pairwise (· < ·)) (hn : 2 ≤ x_.length) (hmax : x_.length ≤ 1073741825)
    (h0 : x_[0]? = some x0) (hlast : x_[x_.length - 1]? = some xn)
    (hlo : x0 < t) (hhi : t < xn) :
    (∃ (j1 : Nat) (a b : Double),
      searchLoop x_ t 0 ((x_.length : Int) - 1) = Except.ok ((j1 : Int), (j1 : Int) + 1) ∧
      j1 + 1 ≤ x_.length - 1 ∧
      x_[j1]? = some a ∧ x_[j1 + 1]? = some b ∧ a ≤ t ∧ t < b ∧ b - a ≠ 0 ∧
      ∀ (k : Nat) (a' b' : Double), x_[k]? = some a' → x_[k + 1]? = some b' → a' ≤ t →
        t < b' → k = j1) ∧
    (∀ j1 j2 : Int, j2 - j1 > 1 →
      j2 - (j1 + j2).tdiv 2 < j2 - j1 ∧ (j1 + j2).tdiv 2 - j1 < j2 - j1) := by
  constructor
  · have hx := Double.map_finite_toRat x_ (no_nan_of_pairwise_lt x_ hinc hn)
    obtain ⟨p0, tq, hp0, htq, hlo'⟩ := Double.finite_of_lt hlo
    obtain ⟨tq', pn, htq', hpn, hhi'⟩ := Double.finite_of_lt hhi
    subst htq hp0 hpn
    cases htq'
    generalize hqs : x_.map Double.toRat = qs at hx
    subst hx
    rw [List.length_map] at hn hmax hlast ⊢
    have hincq : qs.Pairwise (· < ·) := by
      rw [List.pairwise_map] at hinc
      exact hinc
    have h0q : qs[0]? = some p0 := by
      rw [List.getElem?_map] at h0
      cases hq : qs[0]? with
      | none => rw [hq] at h0; cases h0
      | some q => rw [hq] at h0; simp at h0; rw [h0]
    have hlastq : qs[qs.length - 1]? = some pn := by
      rw [List.getElem?_map] at hlast
      cases hq : qs[qs.length - 1]? with
      | none => rw [hq] at hlast; cases hlast
      | some q => rw [hq] at hlast; simp at hlast; rw [hlast]
    obtain ⟨j1, a, b, hs, hj, ha, hb, hat, htb, hne, huniq⟩ :=
      searchLoop_finds_interval_finite qs tq p0 pn hincq hn hmax h0q hlastq hlo' hhi'
    refine ⟨j1, Double.finite a, Double.finite b, hs, hj, ?_, ?_, hat, htb, ?_, ?_⟩
    · rw [List.getElem?_map, ha]; rfl
    · rw [List.getElem?_map, hb]; rfl
    · intro h
      apply hne
      have h2 : Double.finite (b - a) = Double.finite 0 := h
      injection h2
    · intro k a' b' ha' hb' hat' htb'
      rw [List.getElem?_map] at ha' hb'
      cases hqa : qs[k]? with
      | none => rw [hqa] at ha'; cases ha'
      | some qa =>
        cases hqb : qs[k + 1]? with
        | none => rw [hqb] at hb'; cases hb'
        | some qb =>
          rw [hqa] at ha'
          rw [hqb] at hb'
          simp only [Option.map_some', Option.some.injEq] at ha' hb'
          subst ha' hb'
          exact huniq k qa qb hqa hqb hat' htb'
  · intro j1 j2 h
    obtain ⟨h1, h2⟩ := tdiv_two_between j1 j2 h
    constructor <;> omega

/-- Claim C19, witness on the table of abscissas 0, 1, 3, 7 and the argument 2. -/
theorem searchLoop_finds_interval_witness :
    (([0, 1, 3, 7] : List Double).Pairwise (· < ·) ∧ 2 ≤ ([0, 1, 3, 7] : List Double).length ∧
      ([0, 1, 3, 7] : List Double).length ≤ 1073741825 ∧
      ([0, 1, 3, 7] : List Double)[0]? = some 0 ∧
      ([0, 1, 3, 7] : List Double)[([0, 1, 3, 7] : List Double).length - 1]? = some 7 ∧
      (0 : Double) < 2 ∧ (2 : Double) < 7) ∧
    ∃ (j1 : Nat) (a b : Double),
      searchLoop [0, 1, 3, 7] 2 0 ((([0, 1, 3, 7] : List Double).length : Int) - 1)
        = Except.ok ((j1 : Int), (j1 : Int) + 1) ∧
      ([0, 1, 3, 7] : List Double)[j1]? = some a ∧
      ([0, 1, 3, 7] : List Double)[j1 + 1]? = some b ∧
      a ≤ 2 ∧ (2 : Double) < b := by
  have hp : ([0, 1, 3, 7] : List Double).Pairwise (· < ·) := by
    simp only [List.pairwise_cons, List.mem_cons, List.mem_singleton]
    simp
    norm_num
  refine ⟨⟨hp, by decide, by decide, rfl, rfl, by simp, by simp; norm_num⟩, ?_⟩
  obtain ⟨j1, a, b, h, _, ha, hb, hat, htb, _⟩ :=
    (searchLoop_finds_interval [0, 1, 3, 7] 2 0 7 hp (by decide) (by decide) rfl rfl
      (by simp) (by simp; norm_num)).1
  exact ⟨j1, a, b, h, ha, hb, hat, htb⟩

theorem rampTable_length (n : Nat) : (rampTable n).length = n := by
  simp [rampTable]

theorem rampTable_getElem? (n k : Nat) (h : k < n) :
    (rampTable n)[k]? = some (Double.finite (k : ℚ)) := by
  simp [rampTable, List.getElem?_range h]

theorem rampTable_pairwise (n : Nat) : (rampTable n).Pairwise (· < ·) := by
  unfold rampTable
  rw [List.pairwise_map]
  exact (List.pairwise_lt_range n).imp (fun h => by
    rw [Double.finite_lt_finite]
    exact_mod_cast h)

/-- On a table of `2^30 + 2` points, from every state of the search whose upper index is the last
one and whose abscissae up to there do not exceed the argument, the sum `j1 + j2` leaves the
range of `int` before the loop ends. -/
theorem searchLoop_overflow (x_ : List Double) (t : Double)
    (hx : ∀ j : Int, 0 ≤ j → j < 1073741825 → ∃ xj, elemAt x_ j = some xj ∧ t ≥ xj) :
    ∀ (m : Nat) (j1 : Int), (1073741825 - j1).toNat ≤ m → 0 ≤ j1 → 1073741825 - j1 ≥ 2 →
      searchLoop x_ t j1 1073741825 = Except.error Fault.signed_overflow := by
  intro m
  induction m with
  | zero =>
    intro j1 hm _ hgap
    omega
  | succ m ih =>
    intro j1 hm h0 hgap
    rw [searchLoop]
    have hdiff : inInt (1073741825 - j1) := by unfold inInt; omega
    rw [if_neg (not_not.mpr hdiff), if_pos (by omega)]
    by_cases hsum : inInt (j1 + 1073741825)
    · rw [if_neg (not_not.mpr hsum)]
      have hs := hsum
      unfold inInt at hs
      have hmid : (j1 + 1073741825).tdiv 2 = (j1 + 1073741825) / 2 :=
        Int.tdiv_eq_ediv (by omega) (by omega)
      rw [hmid]
      obtain ⟨xj, hxj, hge⟩ := hx ((j1 + 1073741825) / 2) (by omega) (by omega)
      rw [hxj]
      simp only
      rw [if_pos hge]
      exact ih _ (by omega) (by omega) (by omega)
    · rw [if_pos hsum]

/-- Claim C19, counterexample to the statement as written: the abscissae `0, 1, ..., 2^30 + 1`
are strictly increasing, the argument `2^30 + 1/2` lies strictly between the first and the last,
and the binary search does not end on an interval: after 30 halvings `j1 = 2^30 - 1` and
`j2 = 2^30 + 1`, whose sum `2^31` is outside the range of `int`. -/
theorem searchLoop_long_table_counterexample :
    (rampTable 1073741826).Pairwise (· < ·) ∧ 2 ≤ (rampTable 1073741826).length ∧
    (rampTable 1073741826)[0]? = some 0 ∧
    (rampTable 1073741826)[(rampTable 1073741826).length - 1]?
      = some (Double.finite 1073741825) ∧
    (0 : Double) < Double.finite (2147483649 / 2) ∧
    Double.finite (2147483649 / 2) < Double.finite 1073741825 ∧
    searchLoop (rampTable 1073741826) (Double.finite (2147483649 / 2)) 0
        (((rampTable 1073741826).length : Int) - 1)
      = Except.error Fault.signed_overflow := by
  have hlen := rampTable_length 1073741826
  refine ⟨rampTable_pairwise _, by rw [hlen]; omega, ?_, ?_, ?_, ?_, ?_⟩
  · rw [rampTable_getElem? 1073741826 0 (by omega)]
    simp
  · rw [hlen, rampTable_getElem? 1073741826 (1073741826 - 1) (by omega)]
    norm_num
  · simp
  · simp
    norm_num
  · rw [hlen]
    have hj2 : ((1073741826 : Nat) : Int) - 1 = 1073741825 := by omega
    rw [hj2]
    apply searchLoop_overflow _ _ _ 1073741825 0 (by omega) (by omega) (by omega)
    intro j hj0 hj1
    obtain ⟨k, rfl⟩ := Int.eq_ofNat_of_zero_le hj0
    refine ⟨Double.finite (k : ℚ), ?_, ?_⟩
    · rw [elemAt_natCast, rampTable_getElem? 1073741826 k (by omega)]
    · show Double.finite (k : ℚ) ≤ Double.finite (2147483649 / 2)
      rw [Double.finite_le_finite]
      have hle : (k : ℚ) ≤ 1073741824 := by
        have : k ≤ 1073741824 := by omega
        exact_mod_cast this
      linarith

/-- Claim C20, the code at the failing input: with a face component of one unknown on each of
three faces, the value at face 1 is `20`, the entry 1 of the vector 0; the code reads
`u_face[1][0]`, the entry 0 of a vector 1 that does not exist.  Without a face component it
returns `bc_value[f]` at the Dirichlet face 0 and the cell unknown `u_cell[0][c]` of the first
cell of face 1; only the cell read addresses the vector 0. -/
theorem DeriveBoundaryFaceValue_face_indices_swapped :
    sampleRichards.DeriveBoundaryFaceValue 1 1 sampleFaceSolution
        = Except.error ViewFault.index_out_of_bounds ∧
    Epetra_MultiVector.entry [[10, 20, 30]] 0 1 = Except.ok 20 ∧
    sampleRichards.DeriveBoundaryFaceValue 1 0 sampleFaceSolution = Except.ok 10 ∧
    sampleRichards.DeriveBoundaryFaceValue 1 0 sampleCellSolution = Except.ok 5 ∧
    sampleRichards.DeriveBoundaryFaceValue 1 1 sampleCellSolution = Except.ok 2 ∧
    (∀ (self : Richards_PK) (dirichlet f : Int) (u : CompositeVector) (u_face : Epetra_MultiVector),
      u.components.lookup "face" = some u_face →
      self.DeriveBoundaryFaceValue dirichlet f u = u_face.entry f 0) := by
  refine ⟨rfl, rfl, rfl, rfl, rfl, ?_⟩
  intro self dirichlet f u u_face h
  simp [Richards_PK.DeriveBoundaryFaceValue, CompositeVector.HasComponent,
    CompositeVector.ViewComponent, h]

theorem InitializeField__uninitialized (self : Chemistry_PK) (fieldname : String) (value : ℚ)
    (fld : Field) (h : self.S_ fieldname = some fld) (hinit : fld.initialized = false) :
    (self.InitializeField_ fieldname value).S_ fieldname
      = some ⟨fld.data.map (fun cell => cell.map (fun _ => value)), true⟩ := by
  simp [Chemistry_PK.InitializeField_, h, hinit, Field.PutScalar, Field.set_initialized]

/-- A call of `InitializeField_` leaves the fields of other names as they are. -/
theorem InitializeField__other (self : Chemistry_PK) (fieldname other : String) (value : ℚ)
    (h : other ≠ fieldname) :
    (self.InitializeField_ fieldname value).S_ other = self.S_ other := by
  unfold Chemistry_PK.InitializeField_
  split
  · rfl
  · split
    · simp [Function.update, h]
    · rfl

theorem InitializeField__flags (self : Chemistry_PK) (fieldname : String) (value : ℚ) :
    (self.InitializeField_ fieldname value).using_sorption_ = self.using_sorption_ ∧
    (self.InitializeField_ fieldname value).using_sorption_isotherms_
      = self.using_sorption_isotherms_ ∧
    (self.InitializeField_ fieldname value).number_minerals_ = self.number_minerals_ ∧
    (self.InitializeField_ fieldname value).number_ion_exchange_sites_
      = self.number_ion_exchange_sites_ ∧
    (self.InitializeField_ fieldname value).number_sorption_sites_
      = self.number_sorption_sites_ := by
  unfold Chemistry_PK.InitializeField_
  split
  · exact ⟨rfl, rfl, rfl, rfl, rfl⟩
  · split <;> exact ⟨rfl, rfl, rfl, rfl, rfl⟩

/-- Claim C13, the code on every failing input: when there are aqueous components, `State` has
the field `total_component_concentration`, and it has a field `free_ion_species` that it has not
initialized, `Initialize` returns with every entry of `free_ion_species` equal to `0.0`, the
default passed to `InitializeField_`, and the field marked initialized. -/
theorem Initialize_free_ion_default (self : Chemistry_PK) (total free : Field)
    (haq : self.number_aqueous_components_ > 0)
    (htotal : self.S_ "total_component_concentration" = some total)
    (hfree : self.S_ "free_ion_species" = some free)
    (hinit : free.initialized = false) :
    ∃ pk, self.Initialize = Except.ok pk ∧
      pk.S_ "free_ion_species"
        = some ⟨free.data.map (fun cell => cell.map (fun _ => (0 : ℚ))), true⟩ := by
  have hstep : ∀ s : Chemistry_PK, s.S_ "free_ion_species" = some free →
      (s.InitializeField_ "free_ion_species" 0).S_ "free_ion_species"
        = some ⟨free.data.map (fun cell => cell.map (fun _ => (0 : ℚ))), true⟩ :=
    fun s hs => InitializeField__uninitialized s "free_ion_species" 0 free hs hinit
  have hkeep : ∀ (s : Chemistry_PK) (name : String) (v : ℚ) (fld : Option Field),
      "free_ion_species" ≠ name → s.S_ "free_ion_species" = fld →
      (s.InitializeField_ name v).S_ "free_ion_species" = fld :=
    fun s name v fld hne hs => (InitializeField__other s name "free_ion_species" v hne).trans hs
  have stage1 : ∀ (c : Prop) [Decidable c] (s : Chemistry_PK) (n1 : String) (v1 : ℚ)
      (fld : Option Field), "free_ion_species" ≠ n1 → s.S_ "free_ion_species" = fld →
      (if c then s.InitializeField_ n1 v1 else s).S_ "free_ion_species" = fld := by
    intro c _ s n1 v1 fld h1 hs
    split
    · exact hkeep _ _ _ _ h1 hs
    · exact hs
  have stage2 : ∀ (c : Prop) [Decidable c] (s : Chemistry_PK) (n1 n2 : String) (v1 v2 : ℚ)
      (fld : Option Field), "free_ion_species" ≠ n1 → "free_ion_species" ≠ n2 →
      s.S_ "free_ion_species" = fld →
      (if c then (s.InitializeField_ n1 v1).InitializeField_ n2 v2 else s).S_ "free_ion_species"
        = fld := by
    intro c _ s n1 n2 v1 v2 fld h1 h2 hs
    split
    · exact hkeep _ _ _ _ h2 (hkeep _ _ _ _ h1 hs)
    · exact hs
  have stage3 : ∀ (c : Prop) [Decidable c] (s : Chemistry_PK) (n1 n2 n3 : String)
      (v1 v2 v3 : ℚ) (fld : Option Field), "free_ion_species" ≠ n1 → "free_ion_species" ≠ n2 →
      "free_ion_species" ≠ n3 → s.S_ "free_ion_species" = fld →
      (if c then ((s.InitializeField_ n1 v1).InitializeField_ n2 v2).InitializeField_ n3 v3
        else s).S_ "free_ion_species" = fld := by
    intro c _ s n1 n2 n3 v1 v2 v3 fld h1 h2 h3 hs
    split
    · exact hkeep _ _ _ _ h3 (hkeep _ _ _ _ h2 (hkeep _ _ _ _ h1 hs))
    · exact hs
  unfold Chemistry_PK.Initialize Chemistry_PK.aqueousSpecies
  rw [if_pos haq, htotal]
  refine ⟨_, rfl, ?_⟩
  apply stage2 _ _ _ _ _ _ _ (by decide) (by decide)
  apply stage2 _ _ _ _ _ _ _ (by decide) (by decide)
  apply stage2 _ _ _ _ _ _ _ (by decide) (by decide)
  apply stage3 _ _ _ _ _ _ _ _ _ (by decide) (by decide) (by decide)
  apply stage1 _ _ _ _ _ (by decide)
  apply hkeep _ _ _ _ (by decide)
  apply hstep
  apply stage1 _ _ _ _ _ (by decide)
  exact hfree

/-- Claim C13, witness on `sampleChemistry`: the free-ion concentrations 7 of the state not
yet initialized become 0. -/
theorem Initialize_free_ion_default_witness :
    (sampleChemistry.number_aqueous_components_ > 0 ∧
      sampleChemistry.S_ "total_component_concentration" = some ⟨[[1, 2], [3, 4]], true⟩ ∧
      sampleChemistry.S_ "free_ion_species" = some ⟨[[7, 7], [7, 7]], false⟩) ∧
    ∃ pk, sampleChemistry.Initialize = Except.ok pk ∧
      pk.S_ "free_ion_species" = some ⟨[[0, 0], [0, 0]], true⟩ ∧ ¬ ((0 : ℚ) < 0) := by
  obtain ⟨pk, hpk, hfree⟩ := Initialize_free_ion_default sampleChemistry
    ⟨[[1, 2], [3, 4]], true⟩ ⟨[[7, 7], [7, 7]], false⟩ (by decide) rfl rfl rfl
  exact ⟨⟨by decide, rfl, rfl⟩, pk, hpk, hfree, lt_irrefl _⟩

/-! ## The batch driver -/

theorem noRaise_of_all (l : List Event) (h : l.all (fun e => !e.isRaised) = true) :
    ∀ e ∈ l, e.isRaised = false := by
  intro e he
  have := List.all_eq_true.mp h e he
  simpa using this

theorem RaiseLast.prepend (a events : List Event) (o : TryOutcome)
    (ha : ∀ e ∈ a, e.isRaised = false) (h : RaiseLast events o) : RaiseLast (a ++ events) o := by
  cases o with
  | raised r =>
    obtain ⟨before, hev, hb⟩ := h
    refine ⟨a ++ before, by rw [hev, List.append_assoc], ?_⟩
    intro e he
    rcases List.mem_append.mp he with h1 | h1
    · exact ha e h1
    · exact hb e h1
  | completed =>
    intro e he
    rcases List.mem_append.mp he with h1 | h1
    · exact ha e h1
    · exact h e h1
  | remainder_by_zero =>
    intro e he
    rcases List.mem_append.mp he with h1 | h1
    · exact ha e h1
    · exact h e h1

theorem RaiseLast.raise (a : List Event) (r : Raised) (ha : ∀ e ∈ a, e.isRaised = false) :
    RaiseLast (a ++ [Event.raised r]) (TryOutcome.raised r) :=
  ⟨a, rfl, ha⟩

/-- In the time-step loop an exception is the last event. -/
theorem timeStepLoop_raiseLast {B : Type} (env : Environment B) (p : SimulationParameters) :
    ∀ (n : Nat) (time_step : Int) (chem : B) (components : BeakerComponents),
      RaiseLast (timeStepLoop env p n time_step chem components).1
        (timeStepLoop env p n time_step chem components).2.1 := by
  intro n
  induction n with
  | zero =>
    intro time_step chem components e he
    simp [timeStepLoop] at he
  | succ n ih =>
    intro time_step chem components
    rw [timeStepLoop]
    cases hstep : env.ReactionStep chem components p.delta_time with
    | error r =>
      exact RaiseLast.raise [Event.ReactionStep components] r (noRaise_of_all _ (by rfl))
    | ok next =>
      obtain ⟨chem1, components1⟩ := next
      by_cases hzero : p.output_interval = 0
      · simp only [if_pos hzero]
        exact noRaise_of_all _ (by rfl)
      · simp only [if_neg hzero]
        have hrest := ih (time_step + 1) chem1 components1
        have hpre : ∀ e ∈ [Event.ReactionStep components] ++
            ((if (time_step + 1) % p.output_interval = 0
                then [Event.DisplayTotalColumns, Event.WriteTextOutput] else [])
              ++ (if p.verbosity ≥ env.levels.kDebugBeaker
                then [Event.WriteStatus time_step] else [])), e.isRaised = false :=
          noRaise_of_all _ (by split_ifs <;> rfl)
        have := RaiseLast.prepend _ _ _ hpre hrest
        simpa [List.append_assoc] using this

/-- In the reaction stepping an exception is the last event. -/
theorem reactionStepping_raiseLast {B : Type} (env : Environment B) (p : SimulationParameters)
    (chem : B) (components : BeakerComponents) :
    RaiseLast (reactionStepping env p chem components).1
      (reactionStepping env p chem components).2 := by
  unfold reactionStepping
  by_cases hn : p.num_time_steps ≠ 0
  · simp only [if_pos hn]
    have hloop := timeStepLoop_raiseLast env p p.num_time_steps.toNat 0 chem components
    rcases hres : timeStepLoop env p p.num_time_steps.toNat 0 chem components with
      ⟨steps, outcome, chem1, components1⟩
    rw [hres] at hloop
    simp only at hloop
    cases outcome with
    | completed =>
      simp only
      cases hsp : env.Speciate chem1 components1 with
      | error r =>
        simp only
        refine RaiseLast.raise _ r ?_
        intro e he
        simp only [List.mem_append] at he
        rcases he with (he | he) | he
        · exact noRaise_of_all _ (by rfl) e he
        · exact hloop e he
        · exact noRaise_of_all _ (by rfl) e he
      | ok chem2 =>
        simp only
        intro e he
        simp only [List.mem_append] at he
        rcases he with ((he | he) | he) | he
        · exact noRaise_of_all _ (by rfl) e he
        · exact hloop e he
        · exact noRaise_of_all _ (by rfl) e he
        · exact noRaise_of_all _ (by split_ifs <;> rfl) e he
    | raised r =>
      simp only
      exact RaiseLast.prepend _ _ _ (noRaise_of_all _ (by rfl)) hloop
    | remainder_by_zero =>
      simp only
      exact RaiseLast.prepend _ _ _ (noRaise_of_all _ (by rfl)) hloop
  · simp only [if_neg hn]
    intro e he
    cases he

/-- In the `try` block an exception is the last event. -/
theorem tryBlock_raiseLast {B : Type} (env : Environment B) (p : SimulationParameters)
    (components : BeakerComponents) :
    RaiseLast (tryBlock env p components).1 (tryBlock env p components).2 := by
  unfold tryBlock
  by_cases hdb : p.database_file.length ≠ 0
  · simp only [if_pos hdb]
    cases env.Setup env.SimpleThermoDatabase (initialFreeIon components) with
    | error r =>
      exact RaiseLast.raise [Event.NewBeaker, Event.Setup (initialFreeIon components)] r
        (noRaise_of_all _ (by rfl))
    | ok chem1 =>
      simp only
      cases env.Speciate chem1 (initialFreeIon components) with
      | error r => exact RaiseLast.raise _ r (noRaise_of_all _ (by split_ifs <;> rfl))
      | ok chem2 =>
        simp only
        cases env.CopyBeakerToComponents chem2 (initialFreeIon components) with
        | error r =>
          simp only
          have := RaiseLast.raise (([Event.NewBeaker, Event.Setup (initialFreeIon components)] ++
            (if p.verbosity ≥ env.levels.kVerbose then [Event.Display, Event.DisplayComponents]
              else []) ++ [Event.Speciate (initialFreeIon components)])
            ++ [Event.CopyBeakerToComponents]) r (noRaise_of_all _ (by split_ifs <;> rfl))
          simpa [List.append_assoc] using this
        | ok components2 =>
          simp only
          exact RaiseLast.prepend _ _ _ (noRaise_of_all _ (by split_ifs <;> rfl))
            (reactionStepping_raiseLast env p chem2 components2)
  · simp only [if_neg hdb]
    exact noRaise_of_all _ (by rfl)

theorem commandLineEvents_plain (levels : VerbosityLevels) (parsed : CommandLine × Option String) :
    ∀ e ∈ commandLineEvents levels parsed, e.isRaised = false ∧ e.isBeakerEvent = false := by
  intro e he
  unfold commandLineEvents at he
  rcases List.mem_append.mp he with h | h
  · obtain ⟨line, _, rfl⟩ := List.mem_map.mp h
    exact ⟨rfl, rfl⟩
  · cases hm : parsed.2 with
    | none => rw [hm] at h; cases h
    | some message =>
      rw [hm] at h
      simp only [List.mem_singleton] at h
      rw [h]
      exact ⟨rfl, rfl⟩

/-- The events of `main` before the `try` block. -/
theorem beforeTry_plain {B : Type} (env : Environment B) (cl : CommandLine)
    (p : SimulationParameters) :
    ∀ e ∈ (if cl.verbosity_name.length ≠ 0 then [Event.AddLevel cl.verbosity_name] else [])
        ++ p.verbosity_names.map (fun name =>
          Event.AddLevel (env.RemoveLeadingAndTrailingWhitespace name))
        ++ (if cl.debug_batch_driver then [Event.PrintInput] else [])
        ++ (if p.text_output.length > 0 then [Event.SetupTextOutput] else []),
      e.isRaised = false ∧ e.isBeakerEvent = false := by
  intro e he
  simp only [List.mem_append, List.mem_map] at he
  rcases he with ((he | ⟨name, _, rfl⟩) | he) | he
  · split_ifs at he
    · simp only [List.mem_singleton] at he; rw [he]; exact ⟨rfl, rfl⟩
    · cases he
  · exact ⟨rfl, rfl⟩
  · split_ifs at he
    · simp only [List.mem_singleton] at he; rw [he]; exact ⟨rfl, rfl⟩
    · cases he
  · split_ifs at he
    · simp only [List.mem_singleton] at he; rw [he]; exact ⟨rfl, rfl⟩
    · cases he

theorem finish_plain (levels : VerbosityLevels) (error : Int) (o : TryOutcome) :
    (∀ e ∈ (finish levels error o).events, e.isRaised = false ∧ e.isBeakerEvent = false) ∧
    (finish levels error o).ending ≠ Ending.aborted := by
  cases o with
  | completed =>
    refine ⟨?_, by simp [finish]⟩
    intro e he
    simp only [finish, List.mem_singleton] at he
    rw [he]; exact ⟨rfl, rfl⟩
  | raised r =>
    cases r <;> refine ⟨?_, by simp [finish]⟩ <;> intro e he <;>
      simp only [finish, List.mem_cons, List.mem_singleton, List.not_mem_nil, or_false] at he
    all_goals (rcases he with h | h <;> rw [h] <;> exact ⟨rfl, rfl⟩)
  | remainder_by_zero =>
    refine ⟨?_, by simp [finish]⟩
    intro e he
    simp only [finish] at he
    cases he

/-- The run of `main` when no template file is requested, the input has been read and `total`
is not empty. -/
theorem main_of_total {B : Type} (env : Environment B) (argv0 : String)
    (options : List CommandLineOption) (p : SimulationParameters) (components : BeakerComponents)
    (htemplate : (CommandLineOptions argv0 options).1.template_file_name.length = 0)
    (hread : readInput env (CommandLineOptions argv0 options).1 = some (p, components))
    (htotal : components.total.length ≠ 0) :
    main env argv0 options
      = { events := commandLineEvents env.levels (CommandLineOptions argv0 options)
            ++ (runSimulation env (CommandLineOptions argv0 options).1 p components).events
          ending := (runSimulation env (CommandLineOptions argv0 options).1 p components).ending
        } := by
  unfold main
  simp only [htemplate, ne_eq, not_true_eq_false, if_false, hread, htotal]

/-- The run of `main` when no template file is requested, the input has been read and `total`
is empty. -/
theorem main_of_empty_total {B : Type} (env : Environment B) (argv0 : String)
    (options : List CommandLineOption) (p : SimulationParameters) (components : BeakerComponents)
    (htemplate : (CommandLineOptions argv0 options).1.template_file_name.length = 0)
    (hread : readInput env (CommandLineOptions argv0 options).1 = some (p, components))
    (htotal : components.total.length = 0) :
    main env argv0 options
      = { events := commandLineEvents env.levels (CommandLineOptions argv0 options)
            ++ [Event.Write env.levels.kError emptyTotalMessage]
          ending := Ending.aborted } := by
  unfold main
  simp only [htemplate, ne_eq, not_true_eq_false, if_false, hread, htotal, if_true]

/-- Either `main` reaches the simulation, or it ends early by `exit` or `abort` without an event
of a beaker. -/
theorem main_shape {B : Type} (env : Environment B) (argv0 : String)
    (options : List CommandLineOption) :
    (∃ p components,
      (CommandLineOptions argv0 options).1.template_file_name.length = 0 ∧
      readInput env (CommandLineOptions argv0 options).1 = some (p, components) ∧
      components.total.length ≠ 0) ∨
    ((∀ e ∈ (main env argv0 options).events, e.isRaised = false ∧ e.isBeakerEvent = false) ∧
      ((main env argv0 options).ending = Ending.aborted ∨
        (main env argv0 options).ending = Ending.exited EXIT_SUCCESS)) := by
  by_cases htemplate : (CommandLineOptions argv0 options).1.template_file_name.length = 0
  · cases hread : readInput env (CommandLineOptions argv0 options).1 with
    | none =>
      right
      unfold main
      simp only [htemplate, ne_eq, not_true_eq_false, if_false, hread]
      refine ⟨?_, by simp⟩
      intro e he
      rcases List.mem_append.mp he with h | h
      · exact commandLineEvents_plain _ _ e h
      · simp only [List.mem_singleton] at h; rw [h]; exact ⟨rfl, rfl⟩
    | some pc =>
      obtain ⟨p, components⟩ := pc
      by_cases htotal : components.total.length = 0
      · right
        rw [main_of_empty_total env argv0 options p components htemplate hread htotal]
        refine ⟨?_, Or.inl rfl⟩
        intro e he
        rcases List.mem_append.mp he with h | h
        · exact commandLineEvents_plain _ _ e h
        · simp only [List.mem_singleton] at h; rw [h]; exact ⟨rfl, rfl⟩
      · exact Or.inl ⟨p, components, htemplate, rfl, htotal⟩
  · right
    unfold main
    simp only [ne_eq, htemplate, not_false_eq_true, if_true]
    split
    · refine ⟨?_, Or.inr rfl⟩
      intro e he
      rcases List.mem_append.mp he with h | h
      · exact commandLineEvents_plain _ _ e h
      · simp only [List.mem_singleton] at h; rw [h]; exact ⟨rfl, rfl⟩
    · refine ⟨?_, Or.inl rfl⟩
      intro e he
      rcases List.mem_append.mp he with h | h
      · exact commandLineEvents_plain _ _ e h
      · simp only [List.mem_singleton] at h; rw [h]; exact ⟨rfl, rfl⟩

/-- Claim C11.  When no template file is requested and `components.total` is empty after the
input has been read, as it is when no input file was given, `main` writes the error
`Must have a non-zero number of total component values.` and aborts, no beaker having been
constructed or called; when `components.total` is not empty the check does not abort, and the
run goes on with the components as read. -/
theorem main_total_check {B : Type} (env : Environment B) (argv0 : String)
    (options : List CommandLineOption) (p : SimulationParameters) (components : BeakerComponents)
    (htemplate : (CommandLineOptions argv0 options).1.template_file_name.length = 0)
    (hread : readInput env (CommandLineOptions argv0 options).1 = some (p, components)) :
    (components.total.length = 0 →
      (main env argv0 options).ending = Ending.aborted ∧
      ∃ before, (main env argv0 options).events
          = before ++ [Event.Write env.levels.kError emptyTotalMessage] ∧
        ∀ e ∈ before, e.isBeakerEvent = false) ∧
    (components.total.length ≠ 0 →
      (main env argv0 options).ending ≠ Ending.aborted ∧
      (main env argv0 options).ending
        = (runSimulation env (CommandLineOptions argv0 options).1 p components).ending ∧
      (main env argv0 options).events
        = commandLineEvents env.levels (CommandLineOptions argv0 options)
          ++ (runSimulation env (CommandLineOptions argv0 options).1 p components).events) ∧
    ((CommandLineOptions argv0 options).1.input_file_name.length = 0 →
      components.total.length = 0) := by
  refine ⟨?_, ?_, ?_⟩
  · intro htotal
    rw [main_of_empty_total env argv0 options p components htemplate hread htotal]
    exact ⟨rfl, _, rfl, fun e he => (commandLineEvents_plain _ _ e he).2⟩
  · intro htotal
    rw [main_of_total env argv0 options p components htemplate hread htotal]
    refine ⟨?_, rfl, rfl⟩
    exact (finish_plain _ _ _).2
  · intro hinput
    unfold readInput at hread
    simp only [hinput, ne_eq, not_true_eq_false, if_false, Option.some.injEq,
      Prod.mk.injEq] at hread
    rw [← hread.2]
    rfl

/-- With a database file the `try` block starts with the construction of the beaker and the call
of `Setup` on the components of `initialFreeIon`. -/
theorem tryBlock_starts {B : Type} (env : Environment B) (p : SimulationParameters)
    (components : BeakerComponents) (hdb : p.database_file.length ≠ 0) :
    ∃ after, (tryBlock env p components).1
      = Event.NewBeaker :: Event.Setup (initialFreeIon components) :: after := by
  unfold tryBlock
  simp only [if_pos hdb]
  cases env.Setup env.SimpleThermoDatabase (initialFreeIon components) with
  | error r => exact ⟨_, rfl⟩
  | ok chem1 =>
    simp only
    cases env.Speciate chem1 (initialFreeIon components) with
    | error r => exact ⟨_, rfl⟩
    | ok chem2 =>
      simp only
      cases env.CopyBeakerToComponents chem2 (initialFreeIon components) with
      | error r => exact ⟨_, rfl⟩
      | ok components2 => exact ⟨_, rfl⟩

/-- Claim C12.  When no template file is requested, the input read has a non-empty `total` and a
database file is given, the first events of a beaker are its construction and the call of
`Setup`.  The components passed have the `total` that was read; when `free_ion` was read empty
they have a `free_ion` of the length of `total` with every entry `1.0e-9`, positive and not zero,
and otherwise the `free_ion` that was read. -/
theorem main_free_ion_for_Setup {B : Type} (env : Environment B) (argv0 : String)
    (options : List CommandLineOption) (p : SimulationParameters) (components : BeakerComponents)
    (htemplate : (CommandLineOptions argv0 options).1.template_file_name.length = 0)
    (hread : readInput env (CommandLineOptions argv0 options).1 = some (p, components))
    (htotal : components.total.length ≠ 0)
    (hdb : p.database_file.length ≠ 0) :
    ∃ before after passed, (main env argv0 options).events
        = before ++ Event.NewBeaker :: Event.Setup passed :: after ∧
      (∀ e ∈ before, e.isBeakerEvent = false) ∧
      passed.total = components.total ∧
      (components.free_ion.length = 0 →
        passed.free_ion = List.replicate components.total.length (1 / 1000000000) ∧
        passed.free_ion.length = components.total.length ∧
        ∀ v ∈ passed.free_ion, v = 1 / 1000000000 ∧ 0 < v ∧ v ≠ 0) ∧
      (components.free_ion.length ≠ 0 → passed = components) := by
  obtain ⟨after, hafter⟩ := tryBlock_starts env p components hdb
  rw [main_of_total env argv0 options p components htemplate hread htotal]
  refine ⟨commandLineEvents env.levels (CommandLineOptions argv0 options)
      ++ ((if (CommandLineOptions argv0 options).1.verbosity_name.length ≠ 0
            then [Event.AddLevel (CommandLineOptions argv0 options).1.verbosity_name] else [])
        ++ p.verbosity_names.map (fun name =>
          Event.AddLevel (env.RemoveLeadingAndTrailingWhitespace name))
        ++ (if (CommandLineOptions argv0 options).1.debug_batch_driver
            then [Event.PrintInput] else [])
        ++ (if p.text_output.length > 0 then [Event.SetupTextOutput] else [])),
    after ++ (finish env.levels (CommandLineOptions argv0 options).1.error
      (tryBlock env p components).2).events,
    initialFreeIon components, ?_, ?_, ?_, ?_, ?_⟩
  · simp only [runSimulation, hafter, List.append_assoc, List.cons_append]
  · intro e he
    rcases List.mem_append.mp he with h | h
    · exact (commandLineEvents_plain _ _ e h).2
    · exact (beforeTry_plain env _ p e h).2
  · unfold initialFreeIon
    split <;> rfl
  · intro hfree
    have hnil : components.free_ion = [] := List.length_eq_zero.mp hfree
    have hfi : (initialFreeIon components).free_ion
        = List.replicate components.total.length (1 / 1000000000) := by
      unfold initialFreeIon
      rw [if_pos hfree]
      simp [vector_resize, hnil]
    refine ⟨hfi, by rw [hfi, List.length_replicate], ?_⟩
    intro v hv
    rw [hfi] at hv
    have hv' : v = 1 / 1000000000 := (List.mem_replicate.mp hv).2
    rw [hv']
    refine ⟨rfl, by norm_num, by norm_num⟩
  · intro hfree
    unfold initialFreeIon
    rw [if_neg hfree]

/-- Claim C12, witness on `sampleEnvironmentRaising`: the two total concentrations of the input
file give the two free-ion concentrations `1.0e-9` passed to `Setup`. -/
theorem main_free_ion_for_Setup_witness :
    ((CommandLineOptions "batch_chem" [CommandLineOption.i "in.cfg"]).1.template_file_name.length
        = 0 ∧
      readInput sampleEnvironmentRaising
          (CommandLineOptions "batch_chem" [CommandLineOption.i "in.cfg"]).1
        = some (sampleParameters, ⟨[], [], [], [1, 2], []⟩) ∧
      ([1, 2] : List ℚ).length ≠ 0 ∧ sampleParameters.database_file.length ≠ 0) ∧
    ∃ before after passed,
      (main sampleEnvironmentRaising "batch_chem" [CommandLineOption.i "in.cfg"]).events
        = before ++ Event.NewBeaker :: Event.Setup passed :: after ∧
      passed.total = [1, 2] ∧
      passed.free_ion = [1 / 1000000000, 1 / 1000000000] := by
  refine ⟨⟨by decide, rfl, by decide, by decide⟩, ?_⟩
  obtain ⟨before, after, passed, hev, _, htot, hfree, _⟩ :=
    main_free_ion_for_Setup sampleEnvironmentRaising "batch_chem" [CommandLineOption.i "in.cfg"]
      sampleParameters ⟨[], [], [], [1, 2], []⟩ (by decide) rfl (by decide) (by decide)
  exact ⟨before, after, passed, hev, htot, (hfree rfl).1⟩

/-- Claim C11, witness on `sampleEnvironment`: without an input file `total` stays empty and
`main` aborts after the error message; with the input file it returns. -/
theorem main_total_check_witness :
    ((CommandLineOptions "batch_chem" []).1.template_file_name.length = 0 ∧
      readInput sampleEnvironment (CommandLineOptions "batch_chem" []).1
        = some (sampleParametersNoDatabase, ⟨[], [], [], [], []⟩)) ∧
    (main sampleEnvironment "batch_chem" []).ending = Ending.aborted ∧
    (main sampleEnvironment "batch_chem" []).events
      = [Event.Write 0 "Must have a non-zero number of total component values.\n"] ∧
    (main sampleEnvironment "batch_chem" [CommandLineOption.i "in.cfg"]).ending
      = Ending.returned 0 := by
  have h := (main_total_check sampleEnvironment "batch_chem" [] sampleParametersNoDatabase
    ⟨[], [], [], [], []⟩ (by decide) rfl).1 rfl
  exact ⟨⟨by decide, rfl⟩, h.1, by decide, by decide⟩

/-- The options `-d` and `-v` leave the return value of `CommandLineOptions` as it is. -/
theorem foldl_optionStep_error (argv0 : String) (back : List CommandLineOption)
    (hback : ∀ b ∈ back, b = CommandLineOption.d ∨ ∃ a, b = CommandLineOption.v a) :
    ∀ cl : CommandLine, (back.foldl (optionStep argv0) cl).error = cl.error := by
  induction back with
  | nil => intro cl; rfl
  | cons b back ih =>
    intro cl
    rw [List.foldl_cons, ih (fun b' hb' => hback b' (List.mem_cons_of_mem _ hb'))]
    rcases hback b (List.mem_cons_self _ _) with h | ⟨a, h⟩ <;> rw [h] <;> rfl

/-- The return value of `CommandLineOptions` is set by the last of the options `-i`, `-t`, `-h`
and the unrecognised ones. -/
theorem CommandLineOptions_error (argv0 : String) (front back : List CommandLineOption)
    (o : CommandLineOption)
    (hback : ∀ b ∈ back, b = CommandLineOption.d ∨ ∃ a, b = CommandLineOption.v a) :
    (CommandLineOptions argv0 (front ++ o :: back)).1.error
      = (optionStep argv0 (front.foldl (optionStep argv0)
          { error := -2, verbosity_name := "", input_file_name := "", template_file_name := "",
            debug_batch_driver := false, cout := [] }) o).error := by
  unfold CommandLineOptions
  simp only [c_str_is_null, Bool.false_eq_true, and_self, if_false, List.foldl_append,
    List.foldl_cons]
  exact foldl_optionStep_error argv0 back hback _

/-- Inside `runSimulation` an exception is followed by the handler only. -/
theorem runSimulation_raised {B : Type} (env : Environment B) (cl : CommandLine)
    (p : SimulationParameters) (components : BeakerComponents) :
    (∀ r, Event.raised r ∈ (runSimulation env cl p components).events →
      (tryBlock env p components).2 = TryOutcome.raised r ∧
      ∃ before, (runSimulation env cl p components).events
        = before ++ Event.raised r
          :: (finish env.levels cl.error (TryOutcome.raised r)).events) ∧
    ((∀ r, Event.raised r ∉ (runSimulation env cl p components).events) →
      ∀ r, (tryBlock env p components).2 ≠ TryOutcome.raised r) := by
  have hlast := tryBlock_raiseLast env p components
  have hplain := beforeTry_plain env cl p
  have hfin := fun o => (finish_plain env.levels cl.error o).1
  constructor
  · intro r hr
    have hblock : Event.raised r ∈ (tryBlock env p components).1 := by
      unfold runSimulation at hr
      rcases List.mem_append.mp hr with hr | hr
      · rcases List.mem_append.mp hr with hr | hr
        · have := (hplain _ hr).1
          cases this
        · exact hr
      · have := (hfin _ _ hr).1
        cases this
    cases hout : (tryBlock env p components).2 with
    | raised r' =>
      rw [hout] at hlast
      obtain ⟨before, hev, hb⟩ := hlast
      rw [hev] at hblock
      have hrr : r = r' := by
        rcases List.mem_append.mp hblock with h | h
        · have := hb _ h
          cases this
        · simp only [List.mem_singleton, Event.raised.injEq] at h
          exact h
      subst hrr
      refine ⟨rfl, (if cl.verbosity_name.length ≠ 0 then [Event.AddLevel cl.verbosity_name]
          else [])
        ++ p.verbosity_names.map (fun name =>
          Event.AddLevel (env.RemoveLeadingAndTrailingWhitespace name))
        ++ (if cl.debug_batch_driver then [Event.PrintInput] else [])
        ++ (if p.text_output.length > 0 then [Event.SetupTextOutput] else []) ++ before, ?_⟩
      simp only [runSimulation, hev, hout, List.append_assoc, List.singleton_append]
    | completed =>
      rw [hout] at hlast
      have := hlast _ hblock
      cases this
    | remainder_by_zero =>
      rw [hout] at hlast
      have := hlast _ hblock
      cases this
  · intro hno r hout
    rw [hout] at hlast
    obtain ⟨before, hev, _⟩ := hlast
    apply hno r
    simp only [runSimulation, hev, List.mem_append, List.mem_singleton]
    exact Or.inl (Or.inr (Or.inr trivial))

/-- What `main` does with an exception and what it returns.  When a member of the beaker raises
a `ChemistryException`, a `std::runtime_error` or a `std::logic_error`, the exception is followed
by the two messages of the handler only, so that no further call of the solver is made, and
`main` returns `EXIT_FAILURE`.  When none raises and `main` returns, it returns the value of
`CommandLineOptions`: `EXIT_SUCCESS` when the last of the options `-i`, `-t`, `-h` and the
unrecognised ones is `-i` or `-t`, and `-1` when it is `-h` or unrecognised. -/
theorem main_exception_and_return {B : Type} (env : Environment B) (argv0 : String)
    (options : List CommandLineOption) :
    (∀ r, Event.raised r ∈ (main env argv0 options).events → r ≠ Raised.other →
      (main env argv0 options).ending = Ending.returned EXIT_FAILURE ∧
      ∃ before what, (main env argv0 options).events
          = before ++ [Event.raised r, Event.Write env.levels.kError what,
              Event.Write env.levels.kVerbose "Failed!\n"]) ∧
    (∀ error, (main env argv0 options).ending = Ending.returned error →
      (∀ r, Event.raised r ∉ (main env argv0 options).events) →
      error = (CommandLineOptions argv0 options).1.error) ∧
    (∀ (front back : List CommandLineOption) (o : CommandLineOption),
      options = front ++ o :: back →
      (∀ b ∈ back, b = CommandLineOption.d ∨ ∃ a, b = CommandLineOption.v a) →
      ((∃ a, o = CommandLineOption.i a ∨ o = CommandLineOption.t a) →
        (CommandLineOptions argv0 options).1.error = EXIT_SUCCESS) ∧
      (o = CommandLineOption.h ∨ o = CommandLineOption.unrecognised →
        (CommandLineOptions argv0 options).1.error = -1)) := by
  refine ⟨?_, ?_, ?_⟩
  · intro r hr hother
    rcases main_shape env argv0 options with ⟨p, components, ht, hread, htotal⟩ | ⟨hplain, _⟩
    · rw [main_of_total env argv0 options p components ht hread htotal] at hr ⊢
      simp only [List.mem_append] at hr
      have hrun : Event.raised r ∈
          (runSimulation env (CommandLineOptions argv0 options).1 p components).events := by
        rcases hr with hr | hr
        · have := (commandLineEvents_plain _ _ _ hr).1
          cases this
        · exact hr
      obtain ⟨hout, before, hev⟩ := (runSimulation_raised env _ p components).1 r hrun
      have hend : (runSimulation env (CommandLineOptions argv0 options).1 p components).ending
          = (finish env.levels (CommandLineOptions argv0 options).1.error
              (TryOutcome.raised r)).ending := by
        simp only [runSimulation, hout]
      simp only
      rw [hend, hev]
      cases r with
      | other => exact absurd rfl hother
      | ChemistryException what =>
        exact ⟨rfl, commandLineEvents env.levels (CommandLineOptions argv0 options) ++ before,
          what, by simp [finish, EXIT_FAILURE]⟩
      | runtime_error what =>
        exact ⟨rfl, commandLineEvents env.levels (CommandLineOptions argv0 options) ++ before,
          what, by simp [finish, EXIT_FAILURE]⟩
      | logic_error what =>
        exact ⟨rfl, commandLineEvents env.levels (CommandLineOptions argv0 options) ++ before,
          what, by simp [finish, EXIT_FAILURE]⟩
    · have := (hplain _ hr).1
      cases this
  · intro error hend hno
    rcases main_shape env argv0 options with ⟨p, components, ht, hread, htotal⟩ | ⟨_, h | h⟩
    · rw [main_of_total env argv0 options p components ht hread htotal] at hend hno
      simp only at hend hno
      have hno' : ∀ r, Event.raised r ∉
          (runSimulation env (CommandLineOptions argv0 options).1 p components).events :=
        fun r hr => hno r (List.mem_append.mpr (Or.inr hr))
      have hout := (runSimulation_raised env _ p components).2 hno'
      simp only [runSimulation] at hend
      cases hb : (tryBlock env p components).2 with
      | completed =>
        rw [hb] at hend
        simp only [finish, Ending.returned.injEq] at hend
        exact hend.symm
      | raised r => exact absurd hb (hout r)
      | remainder_by_zero =>
        rw [hb] at hend
        simp only [finish] at hend
        cases hend
    · rw [h] at hend; cases hend
    · rw [h] at hend; cases hend
  · intro front back o hopts hback
    subst hopts
    rw [CommandLineOptions_error argv0 front back o hback]
    constructor
    · rintro ⟨a, h | h⟩ <;> rw [h] <;> rfl
    · rintro (h | h) <;> rw [h] <;> rfl

/-- Claim C14, the code at the failing input and on every input.  With the options
`-i in.cfg -h`, an input file that names a database file and two time steps, and a beaker that
never raises, `CommandLineOptions` prints the help text and the run does not stop there,
although the comment of the case reads 'print some help stuff and exit without doing anything':
`main` constructs the beaker, calls `Setup`, `Speciate` and `ReactionStep`, writes `Failed!`
and returns `-1`, where the same run without `-h` returns `EXIT_SUCCESS`.  On every input, an
exception of the three kinds caught is followed by the two messages of the handler only and
`main` returns `EXIT_FAILURE`; when none is raised and `main` returns, it returns the value of
`CommandLineOptions`, which is `EXIT_SUCCESS` when the last of the options `-i`, `-t`, `-h` and
the unrecognised ones is `-i` or `-t`, and `-1` when it is `-h` or unrecognised. -/
theorem main_runs_on_after_help :
    (main sampleEnvironmentDatabase "batch_chem"
        [CommandLineOption.i "in.cfg", CommandLineOption.h]).ending = Ending.returned (-1) ∧
    (-1 : Int) ≠ EXIT_SUCCESS ∧
    (∀ r, Event.raised r ∉ (main sampleEnvironmentDatabase "batch_chem"
        [CommandLineOption.i "in.cfg", CommandLineOption.h]).events) ∧
    (main sampleEnvironmentDatabase "batch_chem"
        [CommandLineOption.i "in.cfg", CommandLineOption.h]).events.take 1
      = [Event.cout "batch_chem command line options:"] ∧
    ((main sampleEnvironmentDatabase "batch_chem"
        [CommandLineOption.i "in.cfg", CommandLineOption.h]).events.filter
          Event.isSolverCall).length = 6 ∧
    Event.NewBeaker ∈ (main sampleEnvironmentDatabase "batch_chem"
        [CommandLineOption.i "in.cfg", CommandLineOption.h]).events ∧
    Event.Write sampleLevels.kVerbose "Failed!\n"
      ∈ (main sampleEnvironmentDatabase "batch_chem"
        [CommandLineOption.i "in.cfg", CommandLineOption.h]).events ∧
    (main sampleEnvironmentDatabase "batch_chem" [CommandLineOption.i "in.cfg"]).ending
      = Ending.returned EXIT_SUCCESS ∧
    (main sampleEnvironmentRaising "batch_chem" [CommandLineOption.i "in.cfg"]).ending
      = Ending.returned EXIT_FAILURE ∧
    (∀ (B : Type) (env : Environment B) (argv0 : String) (options : List CommandLineOption),
      (∀ r, Event.raised r ∈ (main env argv0 options).events → r ≠ Raised.other →
        (main env argv0 options).ending = Ending.returned EXIT_FAILURE ∧
        ∃ before what, (main env argv0 options).events
            = before ++ [Event.raised r, Event.Write env.levels.kError what,
                Event.Write env.levels.kVerbose "Failed!\n"]) ∧
      (∀ error, (main env argv0 options).ending = Ending.returned error →
        (∀ r, Event.raised r ∉ (main env argv0 options).events) →
        error = (CommandLineOptions argv0 options).1.error) ∧
      (∀ (front back : List CommandLineOption) (o : CommandLineOption),
        options = front ++ o :: back →
        (∀ b ∈ back, b = CommandLineOption.d ∨ ∃ a, b = CommandLineOption.v a) →
        ((∃ a, o = CommandLineOption.i a ∨ o = CommandLineOption.t a) →
          (CommandLineOptions argv0 options).1.error = EXIT_SUCCESS) ∧
        (o = CommandLineOption.h ∨ o = CommandLineOption.unrecognised →
          (CommandLineOptions argv0 options).1.error = -1))) := by
  refine ⟨by decide, by decide, ?_, by decide, by decide, by decide, by decide, by decide,
    by decide, fun B env argv0 options => main_exception_and_return env argv0 options⟩
  intro r hr
  have hall : (main sampleEnvironmentDatabase "batch_chem"
      [CommandLineOption.i "in.cfg", CommandLineOption.h]).events.all
        (fun e => !e.isRaised) = true := by decide
  have := noRaise_of_all _ hall _ hr
  cases this

/-! ## `CommandLineOptions` and the file-name message -/

theorem foldl_optionStep_cout (argv0 : String) (options : List CommandLineOption) :
    ∀ cl : CommandLine,
      (options.foldl (optionStep argv0) cl).cout
        = cl.cout ++ (options.filter CommandLineOption.isHelp).flatMap
            (fun _ => helpLines argv0) := by
  induction options with
  | nil => intro cl; simp
  | cons o rest ih =>
    intro cl
    rw [List.foldl_cons, ih]
    cases o <;> simp [optionStep, CommandLineOption.isHelp, List.filter_cons]

/-- What `CommandLineOptions` writes to `std::cout`: one copy of the help text for each `-h` or
unrecognised option, and nothing else. -/
theorem CommandLineOptions_cout (argv0 : String) (options : List CommandLineOption) :
    (CommandLineOptions argv0 options).1.cout
      = (options.filter CommandLineOption.isHelp).flatMap (fun _ => helpLines argv0) := by
  simp [CommandLineOptions, c_str_is_null, foldl_optionStep_cout]

theorem message_not_helpLine (argv0 : String) :
    "An input or template file name must be specified." ∉ helpLines argv0 := by
  intro h
  simp only [helpLines, List.mem_cons, List.mem_singleton] at h
  rcases h with h | h
  · have hd := congrArg String.data h
    rw [String.data_append] at hd
    have hl := congrArg List.getLast? hd
    rw [List.getLast?_append_of_ne_nil _ (by decide)] at hl
    revert hl
    decide
  · revert h
    decide

/-- Claim C21, the code on the failing input and on every input.  With no option at all, and
with the option `-d` alone, `CommandLineOptions` writes nothing to `std::cout`, although neither
file name was given (both are still the empty string); for every command line what it writes is
one copy of the help text for each `-h` or unrecognised option and nothing else, so the line
'An input or template file name must be specified.' is never written. -/
theorem CommandLineOptions_never_asks_for_file :
    (CommandLineOptions "batch_chem" []).1.cout = [] ∧
    (CommandLineOptions "batch_chem" []).1.input_file_name = "" ∧
    (CommandLineOptions "batch_chem" []).1.template_file_name = "" ∧
    (CommandLineOptions "batch_chem" [CommandLineOption.d]).1.cout = [] ∧
    (∀ (argv0 : String) (options : List CommandLineOption),
      (CommandLineOptions argv0 options).1.cout
          = (options.filter CommandLineOption.isHelp).flatMap (fun _ => helpLines argv0) ∧
        "An input or template file name must be specified."
          ∉ (CommandLineOptions argv0 options).1.cout) := by
  refine ⟨rfl, rfl, rfl, rfl, ?_⟩
  intro argv0 options
  refine ⟨CommandLineOptions_cout argv0 options, ?_⟩
  rw [CommandLineOptions_cout]
  intro hmem
  obtain ⟨_, _, h⟩ := List.mem_flatMap.mp hmem
  exact message_not_helpLine argv0 h

/-! ## `Chemistry_PK::Initialize` run twice -/

/-- The field of one name after a call of `InitializeField_`. -/
theorem InitializeField__S_ (self : Chemistry_PK) (fieldname : String) (value : ℚ)
    (other : String) :
    (self.InitializeField_ fieldname value).S_ other
      = if other = fieldname then
          (match self.S_ fieldname with
            | none => none
            | some fld =>
              if fld.initialized = false then some (fld.PutScalar value).set_initialized
              else some fld)
        else self.S_ other := by
  by_cases h : other = fieldname
  · subst h
    rw [if_pos rfl]
    unfold Chemistry_PK.InitializeField_
    cases hf : self.S_ other with
    | none => simp [hf]
    | some fld =>
      by_cases hi : fld.initialized = false
      · simp [hi]
      · simp [hi, hf]
  · rw [if_neg h, InitializeField__other self fieldname other value h]

/-- A call of `InitializeField_` for a field that is absent or initialized changes nothing. -/
theorem InitializeField__id (self : Chemistry_PK) (fieldname : String) (value : ℚ)
    (h : ∀ fld, self.S_ fieldname = some fld → fld.initialized = true) :
    self.InitializeField_ fieldname value = self := by
  unfold Chemistry_PK.InitializeField_
  cases hf : self.S_ fieldname with
  | none => rfl
  | some fld => simp [h fld hf]

/-- A call of `InitializeField_` leaves the counts and flags as they are. -/
theorem InitializeField__handledFields (self : Chemistry_PK) (fieldname : String) (value : ℚ) :
    (self.InitializeField_ fieldname value).handledFields = self.handledFields ∧
    (self.InitializeField_ fieldname value).number_aqueous_components_
      = self.number_aqueous_components_ := by
  unfold Chemistry_PK.InitializeField_
  split
  · exact ⟨rfl, rfl⟩
  · split <;> exact ⟨rfl, rfl⟩

theorem foldl_InitializeField__frame (L : List (String × ℚ)) :
    ∀ self : Chemistry_PK,
      (L.foldl (fun s p => s.InitializeField_ p.1 p.2) self).handledFields = self.handledFields ∧
      (L.foldl (fun s p => s.InitializeField_ p.1 p.2) self).number_aqueous_components_
        = self.number_aqueous_components_ := by
  induction L with
  | nil => intro self; exact ⟨rfl, rfl⟩
  | cons p rest ih =>
    intro self
    rw [List.foldl_cons]
    obtain ⟨h1, h2⟩ := ih (self.InitializeField_ p.1 p.2)
    obtain ⟨h3, h4⟩ := InitializeField__handledFields self p.1 p.2
    exact ⟨h1.trans h3, h2.trans h4⟩

/-- The field of one name after a sequence of calls of `InitializeField_`: a field that is
absent or initialized stays as it is, and one that is not initialized receives the default of
the first call for its name. -/
theorem foldl_InitializeField__S_ (L : List (String × ℚ)) (name : String) :
    ∀ self : Chemistry_PK,
      (L.foldl (fun s p => s.InitializeField_ p.1 p.2) self).S_ name
        = (match self.S_ name with
            | none => none
            | some fld =>
              if fld.initialized = false then
                (match L.find? (fun p => decide (p.1 = name)) with
                  | none => some fld
                  | some p => some (fld.PutScalar p.2).set_initialized)
              else some fld) := by
  induction L with
  | nil =>
    intro self
    cases hf : self.S_ name with
    | none => simp [hf]
    | some fld => simp [hf]
  | cons p rest ih =>
    intro self
    rw [List.foldl_cons, ih, InitializeField__S_]
    by_cases hp : name = p.1
    · subst hp
      cases hf : self.S_ p.1 with
      | none => simp
      | some fld =>
        by_cases hi : fld.initialized = false
        · simp [hi, Field.set_initialized]
        · simp [hi]
    · have hp2 : ¬ p.1 = name := fun h => hp h.symm
      rw [if_neg hp, List.find?_cons_of_neg _ (by simpa using hp2)]

/-- In a list with pairwise distinct names, the first entry for the name of a member is that
member. -/
theorem find?_name_of_mem (L : List (String × ℚ)) (hn : (L.map Prod.fst).Nodup)
    (name : String) (value : ℚ) (hm : (name, value) ∈ L) :
    L.find? (fun p => decide (p.1 = name)) = some (name, value) := by
  induction L with
  | nil => cases hm
  | cons p rest ih =>
    rw [List.map_cons, List.nodup_cons] at hn
    rcases List.mem_cons.mp hm with h | h
    · subst h
      simp
    · have hne : ¬ p.1 = name := by
        intro he
        apply hn.1
        rw [he]
        exact List.mem_map.mpr ⟨(name, value), h, rfl⟩
      rw [List.find?_cons_of_neg _ (by simpa using hne)]
      exact ih hn.2 h

theorem find?_name_isSome (L : List (String × ℚ)) (name : String)
    (hm : name ∈ L.map Prod.fst) :
    ∃ p, L.find? (fun p => decide (p.1 = name)) = some p := by
  obtain ⟨q, hq, hqn⟩ := List.mem_map.mp hm
  cases hf : L.find? (fun p => decide (p.1 = name)) with
  | some p => exact ⟨p, rfl⟩
  | none =>
    have := List.find?_eq_none.mp hf q hq
    simp [hqn] at this

theorem find?_name_none (L : List (String × ℚ)) (name : String)
    (hm : name ∉ L.map Prod.fst) :
    L.find? (fun p => decide (p.1 = name)) = none := by
  rw [List.find?_eq_none]
  intro q hq
  simp only [decide_eq_true_eq]
  intro hqn
  exact hm (List.mem_map.mpr ⟨q, hq, hqn⟩)

/-- The names of the fields `Initialize` handles are pairwise distinct. -/
theorem handledFields_nodup (self : Chemistry_PK) :
    (self.handledFields.map Prod.fst).Nodup := by
  unfold Chemistry_PK.handledFields
  split_ifs <;> decide

/-- The member `Initialize` in closed form: it fails when there are aqueous components and
`State` has no field `total_component_concentration`, and otherwise makes the calls of
`handledFields` in order. -/
theorem Initialize_eq (self : Chemistry_PK) :
    self.Initialize
      = if self.number_aqueous_components_ > 0
            ∧ self.S_ "total_component_concentration" = none then
          Except.error (StateFault.no_field "total_component_concentration")
        else
          Except.ok (self.handledFields.foldl (fun s p => s.InitializeField_ p.1 p.2) self) := by
  have hfl := InitializeField__flags
  unfold Chemistry_PK.Initialize Chemistry_PK.aqueousSpecies Chemistry_PK.handledFields
  by_cases haq : self.number_aqueous_components_ > 0
  · cases hf : self.S_ "total_component_concentration" with
    | none => simp [haq, hf]
    | some fld =>
      have htcc : (if fld.initialized = false
          then self.InitializeField_ "total_component_concentration" 0 else self)
          = self.InitializeField_ "total_component_concentration" 0 := by
        by_cases hi : fld.initialized = false
        · rw [if_pos hi]
        · rw [if_neg hi]
          exact (InitializeField__id self _ _ (fun fld2 h2 => by
            rw [hf] at h2
            cases h2
            simpa using hi)).symm
      simp only [haq, hf, htcc, if_true]
      by_cases h1 : self.using_sorption_ = true <;>
      by_cases h2 : self.using_sorption_isotherms_ = true <;>
      by_cases h3 : self.number_minerals_ > 0 <;>
      by_cases h4 : self.number_ion_exchange_sites_ > 0 <;>
      by_cases h5 : self.number_sorption_sites_ > 0 <;>
      simp [hfl, h1, h2, h3, h4, h5]
  · by_cases h3 : self.number_minerals_ > 0 <;>
    by_cases h4 : self.number_ion_exchange_sites_ > 0 <;>
    by_cases h5 : self.number_sorption_sites_ > 0 <;>
    simp [hfl, haq, h3, h4, h5]

/-- A sequence of calls of `InitializeField_` for fields that are absent or initialized changes
nothing. -/
theorem foldl_InitializeField__id (L : List (String × ℚ)) (self : Chemistry_PK)
    (h : ∀ p ∈ L, ∀ fld, self.S_ p.1 = some fld → fld.initialized = true) :
    L.foldl (fun s p => s.InitializeField_ p.1 p.2) self = self := by
  induction L with
  | nil => rfl
  | cons p rest ih =>
    rw [List.foldl_cons, InitializeField__id self p.1 p.2 (h p (List.mem_cons_self _ _))]
    exact ih (fun q hq => h q (List.mem_cons_of_mem _ hq))

/-- Claim C22.  `Initialize` returns unless there are aqueous components and `State` has no
field `total_component_concentration`.  When it returns: every field that was initialized is
unchanged; every field it handles that was registered and not initialized holds its default in
every entry and is marked initialized; the fields it does not handle are unchanged; and
`Initialize` on the result returns the result itself, so that a second run changes nothing. -/
theorem Initialize_idempotent (self : Chemistry_PK) :
    ((self.number_aqueous_components_ > 0 →
        self.S_ "total_component_concentration" ≠ none) →
      ∃ s1, self.Initialize = Except.ok s1) ∧
    (∀ s1, self.Initialize = Except.ok s1 →
      (∀ (name : String) (fld : Field), self.S_ name = some fld → fld.initialized = true →
        s1.S_ name = some fld) ∧
      (∀ (name : String) (default_val : ℚ) (fld : Field),
        (name, default_val) ∈ self.handledFields → self.S_ name = some fld →
        fld.initialized = false →
        s1.S_ name = some (fld.PutScalar default_val).set_initialized) ∧
      (∀ name : String, name ∉ self.handledFields.map Prod.fst → s1.S_ name = self.S_ name) ∧
      s1.Initialize = Except.ok s1) := by
  constructor
  · intro h
    rw [Initialize_eq, if_neg (fun hc => h hc.1 hc.2)]
    exact ⟨_, rfl⟩
  · intro s1 hs1
    rw [Initialize_eq] at hs1
    by_cases hc : self.number_aqueous_components_ > 0
        ∧ self.S_ "total_component_concentration" = none
    · rw [if_pos hc] at hs1
      cases hs1
    · rw [if_neg hc] at hs1
      have hs : s1 = self.handledFields.foldl (fun s p => s.InitializeField_ p.1 p.2) self :=
        (Except.ok.inj hs1).symm
      have hS := fun name => foldl_InitializeField__S_ self.handledFields name self
      rw [← hs] at hS
      obtain ⟨hframe, haq⟩ := foldl_InitializeField__frame self.handledFields self
      rw [← hs] at hframe haq
      refine ⟨?_, ?_, ?_, ?_⟩
      · intro name fld hf hi
        rw [hS name, hf]
        simp [hi]
      · intro name default_val fld hm hf hi
        rw [hS name, hf,
          find?_name_of_mem _ (handledFields_nodup self) name default_val hm]
        simp [hi]
      · intro name hn
        rw [hS name, find?_name_none _ name hn]
        cases hf : self.S_ name with
        | none => rfl
        | some fld => simp
      · rw [Initialize_eq, hframe, haq]
        have hc1 : ¬ (self.number_aqueous_components_ > 0
            ∧ s1.S_ "total_component_concentration" = none) := by
          rintro ⟨h1, h2⟩
          apply hc
          refine ⟨h1, ?_⟩
          rw [hS] at h2
          cases hf : self.S_ "total_component_concentration" with
          | none => rfl
          | some fld =>
            rw [hf] at h2
            by_cases hi : fld.initialized = false
            · simp only [hi, if_true] at h2
              split at h2 <;> cases h2
            · simp [hi] at h2
        rw [if_neg hc1]
        congr 1
        apply foldl_InitializeField__id
        intro p hp fld hf
        rw [hS] at hf
        cases hf0 : self.S_ p.1 with
        | none => rw [hf0] at hf; cases hf
        | some fld0 =>
          rw [hf0] at hf
          by_cases hi : fld0.initialized = false
          · obtain ⟨q, hq⟩ := find?_name_isSome self.handledFields p.1
              (List.mem_map.mpr ⟨p, hp, rfl⟩)
            simp only [hi, if_true, hq] at hf
            cases hf
            rfl
          · simp only [hi, if_false] at hf
            cases hf
            simpa using hi

/-- Claim C22 on `sampleChemistry`: the initialized total concentrations keep their data, the
free-ion concentrations receive their default, the result is a fixed point of `Initialize`, and
without the field `total_component_concentration` the call fails. -/
theorem Initialize_idempotent_witness :
    Chemistry_PK.Initialize { sampleChemistry with S_ := fun _ => none }
      = Except.error (StateFault.no_field "total_component_concentration") ∧
    ∃ s1, sampleChemistry.Initialize = Except.ok s1 ∧
      s1.S_ "total_component_concentration" = some ⟨[[1, 2], [3, 4]], true⟩ ∧
      s1.S_ "free_ion_species" = some ⟨[[0, 0], [0, 0]], true⟩ ∧
      s1.S_ "mineral_volume_fractions" = none ∧
      s1.Initialize = Except.ok s1 := by
  have hthm := Initialize_idempotent sampleChemistry
  obtain ⟨s1, hs1⟩ := hthm.1 (fun _ => by simp [sampleChemistry, sampleState])
  obtain ⟨h1, h2, h3, h4⟩ := hthm.2 s1 hs1
  refine ⟨rfl, s1, hs1, ?_, ?_, ?_, h4⟩
  · exact h1 "total_component_concentration" ⟨[[1, 2], [3, 4]], true⟩
      (by simp [sampleChemistry, sampleState]) rfl
  · exact h2 "free_ion_species" 0 ⟨[[7, 7], [7, 7]], false⟩
      (by simp [Chemistry_PK.handledFields, sampleChemistry])
      (by simp [sampleChemistry, sampleState]) rfl
  · rw [h3 "mineral_volume_fractions" (by simp [Chemistry_PK.handledFields, sampleChemistry])]
    simp [sampleChemistry, sampleState]

/-! ## The order of `out_ids` -/

/-- The identifiers pushed are the concatenation, over the names in order, of the identifiers of
the matching pool species in pool order. -/
theorem idsOf_eq_flatMap (species : SpeciesArray) (names : List SpeciesName) :
    idsOf species names
      = names.flatMap (fun nm =>
          (species.filter (fun s => decide (nm = s.name))).map Species.identifier) := by
  induction names with
  | nil => rfl
  | cons nm rest ih => rw [idsOf, ih, List.flatMap_cons]; rfl

/-- Every occurrence of the name of a pool species pushes the identifier of that species. -/
theorem count_le_count_idsOf (species : SpeciesArray) (names : List SpeciesName) (s : Species)
    (hs : s ∈ species) :
    names.count s.name ≤ (idsOf species names).count s.identifier := by
  induction names with
  | nil => simp [idsOf]
  | cons nm rest ih =>
    rw [idsOf, List.count_append, List.count_cons]
    by_cases h : nm = s.name
    · have hmem : s.identifier ∈ (matched species nm).map Species.identifier :=
        List.mem_map.mpr ⟨s, mem_matched.mpr ⟨hs, h⟩, rfl⟩
      have hpos : 0 < ((matched species nm).map Species.identifier).count s.identifier :=
        List.count_pos_iff.mpr hmem
      simp only [h, beq_self_eq_true, if_true]
      rw [h] at hpos
      omega
    · have hne : (nm == s.name) = false := by simpa using h
      simp only [hne]
      simp only [Bool.false_eq_true, if_false]
      omega

/-- An index holds the value of the assignments that address it after the last assignment
addressing it with another value. -/
theorem foldl_applyWrite_last {D : Type} (W1 W2 : List (Int × Option D)) (i : Nat) (c : D)
    (v : List D) (hf : ∀ w ∈ W1 ++ W2, writeFault v.length w = none)
    (hex : ∃ w ∈ W2, w.1 = (i : Int)) (hall : ∀ w ∈ W2, w.1 = (i : Int) → w.2 = some c) :
    ((W1 ++ W2).foldl applyWrite v)[i]? = some c := by
  rw [List.foldl_append]
  apply foldl_applyWrite_written W2 i c _ _ hex hall
  intro w hw
  rw [foldl_applyWrite_length]
  exact hf w (List.mem_append_right _ hw)

/-- The slot of a pool species holds the coefficient declared at the last position whose name is
the name of a pool species with the same identifier. -/
theorem writesFrom_last_write {D : Type} (species : SpeciesArray) (st : List D)
    (names : List SpeciesName) (v : List D)
    (hf : ∀ w ∈ writesFrom species st names 0, writeFault v.length w = none)
    (s : Species) (hs : s ∈ species) (k : Nat) (hk : names[k]? = some s.name)
    (hlast : ∀ j, k < j → ∀ s2 ∈ species, s2.identifier = s.identifier →
      names[j]? ≠ some s2.name) :
    0 ≤ s.identifier ∧ ∃ c, st[k]? = some c ∧
      ((writesFrom species st names 0).foldl applyWrite v)[s.identifier.toNat]? = some c := by
  have hmem : (s.identifier, st[0 + k]?) ∈ writesFrom species st names 0 :=
    (mem_writesFrom species st names 0 _).mpr ⟨k, s, hk, hs, rfl⟩
  obtain ⟨⟨c, hc⟩, h0, _⟩ := writeFault_eq_none.mp (hf _ hmem)
  simp only [Nat.zero_add] at hc
  refine ⟨h0, c, hc, ?_⟩
  have hcast : ((s.identifier.toNat : Nat) : Int) = s.identifier := Int.toNat_of_nonneg h0
  have hkl : k < names.length := getElem?_some_lt hk
  have hsplit : writesFrom species st names 0
      = writesFrom species st (names.take k) 0 ++ writesFrom species st (names.drop k) k := by
    conv_lhs => rw [← List.take_append_drop k names]
    rw [writesFrom_append]
    simp [List.length_take, Nat.min_eq_left (Nat.le_of_lt hkl)]
  rw [hsplit] at hf ⊢
  apply foldl_applyWrite_last _ _ _ c v hf
  · refine ⟨(s.identifier, st[k + 0]?), ?_, hcast.symm⟩
    exact (mem_writesFrom species st (names.drop k) k _).mpr
      ⟨0, s, by simpa using hk, hs, rfl⟩
  · intro w hw hwi
    obtain ⟨j, s2, hj, hs2, rfl⟩ := (mem_writesFrom species st (names.drop k) k w).mp hw
    have hid : s2.identifier = s.identifier := by
      show s2.identifier = s.identifier
      rw [← hcast]; exact hwi
    have hj2 : names[k + j]? = some s2.name := by simpa using hj
    have hj0 : j = 0 := by
      by_contra hne
      exact hlast (k + j) (by omega) s2 hs2 hid hj2
    subst hj0
    simpa using hc

/-- Claim C23 (as amended).  Whenever `SetSpeciesIds` returns, `out_ids` is the concatenation, over the
positions of `in_names` in order, of the identifiers of the pool species, in pool order, whose
name equals the name at that position; the identifier of a pool species occurs in `out_ids` at
least as often as its name occurs in `in_names`; and the slot of `out_stoichiometry` at the
identifier of a pool species holds the coefficient declared at the last position whose name is
the name of a pool species with that identifier, which for pairwise distinct pool identifiers is
the last occurrence of the name of the species.  The call does return when every name has a
coefficient at its position and every pool identifier lies inside the pool-sized vector. -/
theorem SetSpeciesIds_declaration_order {D : Type} [Zero D] (self : KineticRate D)
    (species : SpeciesArray) (species_type : String) (in_names : List SpeciesName)
    (in_stoichiometry : List D) (out_ids : List Int) (out_stoichiometry : Option (List D)) :
    (∀ r, self.SetSpeciesIds species species_type in_names in_stoichiometry out_ids
          out_stoichiometry = Except.ok r →
        r.out_ids = in_names.flatMap (fun nm =>
            (species.filter (fun s => decide (nm = s.name))).map Species.identifier) ∧
        (∀ s ∈ species, in_names.count s.name ≤ r.out_ids.count s.identifier) ∧
        (out_stoichiometry ≠ none →
          ∃ v, r.out_stoichiometry = some v ∧
            (∀ (s : Species) (k : Nat), s ∈ species → in_names[k]? = some s.name →
              (∀ j, k < j → ∀ s2 ∈ species, s2.identifier = s.identifier →
                in_names[j]? ≠ some s2.name) →
              0 ≤ s.identifier ∧ ∃ c, in_stoichiometry[k]? = some c ∧
                v[s.identifier.toNat]? = some c) ∧
            ((species.map Species.identifier).Nodup →
              ∀ (s : Species) (k : Nat), s ∈ species → in_names[k]? = some s.name →
                (∀ j, k < j → in_names[j]? ≠ some s.name) →
                0 ≤ s.identifier ∧ ∃ c, in_stoichiometry[k]? = some c ∧
                  v[s.identifier.toNat]? = some c))) ∧
    ((in_names.length ≤ in_stoichiometry.length ∧
        ∀ s ∈ species, 0 ≤ s.identifier ∧ s.identifier < (species.length : Int)) →
      ∃ r, self.SetSpeciesIds species species_type in_names in_stoichiometry out_ids
          out_stoichiometry = Except.ok r) := by
  constructor
  · intro r hr
    have hids := SetSpeciesIds_out_ids self species species_type in_names in_stoichiometry
      out_ids out_stoichiometry r hr
    refine ⟨hids.trans (idsOf_eq_flatMap species in_names), ?_, ?_⟩
    · intro s hs
      rw [hids]
      exact count_le_count_idsOf species in_names s hs
    · intro hsome
      cases out_stoichiometry with
      | none => exact absurd rfl hsome
      | some v0 =>
        obtain ⟨hall, hst⟩ := SetSpeciesIds_out_stoichiometry self species species_type
          in_names in_stoichiometry out_ids v0 r hr
        refine ⟨_, hst, ?_, ?_⟩
        · intro s k hs hk hlast
          exact writesFrom_last_write species in_stoichiometry in_names _ hall s hs k hk hlast
        · intro hnodup s k hs hk hlast
          apply writesFrom_last_write species in_stoichiometry in_names _ hall s hs k hk
          intro j hj s2 hs2 hid
          have hss : s2 = s := List.inj_on_of_nodup_map hnodup hs2 hs hid
          rw [hss]
          exact hlast j hj
  · rintro ⟨hlen, hin⟩
    apply SetSpeciesIds_returns
    right
    intro k s hs hk
    have hkl : k < in_names.length := getElem?_some_lt hk
    exact ⟨by omega, hin s hs⟩

/-- Claim C23, witness on `samplePool` and `sampleRepeatedRate`: `H+` is declared at the
positions 0 and 2, its identifier 2 is pushed twice, in declaration order around the identifier
0 of `Ca++`, and the slot 2 holds the coefficient 5 of the last declaration. -/
theorem SetSpeciesIds_declaration_order_witness :
    ∃ r v, sampleRepeatedRate.SetSpeciesIds samplePool "primary"
        sampleRepeatedRate.reactant_names sampleRepeatedRate.reactant_stoichiometry [7]
        (some [3]) = Except.ok r ∧
      r.out_ids = [2, 0, 2] ∧ r.out_stoichiometry = some v ∧ v = [1, 0, 5] ∧
      (2 : Nat) ≤ r.out_ids.count 2 ∧
      ∃ c, sampleRepeatedRate.reactant_stoichiometry[2]? = some c ∧ v[2]? = some c := by
  have hthm := (SetSpeciesIds_declaration_order sampleRepeatedRate samplePool "primary"
    sampleRepeatedRate.reactant_names sampleRepeatedRate.reactant_stoichiometry [7]
    (some [3])).1 _ rfl
  obtain ⟨v, hv, _, hat⟩ := hthm.2.2 (by simp)
  have hv' : v = [1, 0, 5] := Option.some.inj (hv.symm.trans rfl)
  exact ⟨_, v, rfl, hthm.1.trans (by decide), hv, hv',
    hthm.2.1 ⟨2, "H+"⟩ (by decide),
    (hat (by decide) ⟨2, "H+"⟩ 2 (by decide) rfl (by
      intro j hj
      have hnone : sampleRepeatedRate.reactant_names[j]? = none :=
        List.getElem?_eq_none (by
          have : sampleRepeatedRate.reactant_names.length = 3 := rfl
          omega)
      rw [hnone]
      exact fun h => Option.noConfusion h)).2⟩

/-- Claim C23, counterexample to the statement as written: in the pool of the species `A` and
`B`, which share the identifier 0, with the names `A`, `A`, `B` and the coefficients 1, 5, 2,
the call returns, the last occurrence of `A` is at position 1 with the coefficient 5, and the
slot 0 of `out_stoichiometry`, the slot of `A`, holds 2, the coefficient of `B`. -/
theorem last_occurrence_shared_identifier_counterexample :
    ∃ r, (KineticRate.construct : KineticRate Int).SetSpeciesIds [⟨0, "A"⟩, ⟨0, "B"⟩]
        "primary" ["A", "A", "B"] [1, 5, 2] [] (some []) = Except.ok r ∧
      r.out_ids = [0, 0, 0] ∧ r.out_stoichiometry = some [2, 0] ∧
      (["A", "A", "B"] : List SpeciesName)[1]? = some "A" ∧
      (∀ j, 1 < j → (["A", "A", "B"] : List SpeciesName)[j]? ≠ some "A") ∧
      ([1, 5, 2] : List Int)[1]? = some 5 ∧
      ([2, 0] : List Int)[(0 : Int).toNat]? = some 2 ∧ (2 : Int) ≠ 5 := by
  refine ⟨_, rfl, rfl, rfl, rfl, ?_, rfl, rfl, by decide⟩
  intro j hj
  match j, hj with
  | 2, _ => decide
  | (j + 3), _ => simp

/-! ## `TabularFunction::operator()` outside the table -/

theorem readAt_natCast {α : Type} (a : List α) (k : Nat) (v : α) (h : a[k]? = some v) :
    readAt a (k : Int) = Except.ok v := by
  simp [readAt, elemAt, h]

theorem readAt_zero {α : Type} (a : List α) (v : α) (h : a[0]? = some v) :
    readAt a 0 = Except.ok v := by
  simp [readAt, elemAt, h]

theorem readAt_last {α : Type} (a : List α) (n : Nat) (v : α) (hn : 1 ≤ n)
    (h : a[n - 1]? = some v) : readAt a ((n : Int) - 1) = Except.ok v := by
  have : ((n : Int) - 1) = ((n - 1 : Nat) : Int) := by omega
  rw [this]
  exact readAt_natCast a _ v h

/-- The first test of `operator()`: an argument with `t <= x_[0]` gives `y_[0]`. -/
theorem call_low (self : TabularFunction) (t x0 y0 : Double)
    (hx0 : self.x_[0]? = some x0) (hy0 : self.y_[0]? = some y0) (ht : t ≤ x0) :
    self.call t = Except.ok y0 := by
  simp only [TabularFunction.call, readAt_zero self.x_ _ hx0, if_pos ht,
    readAt_zero self.y_ _ hy0]

/-- The second test of `operator()`, which is reached when the first one is false: an argument
with `t >= x_[n-1]` gives `y_[n-1]`. -/
theorem call_high (self : TabularFunction) (t x0 xn yn : Double)
    (hn : 1 ≤ self.x_.length) (hsize : self.x_.length < 2147483648)
    (hx0 : self.x_[0]? = some x0) (hxn : self.x_[self.x_.length - 1]? = some xn)
    (hyn : self.y_[self.x_.length - 1]? = some yn) (h0 : ¬ t ≤ x0) (ht : t ≥ xn) :
    self.call t = Except.ok yn := by
  have hin : inInt ((self.x_.length : Int) - 1) := by unfold inInt; omega
  simp only [TabularFunction.call, readAt_zero self.x_ _ hx0, if_neg h0,
    int_of_size_eq _ hsize, if_neg (not_not.mpr hin), readAt_last self.x_ _ _ hn hxn,
    if_pos ht, readAt_last self.y_ _ _ hn hyn]

/-- What the constructor guarantees of a table it returns: at least one point, as many values as
abscissae, and no adjacent pair of abscissae for which the test `x[j] <= x[j-1]` is true. -/
theorem construct_invariants (x y : List Double) (form : List String) (self : TabularFunction)
    (h : TabularFunction.construct x y form = Except.ok self) :
    1 ≤ self.x_.length ∧ self.y_.length = self.x_.length ∧
      self.x_.Chain' (fun a b => ¬ b ≤ a) := by
  rw [construct_eq] at h
  split_ifs at h with h1 h2 h3
  cases h
  simp only [ne_eq, not_not] at h1 h2 h3
  refine ⟨?_, h1.symm, h2⟩
  show 1 ≤ x.length
  omega

/-- Abscissae without NaN that pass the constructor's loop are strictly increasing. -/
theorem pairwise_lt_of_chain' (qs : List ℚ)
    (h : (qs.map Double.finite).Chain' (fun a b => ¬ b ≤ a)) : qs.Pairwise (· < ·) := by
  rw [List.chain'_map] at h
  apply List.chain'_iff_pairwise.mp
  exact h.imp (fun _ _ hab => not_le.mp (fun hle => hab ((Double.finite_le_finite _ _).mpr hle)))

/-- Claim C24 (as amended).  Every table the constructor returns has `n >= 1` points; when
`n < 2^31`, `operator()` returns `y_[0]` for every argument `t <= x_[0]`, and `y_[n-1]` for
every argument `t >= x_[n-1]` for which `t <= x_[0]` is false, whatever the array `form_` holds
(it is not read).  When no abscissa is NaN, it returns `y_[n-1]` for every `t >= x_[n-1]`, and
in particular `y_[0]` at `x_[0]` and `y_[n-1]` at `x_[n-1]`. -/
theorem TabularFunction_call_clamps (x y : List Double) (form : List String)
    (self : TabularFunction) (hc : TabularFunction.construct x y form = Except.ok self)
    (hsize : self.x_.length < 2147483648) :
    1 ≤ self.x_.length ∧
    ∃ x0 xn y0 yn : Double,
      self.x_[0]? = some x0 ∧ self.x_[self.x_.length - 1]? = some xn ∧
      self.y_[0]? = some y0 ∧ self.y_[self.x_.length - 1]? = some yn ∧
      (∀ (t : Double) (form_ : List Form), t ≤ x0 →
        TabularFunction.call { self with form_ := form_ } t = Except.ok y0) ∧
      (∀ (t : Double) (form_ : List Form), t ≥ xn → ¬ t ≤ x0 →
        TabularFunction.call { self with form_ := form_ } t = Except.ok yn) ∧
      ((∀ d ∈ self.x_, d ≠ Double.nan) →
        (∀ (t : Double) (form_ : List Form), t ≥ xn →
          TabularFunction.call { self with form_ := form_ } t = Except.ok yn) ∧
        self.call x0 = Except.ok y0 ∧ self.call xn = Except.ok yn) := by
  obtain ⟨hn, hy, hinc⟩ := construct_invariants x y form self hc
  obtain ⟨x_, y_, form0⟩ := self
  simp only at hn hy hinc hsize ⊢
  have hx0 : x_[0]? = some (x_[0]) := List.getElem?_eq_getElem (by omega)
  have hxn : x_[x_.length - 1]? = some (x_[x_.length - 1]) :=
    List.getElem?_eq_getElem (by omega)
  have hy0 : y_[0]? = some (y_[0]) := List.getElem?_eq_getElem (by omega)
  have hyn : y_[x_.length - 1]? = some (y_[x_.length - 1]) :=
    List.getElem?_eq_getElem (by omega)
  have low : ∀ (t : Double) (form_ : List Form), t ≤ x_[0] →
      TabularFunction.call { x_ := x_, y_ := y_, form_ := form_ } t = Except.ok (y_[0]) :=
    fun t form_ ht => call_low { x_ := x_, y_ := y_, form_ := form_ } t _ _ hx0 hy0 ht
  have high : ∀ (t : Double) (form_ : List Form), t ≥ x_[x_.length - 1] → ¬ t ≤ x_[0] →
      TabularFunction.call { x_ := x_, y_ := y_, form_ := form_ } t
        = Except.ok (y_[x_.length - 1]) :=
    fun t form_ ht h0 =>
      call_high { x_ := x_, y_ := y_, form_ := form_ } t _ _ _ hn hsize hx0 hxn hyn h0 ht
  refine ⟨hn, _, _, _, _, hx0, hxn, hy0, hyn, low, high, ?_⟩
  intro hfin
  have hmap := Double.map_finite_toRat x_ hfin
  have hpair : (x_.map Double.toRat).Pairwise (· < ·) := by
    apply pairwise_lt_of_chain'
    rw [← hmap]
    exact hinc
  have hpairx : x_.Pairwise (fun a b => a.toRat < b.toRat) := List.pairwise_map.mp hpair
  have hval : ∀ d ∈ x_, ∃ p, d = Double.finite p := by
    intro d hd
    cases d with
    | nan => exact absurd rfl (hfin _ hd)
    | finite p => exact ⟨p, rfl⟩
  obtain ⟨p0, hp0⟩ := hval _ (List.getElem_mem (by omega : 0 < x_.length))
  obtain ⟨pn, hpn⟩ := hval _ (List.getElem_mem (by omega : x_.length - 1 < x_.length))
  have hlt : 0 < x_.length - 1 → p0 < pn := by
    intro h
    have := List.pairwise_iff_getElem.mp hpairx 0 (x_.length - 1) (by omega) (by omega) h
    rw [hp0, hpn] at this
    exact this
  have highAll : ∀ (t : Double) (form_ : List Form), t ≥ x_[x_.length - 1] →
      TabularFunction.call { x_ := x_, y_ := y_, form_ := form_ } t
        = Except.ok (y_[x_.length - 1]) := by
    intro t form_ ht
    by_cases h0 : t ≤ x_[0]
    · rw [low t form_ h0]
      rcases Nat.eq_or_lt_of_le (Nat.zero_le (x_.length - 1)) with h | h
      · simp only [← h]
      · exfalso
        have hlt' := hlt h
        rw [hpn] at ht
        rw [hp0] at h0
        obtain ⟨p, q, hp, hq, hpq⟩ := Double.finite_of_le ht
        obtain ⟨p', q', hp', hq', hpq'⟩ := Double.finite_of_le h0
        rw [hq] at hp'
        cases hp'
        cases hq'
        cases hp
        linarith
    · exact high t form_ ht h0
  have hrefl0 : x_[0] ≤ x_[0] := by
    rw [hp0, Double.finite_le_finite]
  have hrefln : x_[x_.length - 1] ≥ x_[x_.length - 1] := by
    show x_[x_.length - 1] ≤ x_[x_.length - 1]
    rw [hpn, Double.finite_le_finite]
  exact ⟨highAll, low _ form0 hrefl0, highAll _ form0 hrefln⟩

/-- Claim C24, counterexample to the statement as written: the constructor returns the table
of the abscissae 3, NaN, 1 and the values 10, 20, 30, no test `x[j] <= x[j-1]` being true; the
argument 2 is not below the last abscissa 1, and `operator()(2)` returns `y_[0] = 10`, not
`y_[2] = 30`, because `2 <= x_[0] = 3`. -/
theorem call_clamps_nan_counterexample :
    ∃ self, TabularFunction.construct [3, Double.nan, 1] [10, 20, 30] ["LINEAR", "LINEAR"]
        = Except.ok self ∧
      self.x_[self.x_.length - 1]? = some 1 ∧ self.y_[self.x_.length - 1]? = some 30 ∧
      (2 : Double) ≥ 1 ∧
      self.call 2 = Except.ok 10 ∧ (10 : Double) ≠ 30 := by
  refine ⟨_, rfl, rfl, rfl, by simp, ?_, by decide⟩
  simp [TabularFunction.call, readAt, elemAt]
  norm_num

/-- Claim C24 on the table constructed from the points (0, 0), (1, 1), (3, 5): below and at the
first node the value is `y_[0] = 0`, at and above the last node it is `y_[2] = 5`; the same holds
on `sampleTable`, which has these points and the forms of the two intervals. -/
theorem TabularFunction_call_clamps_witness :
    ∃ self, TabularFunction.construct [0, 1, 3] [0, 1, 5] ["LINEAR", "CONSTANT"]
        = Except.ok self ∧
      self.x_.length < 2147483648 ∧
      self.call (-1) = Except.ok 0 ∧ self.call 0 = Except.ok 0 ∧
      self.call 3 = Except.ok 5 ∧ self.call 7 = Except.ok 5 ∧
      sampleTable.call (-1) = Except.ok 0 ∧ sampleTable.call 7 = Except.ok 5 ∧
      1 ≤ self.x_.length ∧
      ∃ x0 xn y0 yn : Double,
        self.x_[0]? = some x0 ∧ self.x_[self.x_.length - 1]? = some xn ∧
        self.y_[0]? = some y0 ∧ self.y_[self.x_.length - 1]? = some yn ∧
        (∀ (t : Double) (form_ : List Form), t ≤ x0 →
          TabularFunction.call { self with form_ := form_ } t = Except.ok y0) ∧
        (∀ (t : Double) (form_ : List Form), t ≥ xn → ¬ t ≤ x0 →
          TabularFunction.call { self with form_ := form_ } t = Except.ok yn) ∧
        ((∀ d ∈ self.x_, d ≠ Double.nan) →
          (∀ (t : Double) (form_ : List Form), t ≥ xn →
            TabularFunction.call { self with form_ := form_ } t = Except.ok yn) ∧
          self.call x0 = Except.ok y0 ∧ self.call xn = Except.ok yn) := by
  refine ⟨_, rfl, by decide, ?_, ?_, ?_, ?_, ?_, ?_,
    TabularFunction_call_clamps [0, 1, 3] [0, 1, 5] ["LINEAR", "CONSTANT"] _ rfl
      (by decide)⟩ <;>
  · simp [TabularFunction.call, readAt, elemAt, sampleTable, inInt, int_of_size] <;> norm_num

/-! ## `dam_break_1D_exact` -/

theorem sampleSqrt_zero : sampleSqrt 0 = 0 := by
  simp [sampleSqrt]

theorem sampleSqrt_nonneg (a : ℚ) : 0 ≤ sampleSqrt a := by
  unfold sampleSqrt
  positivity

theorem dam_break_sqrt_nonneg (sqrt : ℚ → ℚ) (hsqrt : ∀ a, 0 ≤ a → 0 ≤ sqrt a) (hL : ℚ)
    (hhL : 0 ≤ hL) : 0 ≤ sqrt (dam_break_g * hL) :=
  hsqrt _ (mul_nonneg (by norm_num [dam_break_g]) hhL)

/-- The rarefaction branch needs `xA < xB`, which forces `t > 0` and `hL > 0`. -/
theorem dam_break_rarefaction (sqrt : ℚ → ℚ) (hsqrt0 : sqrt 0 = 0)
    (hsqrt : ∀ a, 0 ≤ a → 0 ≤ sqrt a) (hL x0 t x : ℚ) (hhL : 0 ≤ hL)
    (hb : dam_break_1D_branch sqrt hL x0 t x = DamBreakBranch.rarefaction) :
    0 < t ∧ 0 < hL := by
  have hs := dam_break_sqrt_nonneg sqrt hsqrt hL hhL
  unfold dam_break_1D_branch at hb
  simp only at hb
  split_ifs at hb with h1 h2
  obtain ⟨ha, hb'⟩ := h2
  have hts : 0 < t * sqrt (dam_break_g * hL) := by linarith
  have ht : 0 < t := by
    by_contra hneg
    have : t * sqrt (dam_break_g * hL) ≤ 0 :=
      mul_nonpos_of_nonpos_of_nonneg (not_lt.mp hneg) hs
    linarith
  refine ⟨ht, ?_⟩
  rcases eq_or_lt_of_le hhL with h0 | h0
  · rw [← h0, mul_zero, hsqrt0, mul_zero] at hts
    exact absurd hts (lt_irrefl _)
  · exact h0

theorem dam_break_returns (sqrt : ℚ → ℚ) (hsqrt0 : sqrt 0 = 0)
    (hsqrt : ∀ a, 0 ≤ a → 0 ≤ sqrt a) (hL x0 t x : ℚ) (hhL : 0 ≤ hL) :
    ∃ h u, dam_break_1D_exact sqrt hL x0 t x = Except.ok (h, u) := by
  unfold dam_break_1D_exact
  cases hb : dam_break_1D_branch sqrt hL x0 t x with
  | reservoir => exact ⟨_, _, rfl⟩
  | dry => exact ⟨_, _, rfl⟩
  | rarefaction =>
    obtain ⟨ht, _⟩ := dam_break_rarefaction sqrt hsqrt0 hsqrt hL x0 t x hhL hb
    have h1 : (9 * dam_break_g : ℚ) ≠ 0 := by norm_num [dam_break_g]
    have h2 : (2 * t : ℚ) ≠ 0 := by positivity
    have h3 : (3 : ℚ) ≠ 0 := by norm_num
    have h4 : t ≠ 0 := ne_of_gt ht
    simp only [divide, if_neg h1, if_neg h2, if_neg h3, if_neg h4]
    exact ⟨_, _, rfl⟩

theorem dam_break_nonpositive_time (sqrt : ℚ → ℚ) (hsqrt0 : sqrt 0 = 0)
    (hsqrt : ∀ a, 0 ≤ a → 0 ≤ sqrt a) (hL x0 t x : ℚ) (hhL : 0 ≤ hL) (ht : t ≤ 0) :
    dam_break_1D_exact sqrt hL x0 t x
      = Except.ok (if 0 ≤ x ∧ x < x0 - t * sqrt (dam_break_g * hL) then (hL, 0) else (0, 0)) := by
  have hne : dam_break_1D_branch sqrt hL x0 t x ≠ DamBreakBranch.rarefaction := by
    intro hb
    have := (dam_break_rarefaction sqrt hsqrt0 hsqrt hL x0 t x hhL hb).1
    linarith
  unfold dam_break_1D_exact
  cases hb : dam_break_1D_branch sqrt hL x0 t x with
  | rarefaction => exact absurd hb hne
  | reservoir =>
    unfold dam_break_1D_branch at hb
    simp only at hb
    split_ifs at hb with h1
    simp only [if_pos h1]
  | dry =>
    unfold dam_break_1D_branch at hb
    simp only at hb
    split_ifs at hb with h1 h2
    simp only [if_neg h1]

theorem dam_break_field_at_zero (sqrt : ℚ → ℚ) (hsqrt0 : sqrt 0 = 0)
    (hsqrt : ∀ a, 0 ≤ a → 0 ≤ sqrt a) (centroids : List ℚ) :
    dam_break_1D_exact_field sqrt 0 centroids
      = Except.ok (centroids.map
          (fun x => if 0 ≤ x ∧ x < 1000 then ((10 : ℚ), (0 : ℚ)) else (0, 0))) := by
  induction centroids with
  | nil => rfl
  | cons x rest ih =>
    rw [dam_break_1D_exact_field, ih,
      dam_break_nonpositive_time sqrt hsqrt0 hsqrt 10 1000 0 x (by norm_num) (le_refl _)]
    simp

/-- Claim C25.  With a square root that is zero at zero and non-negative on non-negative
arguments, for every `hL ≥ 0` and every `x0`, `t` and `x`: `dam_break_1D_exact` returns values
`h` and `u` without a division by zero; the rarefaction branch, the only one with a division by
`t`, is selected only when `t > 0` and `hL > 0`; for `t ≤ 0` the result is `h = hL`, `u = 0`
when `0 ≤ x < xA` and `h = 0`, `u = 0` otherwise; and at `t = 0`, the time of the first
evaluation by the test, `dam_break_1D_exact_field` fills every cell with `h = 10`, `u = 0` when
`0 ≤ x < 1000` and with zeros otherwise. -/
theorem dam_break_1D_exact_no_division_by_zero (sqrt : ℚ → ℚ) (hsqrt0 : sqrt 0 = 0)
    (hsqrt : ∀ a, 0 ≤ a → 0 ≤ sqrt a) (hL x0 t x : ℚ) (hhL : 0 ≤ hL) :
    (∃ h u, dam_break_1D_exact sqrt hL x0 t x = Except.ok (h, u)) ∧
    (dam_break_1D_branch sqrt hL x0 t x = DamBreakBranch.rarefaction → 0 < t ∧ 0 < hL) ∧
    (t ≤ 0 →
      dam_break_1D_exact sqrt hL x0 t x
        = Except.ok
            (if 0 ≤ x ∧ x < x0 - t * sqrt (dam_break_g * hL) then (hL, 0) else (0, 0))) ∧
    (∀ centroids : List ℚ,
      dam_break_1D_exact_field sqrt 0 centroids
        = Except.ok (centroids.map
            (fun c => if 0 ≤ c ∧ c < 1000 then ((10 : ℚ), (0 : ℚ)) else (0, 0)))) :=
  ⟨dam_break_returns sqrt hsqrt0 hsqrt hL x0 t x hhL,
    dam_break_rarefaction sqrt hsqrt0 hsqrt hL x0 t x hhL,
    dam_break_nonpositive_time sqrt hsqrt0 hsqrt hL x0 t x hhL,
    dam_break_field_at_zero sqrt hsqrt0 hsqrt⟩

theorem sampleSqrt_981 : sampleSqrt (dam_break_g * 10) = 99 / 10 := by
  have h1 : (dam_break_g * 10 : ℚ) = 981 / 10 := by norm_num [dam_break_g]
  have hnum : ((981 / 10 : ℚ)).num = 981 := by
    have := Rat.num_div_eq_of_coprime (a := 981) (b := 10) (by norm_num) (by norm_num)
    simpa using this
  have hden : ((981 / 10 : ℚ)).den = 10 := by
    have := Rat.den_div_eq_of_coprime (a := 981) (b := 10) (by norm_num) (by norm_num)
    have h : (((981 / 10 : ℚ)).den : ℤ) = ((10 : ℕ) : ℤ) := by simpa using this
    exact Int.ofNat_inj.mp h
  have hs : Nat.sqrt 9810 = 99 := (Nat.eq_sqrt.mpr ⟨by norm_num, by norm_num⟩).symm
  rw [h1]
  unfold sampleSqrt
  have h9810 : Int.toNat 981 * 10 = 9810 := by rfl
  rw [hnum, hden, h9810, hs]
  norm_num


theorem dam_break_branch_reservoir (sqrt : ℚ → ℚ) (hL x0 t x : ℚ)
    (h1 : 0 ≤ x ∧ x < x0 - t * sqrt (dam_break_g * hL)) :
    dam_break_1D_branch sqrt hL x0 t x = DamBreakBranch.reservoir := by
  unfold dam_break_1D_branch
  simp only [if_pos h1]

theorem dam_break_branch_rarefaction (sqrt : ℚ → ℚ) (hL x0 t x : ℚ)
    (h1 : ¬ (0 ≤ x ∧ x < x0 - t * sqrt (dam_break_g * hL)))
    (h2 : x0 - t * sqrt (dam_break_g * hL) ≤ x ∧ x < x0 + 2 * t * sqrt (dam_break_g * hL)) :
    dam_break_1D_branch sqrt hL x0 t x = DamBreakBranch.rarefaction := by
  unfold dam_break_1D_branch
  simp only [if_neg h1, if_pos h2]

theorem dam_break_branch_dry (sqrt : ℚ → ℚ) (hL x0 t x : ℚ)
    (h1 : ¬ (0 ≤ x ∧ x < x0 - t * sqrt (dam_break_g * hL)))
    (h2 : ¬ (x0 - t * sqrt (dam_break_g * hL) ≤ x
      ∧ x < x0 + 2 * t * sqrt (dam_break_g * hL))) :
    dam_break_1D_branch sqrt hL x0 t x = DamBreakBranch.dry := by
  unfold dam_break_1D_branch
  simp only [if_neg h1, if_neg h2]

/-- The values of the rarefaction branch for a time other than zero. -/
theorem dam_break_rarefaction_values (sqrt : ℚ → ℚ) (hL x0 t x : ℚ) (ht : t ≠ 0)
    (hb : dam_break_1D_branch sqrt hL x0 t x = DamBreakBranch.rarefaction) :
    dam_break_1D_exact sqrt hL x0 t x
      = Except.ok
          (4 / (9 * dam_break_g) * (sqrt (dam_break_g * hL) - (x - x0) / (2 * t))
              * (sqrt (dam_break_g * hL) - (x - x0) / (2 * t)),
            2 / 3 * ((x - x0) / t + sqrt (dam_break_g * hL))) := by
  have h1 : (9 * dam_break_g : ℚ) ≠ 0 := by norm_num [dam_break_g]
  have h2 : (2 * t : ℚ) ≠ 0 := mul_ne_zero (by norm_num) ht
  have h3 : (3 : ℚ) ≠ 0 := by norm_num
  unfold dam_break_1D_exact
  simp only [hb, divide, if_neg h1, if_neg h2, if_neg h3, if_neg ht]

/-- The values of the reservoir branch. -/
theorem dam_break_reservoir_values (sqrt : ℚ → ℚ) (hL x0 t x : ℚ)
    (hb : dam_break_1D_branch sqrt hL x0 t x = DamBreakBranch.reservoir) :
    dam_break_1D_exact sqrt hL x0 t x = Except.ok (hL, 0) := by
  unfold dam_break_1D_exact
  simp only [hb]

/-- The values of the dry branch. -/
theorem dam_break_dry_values (sqrt : ℚ → ℚ) (hL x0 t x : ℚ)
    (hb : dam_break_1D_branch sqrt hL x0 t x = DamBreakBranch.dry) :
    dam_break_1D_exact sqrt hL x0 t x = Except.ok (0, 0) := by
  unfold dam_break_1D_exact
  simp only [hb]

/-- Claim C25 with `sampleSqrt`, the depth `hL = 10` and the dam at `x0 = 1000` of the test: at
`t = 0` the cell at `x = 500` holds the reservoir depth and the cell at `x = 1500` is dry; at
`t = 10` the point `x = 1000` lies in the rarefaction wave, where both divisions by `t` are
made with `t = 10`. -/
theorem dam_break_1D_exact_no_division_by_zero_witness :
    dam_break_1D_exact sampleSqrt 10 1000 0 500 = Except.ok (10, 0) ∧
    dam_break_1D_exact sampleSqrt 10 1000 0 1500 = Except.ok (0, 0) ∧
    dam_break_1D_branch sampleSqrt 10 1000 10 1000 = DamBreakBranch.rarefaction ∧
    dam_break_1D_exact sampleSqrt 10 1000 10 1000 = Except.ok (484 / 109, 33 / 5) ∧
    (0 : ℚ) ≤ 10 ∧
    ((∃ h u, dam_break_1D_exact sampleSqrt 10 1000 10 1000 = Except.ok (h, u)) ∧
      (dam_break_1D_branch sampleSqrt 10 1000 10 1000 = DamBreakBranch.rarefaction →
        (0 : ℚ) < 10 ∧ (0 : ℚ) < 10) ∧
      ((10 : ℚ) ≤ 0 →
        dam_break_1D_exact sampleSqrt 10 1000 10 1000
          = Except.ok
              (if (0 : ℚ) ≤ 1000 ∧ (1000 : ℚ) < 1000 - 10 * sampleSqrt (dam_break_g * 10)
                then (10, 0) else (0, 0))) ∧
      (∀ centroids : List ℚ,
        dam_break_1D_exact_field sampleSqrt 0 centroids
          = Except.ok (centroids.map
              (fun c => if 0 ≤ c ∧ c < 1000 then ((10 : ℚ), (0 : ℚ)) else (0, 0))))) := by
  have hb : dam_break_1D_branch sampleSqrt 10 1000 10 1000 = DamBreakBranch.rarefaction :=
    dam_break_branch_rarefaction sampleSqrt 10 1000 10 1000
      (by rw [sampleSqrt_981]; norm_num) (by rw [sampleSqrt_981]; norm_num)
  refine ⟨?_, ?_, hb, ?_, by norm_num,
    dam_break_1D_exact_no_division_by_zero sampleSqrt sampleSqrt_zero
      (fun a _ => sampleSqrt_nonneg a) 10 1000 10 1000 (by norm_num)⟩
  · exact dam_break_reservoir_values sampleSqrt 10 1000 0 500
      (dam_break_branch_reservoir sampleSqrt 10 1000 0 500 (by norm_num))
  · exact dam_break_dry_values sampleSqrt 10 1000 0 1500
      (dam_break_branch_dry sampleSqrt 10 1000 0 1500 (by norm_num) (by norm_num))
  · rw [dam_break_rarefaction_values sampleSqrt 10 1000 10 1000 (by norm_num) hb,
      sampleSqrt_981]
    norm_num [dam_break_g]

end Amanzi
